import Mathlib

/-!
# mdtopdf: the container-state stack renderer (`nodeProcessing.go`)

A shallow embedding of the node handlers of `nodeProcessing.go` and proofs of
the properties its specification states about them.

Conventions of the embedding

* The renderer `*PdfRenderer` together with the package-level variables
  `cellwidths`, `curdatacell` and `fill` is one record `PdfRenderer`; every
  handler is a function from a renderer state to `Except Fault PdfRenderer`.
* The canvas `r.Pdf` is the record `Canvas`: the left margin, the selected
  font, the number of link handles handed out, and the list of the commands
  issued so far (oldest first).  What the canvas answers to a query that
  depends on layout (string width, cursor, page number) is taken from `Env`.
* `float64` quantities (margins, sizes, widths) are values of the type
  `float64` below: IEEE 754 binary64 with round to nearest, ties to even,
  gradual underflow and overflow to infinity. The theorems use no law of
  arithmetic: where a result needs a sum to be undone exactly by a difference,
  that is a hypothesis on the numbers involved.
* Go `int` counters (`itemNumber`, `curdatacell`, link handles) are natural
  numbers: they start at zero and are only incremented once per event, so a
  64-bit overflow needs an event stream of more than `2^63` events.
* Go strings are byte strings; the handlers only search, replace and trim the
  one-byte ASCII characters `'\n'`, `' '`, `'i'` and `'b'`, which act on the
  code points of a UTF-8 string exactly as on its bytes.
* `r.tracer` writes diagnostics to a separate stream and touches neither the
  renderer nor the canvas; it is left out.
-/

namespace Mdtopdf

/-! ## The Go type `float64` -/

/-- Number of binary digits of `n`, by halving at most `fuel` times. -/
def bitLengthAux : Nat → Nat → Nat → Nat
  | 0, _, acc => acc
  | fuel + 1, n, acc => if n = 0 then acc else bitLengthAux fuel (n / 2) (acc + 1)

/-- Number of binary digits of `n`: 0 for 0, and `k + 1` when `2^k ≤ n < 2^(k+1)`. -/
def bitLength (n : Nat) : Nat :=
  bitLengthAux n n 0

/-- Number of trailing zero bits of `n`, by halving at most `fuel` times. -/
def trailingZerosAux : Nat → Nat → Nat → Nat
  | 0, _, acc => acc
  | fuel + 1, n, acc => if n % 2 = 1 then acc else trailingZerosAux fuel (n / 2) (acc + 1)

/-- Number of trailing zero bits of `n` (0 for 0). -/
def trailingZeros (n : Nat) : Nat :=
  trailingZerosAux n n 0

/-- The values of the Go type `float64` (IEEE 754 binary64): a finite value
`mant * 2^exp`, an infinity, or not-a-number. The operations below produce
finite values in the canonical form `mant` odd, or `mant = 0` and `exp = 0`,
so two results are equal exactly when they are the same number. The sign of a
zero is not kept: Go's `==` does not tell `-0` from `0`. Equality of two
values here is identity, so `nan = nan` holds, where Go's `==` is false on a
not-a-number. -/
inductive float64
  | fin (mant : Int) (exp : Int)
  | inf (negative : Bool)
  | nan
deriving DecidableEq, Repr

/-- The canonical form of the number `m * 2^e`. -/
def float64.canonical (m : Int) (e : Int) : float64 :=
  if m = 0 then float64.fin 0 0
  else
    let k := trailingZeros m.natAbs
    let n : Int := ((m.natAbs / 2 ^ k : Nat) : Int)
    float64.fin (if m < 0 then -n else n) (e + (k : Int))

/-- The number `m * 2^e` rounded to binary64, to nearest with ties to even:
53 significant bits, the least exponent of the last bit `-1074` (gradual
underflow), and overflow to infinity from `2^1024` on. -/
def float64.round (m : Int) (e : Int) : float64 :=
  let n := m.natAbs
  let q := max (e + (bitLength n : Int) - 53) (-1074)
  let s := (q - e).toNat
  let t := n / 2 ^ s
  let rem := n % 2 ^ s
  let half := 2 ^ s / 2
  let up := decide (s ≠ 0) && (decide (half < rem) || (decide (rem = half) && decide (t % 2 = 1)))
  let t := if up then t + 1 else t
  let e1 := if s = 0 then e else q
  if 1024 < (bitLength t : Int) + e1 then float64.inf (decide (m < 0))
  else float64.canonical (if m < 0 then -(t : Int) else (t : Int)) e1

/-- The conversion of an integer constant to `float64`. -/
def float64.ofNat (n : Nat) : float64 :=
  float64.round (n : Int) 0

/-- The quotient `n / d` of two naturals rounded to binary64: the quotient is
taken to at least 55 bits and a sticky bit records a non-zero remainder. -/
def float64.ofRatio (n d : Nat) : float64 :=
  if d = 0 then float64.nan
  else
    let k := bitLength d + 55 - bitLength n
    let q := n * 2 ^ k / d
    let sticky := if n * 2 ^ k % d = 0 then 0 else 1
    float64.round ((2 * q + sticky : Nat) : Int) (-((k : Int) + 1))

/-- The value of a decimal constant `mantissa * 10^(±exponent)`. -/
def float64.ofDecimal (mantissa : Nat) (negativeExponent : Bool) (exponent : Nat) : float64 :=
  if negativeExponent then float64.ofRatio mantissa (10 ^ exponent)
  else float64.ofNat (mantissa * 10 ^ exponent)

/-- The Go operator unary `-` on `float64`. -/
def float64.neg : float64 → float64
  | float64.fin m e => float64.fin (-m) e
  | float64.inf s => float64.inf (!s)
  | float64.nan => float64.nan

/-- The Go operator `+` on `float64`: the exact sum, rounded. -/
def float64.add : float64 → float64 → float64
  | float64.fin a ea, float64.fin b eb =>
    let e := min ea eb
    float64.round (a * ((2 ^ (ea - e).toNat : Nat) : Int) + b * ((2 ^ (eb - e).toNat : Nat) : Int)) e
  | float64.fin _ _, float64.inf t => float64.inf t
  | float64.inf s, float64.fin _ _ => float64.inf s
  | float64.inf s, float64.inf t => if s = t then float64.inf s else float64.nan
  | float64.nan, _ => float64.nan
  | _, float64.nan => float64.nan

/-- The Go operator `-` on `float64`. -/
def float64.sub (a b : float64) : float64 :=
  float64.add a (float64.neg b)

/-- The Go operator `*` on `float64`: the exact product, rounded. -/
def float64.mul : float64 → float64 → float64
  | float64.fin a ea, float64.fin b eb => float64.round (a * b) (ea + eb)
  | float64.fin a _, float64.inf t =>
    if a = 0 then float64.nan else float64.inf (decide (a < 0) != t)
  | float64.inf s, float64.fin b _ =>
    if b = 0 then float64.nan else float64.inf (s != decide (b < 0))
  | float64.inf s, float64.inf t => float64.inf (s != t)
  | float64.nan, _ => float64.nan
  | _, float64.nan => float64.nan

instance : Add float64 := ⟨float64.add⟩
instance : Sub float64 := ⟨float64.sub⟩
instance : Mul float64 := ⟨float64.mul⟩
instance : Neg float64 := ⟨float64.neg⟩
instance (n : Nat) : OfNat float64 n := ⟨float64.ofNat n⟩
instance : OfScientific float64 := ⟨float64.ofDecimal⟩

/-- The arithmetic at a few values: the constant 0.1 is the binary64 number
3602879701896397 * 2^-55; integer sums are exact; and a sum is not always
undone by the difference. -/
theorem float64_values :
    (0.1 : float64) = float64.fin 3602879701896397 (-55) ∧
    ((10 : float64) + 36) - 36 = 10 ∧
    ((0.1 : float64) + 0.2) - 0.2 = 0.10000000000000003 ∧
    ((0.1 : float64) + 0.2) - 0.2 ≠ 0.1 ∧
    ((58.338 : float64) + 29.988) - 29.988 = 58.337999999999994 := by
  decide

/-! ## Data model -/

/-- Modelled from the spec: the style descriptor `Styler` (declared outside
`nodeProcessing.go`): `{sizePt, styleFlags, spacingPt}`; the handlers read and
write its fields `Style`, `Size` and `Spacing`. -/
structure Styler where
  Style : String
  Size : float64
  Spacing : float64
deriving DecidableEq, Repr

/-- Node kinds of the parsed tree (`bf.NodeType`). -/
inductive NodeType
  | Document | BlockQuote | List | Item | Paragraph | Heading | HorizontalRule
  | Emph | Strong | Del | Link | Image | Text | HTMLBlock | CodeBlock
  | Softbreak | Hardbreak | Code | HTMLSpan
  | Table | TableCell | TableHead | TableBody | TableRow
deriving DecidableEq, Repr

/-- The list kinds `notlist`, `unordered`, `ordered`, `definition`. -/
inductive ListKind
  | notlist | unordered | ordered | definition
deriving DecidableEq, Repr

/-- Modelled from the spec: the stack frame `containerState` (declared outside
`nodeProcessing.go`), with the fields the handlers use. -/
structure containerState where
  containerType : NodeType
  textStyle : Styler
  leftMargin : float64
  listkind : ListKind := ListKind.notlist
  itemNumber : Nat := 0
  firstParagraph : Bool := false
  destination : String := ""
  isHeader : Bool := false
deriving DecidableEq, Repr

/-- Commands issued to the canvas, in the order of issue. -/
inductive Cmd
  | setStyler (s : Styler)
  | cr
  | write (s : Styler) (t : String)
  | writeLink (s : Styler) (t : String) (dest : String)
  | writeAnchorLink (s : Styler) (t : String) (id : Nat)
  | multiCell (s : Styler) (t : String)
  | AddLink (id : Nat)
  | SetLink (id : Nat) (y : float64) (page : Nat)
  | CellFormat (w h : float64) (txt borderStr : String) (ln : Nat) (alignStr : String) (fill : Bool)
  | SetLeftMargin (m : float64)
  | SetX (x : float64)
  | Ln
  | ImageOptions (path : String) (multiplyDPI : float64) (isInline : Bool)
  | MoveTo (x y : float64)
  | LineTo (x y : float64)
  | SetLineWidth (width : float64)
  | SetFillColor (red green blue : Nat)
  | SetDrawColor (red green blue : Nat)
  | DrawPath (styleStr : String)
deriving DecidableEq, Repr

/-- The canvas `r.Pdf` as far as the handlers observe it. -/
structure Canvas where
  leftMargin : float64
  font : Styler
  links : Nat
  log : List Cmd
deriving DecidableEq, Repr

/-- Answers of the external collaborators: the canvas queries that depend on
layout, the URL-scheme test, and the file predicates of the image handler. -/
structure Env where
  stringWidth : Styler → String → float64
  pageNo : List Cmd → Nat
  getXY : List Cmd → float64 × float64
  pageWidth : float64
  hasURLScheme : String → Bool
  notExists : String → Bool
  canOpen : String → Bool
  pathClean : String → String

/-- Ways in which a handler aborts (a Go run-time panic). -/
inductive Fault
  | emptyStack
  | popRoot
  | noParent
  | indexOutOfRange
deriving DecidableEq, Repr

/-- The renderer: style registry, container stack (top first), transient
flags, anchor map, and the package-level table variables. -/
structure PdfRenderer where
  Pdf : Canvas
  Normal : Styler
  H1 : Styler
  H2 : Styler
  H3 : Styler
  H4 : Styler
  H5 : Styler
  H6 : Styler
  Backtick : Styler
  Blockquote : Styler
  Link : Styler
  THeader : Styler
  TBody : Styler
  IndentValue : float64
  em : float64
  LocalFilePathPrefix : String
  LocalImagePathAlternativePrefix : String
  cs : List containerState
  IsInText : Bool
  IsInImage : Bool
  TrimNext : Bool
  ParagraphUnprocessed : Bool
  StrongOn : Bool
  CurrentHeaderStyler : Option Nat
  anchorLinks : List (String × Nat)
  errors : List String
  cellwidths : List float64
  curdatacell : Nat
  fill : Bool
deriving DecidableEq, Repr

/-! ## String helpers -/

/-- The Go call `strings.Replace(s, "\n", " ", -1)`. -/
def replaceNewlines (s : String) : String :=
  String.mk (s.data.map (fun c => if c = '\n' then ' ' else c))

/-- The Go call `strings.TrimLeft(s, " ")`. -/
def trimLeftSpaces (s : String) : String :=
  String.mk (s.data.dropWhile (fun c => c = ' '))

/-- The Go call `strings.Contains(s, string(c))` for a one-byte character. -/
def containsChar (s : String) (c : Char) : Bool :=
  s.data.contains c

/-- The Go call `strings.Replace(s, string(c), "", -1)` for a one-byte character. -/
def removeChar (s : String) (c : Char) : String :=
  String.mk (s.data.filter (fun d => d ≠ c))

/-- The Go call `fmt.Sprintf("%v.", n)`. -/
def ordinal (n : Nat) : String :=
  toString n ++ "."

/-! ## Canvas primitives -/

/-- Append a command to the canvas log. -/
def PdfRenderer.emit (r : PdfRenderer) (c : Cmd) : PdfRenderer :=
  { r with Pdf := { r.Pdf with log := r.Pdf.log ++ [c] } }

/-- Modelled from the spec: `r.setStyler(s)` selects the style `s` on the canvas. -/
def PdfRenderer.setStyler (r : PdfRenderer) (s : Styler) : PdfRenderer :=
  { r with Pdf := { r.Pdf with font := s, log := r.Pdf.log ++ [Cmd.setStyler s] } }

/-- Modelled from the spec: `r.cr()` forces a line break. -/
def PdfRenderer.cr (r : PdfRenderer) : PdfRenderer :=
  r.emit Cmd.cr

/-- Modelled from the spec: `r.write(s, t)` emits the styled text `t`. -/
def PdfRenderer.write (r : PdfRenderer) (s : Styler) (t : String) : PdfRenderer :=
  r.emit (Cmd.write s t)

/-- Modelled from the spec: `r.writeLink(s, t, dest)` writes a clickable external reference. -/
def PdfRenderer.writeLink (r : PdfRenderer) (s : Styler) (t dest : String) : PdfRenderer :=
  r.emit (Cmd.writeLink s t dest)

/-- Modelled from the spec: `r.writeAnchorLink(s, t, id)` writes a clickable internal reference. -/
def PdfRenderer.writeAnchorLink (r : PdfRenderer) (s : Styler) (t : String) (id : Nat) :
    PdfRenderer :=
  r.emit (Cmd.writeAnchorLink s t id)

/-- Modelled from the spec: `r.multiCell(s, t)` emits `t` as a multi-line block. -/
def PdfRenderer.multiCell (r : PdfRenderer) (s : Styler) (t : String) : PdfRenderer :=
  r.emit (Cmd.multiCell s t)

/-- The canvas call `r.Pdf.SetLeftMargin(m)`. -/
def PdfRenderer.SetLeftMargin (r : PdfRenderer) (m : float64) : PdfRenderer :=
  { r with Pdf := { r.Pdf with leftMargin := m, log := r.Pdf.log ++ [Cmd.SetLeftMargin m] } }

/-- The canvas call `r.Pdf.AddLink()`: a fresh handle, one more than the last. -/
def PdfRenderer.AddLink (r : PdfRenderer) : Nat × PdfRenderer :=
  (r.Pdf.links + 1,
   { r with Pdf := { r.Pdf with links := r.Pdf.links + 1,
                                log := r.Pdf.log ++ [Cmd.AddLink (r.Pdf.links + 1)] } })

/-! ## Container stack -/

/-- Modelled from the spec: `push(frame)` appends to the top. -/
def PdfRenderer.push (r : PdfRenderer) (x : containerState) : PdfRenderer :=
  { r with cs := x :: r.cs }

/-- Modelled from the spec: `peek()` returns the top frame without removing it. -/
def PdfRenderer.peek (r : PdfRenderer) : Except Fault containerState :=
  match r.cs with
  | [] => Except.error Fault.emptyStack
  | top :: _ => Except.ok top

/-- Modelled from the spec: `pop()` removes and discards the top frame, and
fails fatally if only the root frame remains. -/
def PdfRenderer.pop (r : PdfRenderer) : Except Fault PdfRenderer :=
  match r.cs with
  | _ :: below :: rest => Except.ok { r with cs := below :: rest }
  | _ => Except.error Fault.popRoot

/-- Modelled from the spec: `peekParent()` returns the frame directly below the top. -/
def PdfRenderer.parent (r : PdfRenderer) : Except Fault containerState :=
  match r.cs with
  | _ :: below :: _ => Except.ok below
  | _ => Except.error Fault.noParent

/-- Assignment through the pointer `r.cs.peek()`: update the top frame in place. -/
def PdfRenderer.modifyTop (r : PdfRenderer) (f : containerState → containerState) :
    Except Fault PdfRenderer :=
  match r.cs with
  | [] => Except.error Fault.emptyStack
  | top :: rest => Except.ok { r with cs := f top :: rest }

/-- Assignment through the pointer `r.cs.parent()`: update the frame below the top in place. -/
def PdfRenderer.modifyParent (r : PdfRenderer) (f : containerState → containerState) :
    Except Fault PdfRenderer :=
  match r.cs with
  | top :: below :: rest => Except.ok { r with cs := top :: f below :: rest }
  | _ => Except.error Fault.noParent

/-- The page-relative queries `r.Pdf.GetMargins()`: the left margin. -/
def PdfRenderer.GetLeftMargin (r : PdfRenderer) : float64 :=
  r.Pdf.leftMargin

/-- Read of the Go map `r.anchorLinks[key]`. -/
def PdfRenderer.anchor (r : PdfRenderer) (key : String) : Option Nat :=
  r.anchorLinks.lookup key

/-- The style a heading level selects from the registry (`r.H1` .. `r.H6`). -/
def PdfRenderer.headingStyle (r : PdfRenderer) (level : Nat) : Styler :=
  match level with
  | 1 => r.H1
  | 2 => r.H2
  | 3 => r.H3
  | 4 => r.H4
  | 5 => r.H5
  | _ => r.H6

/-- The list kind `processList` computes from `node.ListFlags`
(`bf.ListTypeOrdered = 1`, `bf.ListTypeDefinition = 2`). -/
def listKindOf (flags : Nat) : ListKind :=
  let kind := if flags &&& 1 ≠ 0 then ListKind.ordered else ListKind.unordered
  if flags &&& 2 ≠ 0 then ListKind.definition else kind

/-! ## The handlers of `nodeProcessing.go` -/

/-- Resolve or create the anchor handle for `key` (lines 53-57 and 66-71). -/
def PdfRenderer.resolveAnchor (r : PdfRenderer) (key : String) : Nat × PdfRenderer :=
  match r.anchor key with
  | some id => (id, r)
  | none =>
    let p := r.AddLink
    (p.1, { p.2 with anchorLinks := (key, p.1) :: p.2.anchorLinks })

/-- Lines 50-102 of `processText`: the text is written according to the kind
of the top frame `top`, in the style `currentStyle`. -/
def writeText (env : Env) (top : containerState) (headingID s : String) (r : PdfRenderer) :
    Except Fault PdfRenderer :=
  let currentStyle := top.textStyle
  if top.containerType = NodeType.Link then
    let sdest := top.destination
    if !env.hasURLScheme sdest then
      let p := r.resolveAnchor sdest
      Except.ok (p.2.writeAnchorLink currentStyle s p.1)
    else
      Except.ok (r.writeLink currentStyle s sdest)
  else if top.containerType = NodeType.Heading then
    let r := { r with IsInText := true }
    let hid := "#" ++ headingID
    let p := r.resolveAnchor hid
    let r := p.2.emit (Cmd.SetLink p.1 (-1) (env.pageNo p.2.Pdf.log))
    Except.ok (r.write currentStyle s)
  else if top.containerType = NodeType.TableCell then
    let r := { r with IsInText := true }
    if top.isHeader then
      let r := r.setStyler currentStyle
      let hw := env.stringWidth r.Pdf.font s + 2 * r.em
      let r := { r with cellwidths := r.cellwidths ++ [hw] }
      let h := r.Pdf.font.Size + currentStyle.Spacing
      Except.ok (r.emit (Cmd.CellFormat hw h s "1" 0 "C" true))
    else
      let r := r.setStyler currentStyle
      match r.cellwidths.get? r.curdatacell with
      | none => Except.error Fault.indexOutOfRange
      | some hw =>
        let h := currentStyle.Size + currentStyle.Spacing
        Except.ok (r.emit (Cmd.CellFormat hw h s "LR" 0 "" r.fill))
  else
    let r := { r with IsInText := decide (s ≠ "") }
    Except.ok (r.write currentStyle s)

/-- Lines 103-110 of `processText`: the first non-empty text of a paragraph
inside a list. -/
def firstTextRule (top : containerState) (s : String) (r : PdfRenderer) : PdfRenderer :=
  if r.ParagraphUnprocessed && decide (top.listkind ≠ ListKind.notlist) && decide (s ≠ "") then
    let r := if r.StrongOn then ({ r with TrimNext := true }).cr else r
    { r with ParagraphUnprocessed := false }
  else
    r

/-- Lines 43-48 of `processText`: the text to write. -/
def textToWrite (literal : String) (trimNext : Bool) : String :=
  let s := replaceNewlines literal
  if trimNext then trimLeftSpaces s else s

/-- Lines 39-48 of `processText`: the state in which the text is written. -/
def beginText (top : containerState) (r : PdfRenderer) : PdfRenderer :=
  let r := { r with IsInText := false }
  let r := r.setStyler top.textStyle
  if r.TrimNext then { r with TrimNext := false } else r

/-- The handler `processText`; `headingID` is `node.Parent.HeadingData.HeadingID`.
The handler does not change the stack, so `r.cs.peek()` is read once. -/
def processText (env : Env) (literal headingID : String) (r : PdfRenderer) :
    Except Fault PdfRenderer :=
  if r.IsInImage then
    Except.ok r
  else do
    let top ← r.peek
    let s := textToWrite literal r.TrimNext
    let r ← writeText env top headingID s (beginText top r)
    Except.ok (firstTextRule top s r)

/-- The handler `processCodeblock`. -/
def processCodeblock (literal : String) (r : PdfRenderer) : Except Fault PdfRenderer :=
  let r := r.setStyler r.Backtick
  let r := r.cr
  Except.ok (r.multiCell r.Backtick literal)

/-- The handler `processList`. -/
def processList (flags : Nat) (entering : Bool) (r : PdfRenderer) : Except Fault PdfRenderer := do
  let kind := listKindOf flags
  let r := r.setStyler r.Normal
  if entering then
    let top ← r.peek
    let r := r.SetLeftMargin (top.leftMargin + r.IndentValue)
    let x : containerState :=
      { containerType := NodeType.List, textStyle := r.Normal, itemNumber := 0,
        listkind := kind, leftMargin := top.leftMargin + r.IndentValue }
    Except.ok (r.push x)
  else
    let top ← r.peek
    let r := r.SetLeftMargin (top.leftMargin - r.IndentValue)
    let r ← r.pop
    if r.cs.length < 2 then
      Except.ok r.cr
    else
      Except.ok r

/-- The handler `processItem`. -/
def processItem (entering : Bool) (r : PdfRenderer) : Except Fault PdfRenderer := do
  if entering then
    let top ← r.peek
    let r := r.cr
    let x : containerState :=
      { containerType := NodeType.Item, textStyle := r.Normal,
        itemNumber := top.itemNumber + 1, listkind := top.listkind,
        firstParagraph := true, leftMargin := top.leftMargin }
    let r := r.push x
    let r :=
      if x.listkind = ListKind.unordered then
        r.emit (Cmd.CellFormat (3 * r.em) (r.Normal.Size + r.Normal.Spacing) "*" "" 0 "RB" false)
      else if x.listkind = ListKind.ordered then
        r.emit (Cmd.CellFormat (3 * r.em) (r.Normal.Size + r.Normal.Spacing)
          (ordinal x.itemNumber) "" 0 "RB" false)
      else r
    let r := r.SetLeftMargin (x.leftMargin + 4 * r.em)
    Except.ok (r.emit (Cmd.SetX (x.leftMargin + 4 * r.em)))
  else
    let top ← r.peek
    let r := r.SetLeftMargin top.leftMargin
    let r := r.cr
    let r ← r.modifyParent (fun p => { p with itemNumber := p.itemNumber + 1 })
    r.pop

/-- The handler `processEmph`. -/
def processEmph (entering : Bool) (r : PdfRenderer) : Except Fault PdfRenderer := do
  if entering then
    let top ← r.peek
    if !containsChar top.textStyle.Style 'i' then
      r.modifyTop (fun t => { t with textStyle := { t.textStyle with Style := t.textStyle.Style ++ "i" } })
    else
      Except.ok r
  else
    r.modifyTop (fun t =>
      { t with textStyle := { t.textStyle with Style := removeChar t.textStyle.Style 'i' } })

/-- The handler `processStrong`. -/
def processStrong (entering : Bool) (r : PdfRenderer) : Except Fault PdfRenderer := do
  let r := { r with StrongOn := entering }
  if entering then
    r.modifyTop (fun t =>
      let s := t.textStyle.Style
      let s := if !containsChar s 'b' then s ++ "b" else s
      { t with textStyle := { t.textStyle with Style := s } })
  else
    r.modifyTop (fun t =>
      { t with textStyle := { t.textStyle with Style := removeChar t.textStyle.Style 'b' } })

/-- The handler `processLink`. -/
def processLink (destination : String) (entering : Bool) (r : PdfRenderer) :
    Except Fault PdfRenderer := do
  if entering then
    let styler := r.Link
    let styler :=
      match r.CurrentHeaderStyler with
      | some level => { styler with Size := (r.headingStyle level).Size }
      | none => styler
    let top ← r.peek
    let x : containerState :=
      { containerType := NodeType.Link, textStyle := styler, listkind := ListKind.notlist,
        leftMargin := top.leftMargin, destination := destination }
    Except.ok (r.push x)
  else
    r.pop

/-- The handler `processImage`. -/
def processImage (env : Env) (destination : String) (entering : Bool) (r : PdfRenderer) :
    Except Fault PdfRenderer :=
  let r := { r with IsInImage := entering }
  if entering then
    let imgPath := r.LocalFilePathPrefix ++ destination
    let missing := env.notExists imgPath
    let multiplyDPI : float64 := if missing then 3 else 0
    let imgPath := if missing then r.LocalImagePathAlternativePrefix ++ destination else imgPath
    let imgPath := env.pathClean imgPath
    if env.canOpen imgPath then
      Except.ok (r.emit (Cmd.ImageOptions imgPath multiplyDPI r.IsInText))
    else
      Except.ok { r with errors := r.errors ++ ["Can't open image; " ++ imgPath] }
  else
    Except.ok r

/-- The handler `processCode`. -/
def processCode (literal : String) (r : PdfRenderer) : Except Fault PdfRenderer :=
  let r := r.setStyler r.Backtick
  Except.ok (r.write r.Backtick literal)

/-- The handler `processParagraph`. -/
def processParagraph (entering : Bool) (r : PdfRenderer) : Except Fault PdfRenderer := do
  let r := r.setStyler r.Normal
  let r := { r with ParagraphUnprocessed := true, TrimNext := false }
  let top ← r.peek
  if entering then
    if top.containerType = NodeType.Item then
      let t := top.listkind
      if t = ListKind.unordered ∨ t = ListKind.ordered ∨ t = ListKind.definition then
        if top.firstParagraph then
          Except.ok r
        else
          Except.ok r.cr
      else
        Except.ok r
    else
      Except.ok r.cr
  else
    if top.containerType = NodeType.Item then
      let t := top.listkind
      if t = ListKind.unordered ∨ t = ListKind.ordered ∨ t = ListKind.definition then
        if top.firstParagraph then
          r.modifyTop (fun f => { f with firstParagraph := false })
        else
          Except.ok r.cr
      else
        Except.ok r
    else
      Except.ok r.cr

/-- The handler `processBlockQuote`. -/
def processBlockQuote (entering : Bool) (r : PdfRenderer) : Except Fault PdfRenderer := do
  if entering then
    let curleftmargin := r.GetLeftMargin
    let x : containerState :=
      { containerType := NodeType.BlockQuote, textStyle := r.Blockquote,
        listkind := ListKind.notlist, leftMargin := curleftmargin + r.IndentValue }
    let r := r.push x
    Except.ok (r.SetLeftMargin (curleftmargin + r.IndentValue))
  else
    let curleftmargin := r.GetLeftMargin
    let r := r.SetLeftMargin (curleftmargin - r.IndentValue)
    let r ← r.pop
    Except.ok r.cr

/-- The handler `processHeading`: levels 1 to 6 push a frame, any other level
falls through the `switch`. -/
def processHeading (level : Nat) (entering : Bool) (r : PdfRenderer) : Except Fault PdfRenderer := do
  if entering then
    let r := r.cr
    if 1 ≤ level ∧ level ≤ 6 then
      let r := { r with CurrentHeaderStyler := some level }
      let top ← r.peek
      let x : containerState :=
        { containerType := NodeType.Heading, textStyle := r.headingStyle level,
          listkind := ListKind.notlist, leftMargin := top.leftMargin }
      Except.ok (r.push x)
    else
      Except.ok r
  else
    let r := { r with CurrentHeaderStyler := none }
    let r := r.cr
    r.pop

/-- The handler `processHorizontalRule`. -/
def processHorizontalRule (env : Env) (r : PdfRenderer) : Except Fault PdfRenderer :=
  let r := r.cr
  let xy := env.getXY r.Pdf.log
  let lm := r.GetLeftMargin
  let w := env.pageWidth
  let newx := w - lm
  let r := r.emit (Cmd.MoveTo xy.1 xy.2)
  let r := r.emit (Cmd.LineTo newx xy.2)
  let r := r.emit (Cmd.SetLineWidth 3)
  let r := r.emit (Cmd.SetFillColor 200 200 200)
  let r := r.emit (Cmd.DrawPath "F")
  Except.ok r.cr

/-- The handler `processHTMLBlock`. -/
def processHTMLBlock (literal : String) (r : PdfRenderer) : Except Fault PdfRenderer :=
  let r := r.cr
  let r := r.setStyler r.Backtick
  let r := r.emit (Cmd.CellFormat 0 r.Backtick.Size literal "" 1 "LT" true)
  Except.ok r.cr

/-- The handler `processTable`. -/
def processTable (entering : Bool) (r : PdfRenderer) : Except Fault PdfRenderer := do
  if entering then
    let top ← r.peek
    let x : containerState :=
      { containerType := NodeType.Table, textStyle := r.THeader,
        listkind := ListKind.notlist, leftMargin := top.leftMargin }
    let r := r.cr
    let r := r.push x
    Except.ok { r with fill := false }
  else
    let wSum := r.cellwidths.foldl (fun acc w => acc + w) 0
    let r := r.emit (Cmd.CellFormat wSum 0 "" "T" 0 "" false)
    let r ← r.pop
    Except.ok r.cr

/-- The handler `processTableHead`. -/
def processTableHead (entering : Bool) (r : PdfRenderer) : Except Fault PdfRenderer := do
  if entering then
    let top ← r.peek
    let x : containerState :=
      { containerType := NodeType.TableHead, textStyle := r.THeader,
        listkind := ListKind.notlist, leftMargin := top.leftMargin }
    let r := r.push x
    Except.ok { r with cellwidths := [] }
  else
    r.pop

/-- The handler `processTableBody`. -/
def processTableBody (entering : Bool) (r : PdfRenderer) : Except Fault PdfRenderer := do
  if entering then
    let top ← r.peek
    let x : containerState :=
      { containerType := NodeType.TableBody, textStyle := r.TBody,
        listkind := ListKind.notlist, leftMargin := top.leftMargin }
    Except.ok (r.push x)
  else
    let r ← r.pop
    Except.ok (r.emit Cmd.Ln)

/-- The handler `processTableRow`. -/
def processTableRow (entering : Bool) (r : PdfRenderer) : Except Fault PdfRenderer := do
  if entering then
    let top ← r.peek
    let x : containerState :=
      { containerType := NodeType.TableRow, textStyle := r.TBody,
        listkind := ListKind.notlist, leftMargin := top.leftMargin }
    let x := if top.isHeader then { x with textStyle := r.THeader } else x
    let r := r.emit Cmd.Ln
    let r := { r with curdatacell := 0 }
    Except.ok (r.push x)
  else
    let r ← r.pop
    Except.ok { r with fill := !r.fill }

/-- The handler `processTableCell`; `isHeader` is `node.TableCellData.IsHeader`. -/
def processTableCell (isHeader : Bool) (entering : Bool) (r : PdfRenderer) :
    Except Fault PdfRenderer := do
  if entering then
    let top ← r.peek
    let x : containerState :=
      { containerType := NodeType.TableCell, textStyle := r.Normal,
        listkind := ListKind.notlist, leftMargin := top.leftMargin }
    if isHeader then
      let r := r.emit (Cmd.SetDrawColor 128 0 0)
      let r := r.emit (Cmd.SetLineWidth 0.3)
      let x := { x with isHeader := true, textStyle := r.THeader }
      let r := r.setStyler r.THeader
      Except.ok (r.push x)
    else
      let x := { x with textStyle := r.TBody }
      let r := r.setStyler r.TBody
      let x := { x with isHeader := false }
      Except.ok (r.push x)
  else
    let r ← r.pop
    Except.ok { r with curdatacell := r.curdatacell + 1 }

/-! ## Events of the tree walk -/

/-- Node kinds that are visited twice (entering and leaving), with the node
data the handlers read. -/
inductive Container
  | List (flags : Nat)
  | Item
  | Emph
  | Strong
  | Link (destination : String)
  | Image (destination : String)
  | Paragraph
  | BlockQuote
  | Heading (level : Nat)
  | Table
  | TableHead
  | TableBody
  | TableRow
  | TableCell (isHeader : Bool)
deriving DecidableEq, Repr

/-- Node kinds that are visited once; a text node carries its literal and the
heading identifier of its parent node. -/
inductive Leaf
  | Text (literal : String) (headingID : String)
  | CodeBlock (literal : String)
  | Code (literal : String)
  | HorizontalRule
  | HTMLBlock (literal : String)
deriving DecidableEq, Repr

/-- One event of the depth-first walk. -/
inductive Event
  | enter (c : Container)
  | leave (c : Container)
  | leaf (l : Leaf)
deriving DecidableEq, Repr

/-- Dispatch of an enter or leave event to its handler. -/
def handle (env : Env) (c : Container) (entering : Bool) (r : PdfRenderer) :
    Except Fault PdfRenderer :=
  match c with
  | Container.List flags => processList flags entering r
  | Container.Item => processItem entering r
  | Container.Emph => processEmph entering r
  | Container.Strong => processStrong entering r
  | Container.Link destination => processLink destination entering r
  | Container.Image destination => processImage env destination entering r
  | Container.Paragraph => processParagraph entering r
  | Container.BlockQuote => processBlockQuote entering r
  | Container.Heading level => processHeading level entering r
  | Container.Table => processTable entering r
  | Container.TableHead => processTableHead entering r
  | Container.TableBody => processTableBody entering r
  | Container.TableRow => processTableRow entering r
  | Container.TableCell isHeader => processTableCell isHeader entering r

/-- Dispatch of a leaf node to its handler. -/
def handleLeaf (env : Env) (l : Leaf) (r : PdfRenderer) : Except Fault PdfRenderer :=
  match l with
  | Leaf.Text literal headingID => processText env literal headingID r
  | Leaf.CodeBlock literal => processCodeblock literal r
  | Leaf.Code literal => processCode literal r
  | Leaf.HorizontalRule => processHorizontalRule env r
  | Leaf.HTMLBlock literal => processHTMLBlock literal r

/-- One event processed by the renderer. -/
def step (env : Env) (e : Event) (r : PdfRenderer) : Except Fault PdfRenderer :=
  match e with
  | Event.enter c => handle env c true r
  | Event.leave c => handle env c false r
  | Event.leaf l => handleLeaf env l r

/-- A whole event stream processed in order; the first fault aborts the walk. -/
def run (env : Env) : List Event → PdfRenderer → Except Fault PdfRenderer
  | [], r => Except.ok r
  | e :: es, r =>
    match step env e r with
    | Except.ok r1 => run env es r1
    | Except.error f => Except.error f

/-- A forest of nodes in first-child / next-sibling form: the well-formed
inputs of the walk. -/
inductive Doc
  | nil
  | leaf (l : Leaf) (rest : Doc)
  | node (c : Container) (children : Doc) (rest : Doc)
deriving DecidableEq, Repr

/-- The enter/leave event stream of a forest: every enter is matched by the
leave of the same node, properly nested; leaf kinds have no leave. -/
def Doc.events : Doc → List Event
  | Doc.nil => []
  | Doc.leaf l rest => Event.leaf l :: rest.events
  | Doc.node c children rest =>
    Event.enter c :: (children.events ++ Event.leave c :: rest.events)

/-- A heading node has a level the handler knows. -/
def Container.levelOk : Container → Bool
  | Container.Heading level => decide (1 ≤ level ∧ level ≤ 6)
  | _ => true

/-- Every heading of the forest has a level in 1..6. -/
def Doc.levelsOk : Doc → Bool
  | Doc.nil => true
  | Doc.leaf _ rest => rest.levelsOk
  | Doc.node c children rest => c.levelOk && children.levelsOk && rest.levelsOk

/-- Number of frames the enter handler of a node kind pushes. -/
def Container.pushes : Container → Nat
  | Container.Emph => 0
  | Container.Strong => 0
  | Container.Image _ => 0
  | Container.Paragraph => 0
  | _ => 1

/-! ## Basic facts about `run` -/

theorem run_append (env : Env) (es fs : List Event) (r : PdfRenderer) :
    run env (es ++ fs) r =
      match run env es r with
      | Except.ok r1 => run env fs r1
      | Except.error f => Except.error f := by
  induction es generalizing r with
  | nil => simp [run]
  | cons e es ih =>
    simp only [List.cons_append, run]
    cases h : step env e r with
    | ok r1 => simp [ih]
    | error f => simp

/-- Fields of the renderer no handler of this file writes. -/
def sameConfig (r r1 : PdfRenderer) : Prop :=
  r1.Normal = r.Normal ∧ r1.IndentValue = r.IndentValue ∧ r1.em = r.em

/-- What a balanced stream may do to the top frame: the style flags, the item
counter and the first-paragraph mark can change, nothing else. -/
def sameFrame (f f1 : containerState) : Prop :=
  f1.containerType = f.containerType ∧ f1.leftMargin = f.leftMargin ∧
  f1.listkind = f.listkind ∧ f1.destination = f.destination ∧ f1.isHeader = f.isHeader

theorem sameConfig.cfgRefl (r : PdfRenderer) : sameConfig r r := by
  simp [sameConfig]

theorem sameConfig.cfgTrans {r r1 r2 : PdfRenderer} (h : sameConfig r r1) (h1 : sameConfig r1 r2) :
    sameConfig r r2 := by
  simp only [sameConfig] at *
  obtain ⟨a, b, c⟩ := h
  obtain ⟨a1, b1, c1⟩ := h1
  simp [*]

theorem sameFrame.frameRefl (f : containerState) : sameFrame f f := by
  simp [sameFrame]

theorem sameFrame.frameTrans {f f1 f2 : containerState} (h : sameFrame f f1) (h1 : sameFrame f1 f2) :
    sameFrame f f2 := by
  simp only [sameFrame] at *
  obtain ⟨a, b, c, d, e⟩ := h
  obtain ⟨a1, b1, c1, d1, e1⟩ := h1
  simp [*]

/-- Outcome of a handler or of a run: it completes in a state satisfying `P`,
or it aborts on the out-of-range read of `cellwidths` (never on a stack
fault), and that only if `E` holds. -/
def Post (E : Prop) (res : Except Fault PdfRenderer) (P : PdfRenderer → Prop) : Prop :=
  match res with
  | Except.ok r1 => P r1
  | Except.error f => f = Fault.indexOutOfRange ∧ E

theorem Post.mono {E F : Prop} {res : Except Fault PdfRenderer} {P Q : PdfRenderer → Prop}
    (h : Post E res P) (hEF : E → F) (hPQ : ∀ r1, P r1 → Q r1) : Post F res Q := by
  cases res with
  | ok r1 => exact hPQ r1 h
  | error f => exact ⟨h.1, hEF h.2⟩

theorem Post.runAppend {E : Prop} {env : Env} {es fs : List Event} {r : PdfRenderer}
    {Q : PdfRenderer → Prop}
    (h : Post E (run env es r) (fun r1 => Post E (run env fs r1) Q)) :
    Post E (run env (es ++ fs) r) Q := by
  rw [Mdtopdf.run_append]
  cases hr : run env es r with
  | ok r1 => rw [hr] at h; exact h
  | error f => rw [hr] at h; exact h

theorem Post.runCons {E : Prop} {env : Env} {e : Event} {es : List Event} {r : PdfRenderer}
    {Q : PdfRenderer → Prop}
    (h : Post E (step env e r) (fun r1 => Post E (run env es r1) Q)) :
    Post E (run env (e :: es) r) Q := by
  simp only [run]
  cases hr : step env e r with
  | ok r1 => rw [hr] at h; exact h
  | error f => rw [hr] at h; exact h

theorem Post.ok {E : Prop} {res : Except Fault PdfRenderer} {P : PdfRenderer → Prop}
    (h : Post E res P) (hE : ¬ E) : ∃ r1, res = Except.ok r1 ∧ P r1 := by
  cases res with
  | ok r1 => exact ⟨r1, rfl, h⟩
  | error f => exact absurd h.2 hE

theorem Post.cases {E : Prop} {res : Except Fault PdfRenderer} {P : PdfRenderer → Prop}
    (h : Post E res P) :
    (∃ r1, res = Except.ok r1 ∧ P r1) ∨ res = Except.error Fault.indexOutOfRange := by
  cases res with
  | ok r1 => exact Or.inl ⟨r1, rfl, h⟩
  | error f => exact Or.inr (by rw [h.1])

theorem Post.of_ok {E : Prop} {res : Except Fault PdfRenderer} {P : PdfRenderer → Prop}
    {r1 : PdfRenderer} (h : Post E res P) (hr : res = Except.ok r1) : P r1 := by
  subst hr; exact h

/-- The margin bookkeeping of an enter handler that pushes the frame `x` on `top`. -/
def enterMargin (c : Container) (r r1 : PdfRenderer) (top x : containerState) : Prop :=
  match c with
  | Container.List _ =>
    x.leftMargin = top.leftMargin + r.IndentValue ∧ r1.Pdf.leftMargin = x.leftMargin
  | Container.Item => x.leftMargin = top.leftMargin
  | Container.BlockQuote =>
    x.leftMargin = r.Pdf.leftMargin + r.IndentValue ∧ r1.Pdf.leftMargin = x.leftMargin
  | _ => x.leftMargin = top.leftMargin ∧ r1.Pdf.leftMargin = r.Pdf.leftMargin

/-- The margin a leave handler sets when it pops the frame `x`. -/
def leaveMargin (c : Container) (r r1 : PdfRenderer) (x : containerState) : Prop :=
  match c with
  | Container.List _ => r1.Pdf.leftMargin = x.leftMargin - r.IndentValue
  | Container.Item => r1.Pdf.leftMargin = x.leftMargin
  | Container.BlockQuote => r1.Pdf.leftMargin = r.Pdf.leftMargin - r.IndentValue
  | _ => r1.Pdf.leftMargin = r.Pdf.leftMargin

/-- The frame below an item has its counter incremented when the item is left;
every other leave handler keeps the frame below as it is. -/
def afterLeave (c : Container) (below : containerState) : containerState :=
  match c with
  | Container.Item => { below with itemNumber := below.itemNumber + 1 }
  | _ => below

theorem handle_enter (env : Env) (c : Container) (r : PdfRenderer)
    (top : containerState) (rest : List containerState)
    (hc : c.levelOk = true) (hcs : r.cs = top :: rest) :
    ∃ r1, handle env c true r = Except.ok r1 ∧ sameConfig r r1 ∧
      ((c.pushes = 0 ∧ ∃ top1, r1.cs = top1 :: rest ∧ sameFrame top top1 ∧
          top1.itemNumber = top.itemNumber ∧ r1.Pdf.leftMargin = r.Pdf.leftMargin) ∨
       (c.pushes = 1 ∧ ∃ x, r1.cs = x :: top :: rest ∧ enterMargin c r r1 top x)) := by
  cases c <;>
    simp [handle, processList, processItem, processEmph, processStrong, processLink,
      processImage, processParagraph, processBlockQuote, processHeading, processTable,
      processTableHead, processTableBody, processTableRow, processTableCell,
      PdfRenderer.peek, PdfRenderer.push, PdfRenderer.modifyTop, hcs, Container.pushes,
      sameConfig, sameFrame, PdfRenderer.setStyler, PdfRenderer.SetLeftMargin,
      PdfRenderer.cr, PdfRenderer.emit, bind, Except.bind, Container.levelOk,
      enterMargin, PdfRenderer.GetLeftMargin] at hc ⊢ <;>
    (try split_ifs) <;> (try simp_all)

theorem handle_leave_push (env : Env) (c : Container) (r : PdfRenderer)
    (x below : containerState) (rest : List containerState)
    (hp : c.pushes = 1) (hcs : r.cs = x :: below :: rest) :
    ∃ r1, handle env c false r = Except.ok r1 ∧ sameConfig r r1 ∧
      r1.cs = afterLeave c below :: rest ∧ leaveMargin c r r1 x := by
  cases c <;>
    simp [handle, processList, processItem, processEmph, processStrong, processLink,
      processImage, processParagraph, processBlockQuote, processHeading, processTable,
      processTableHead, processTableBody, processTableRow, processTableCell,
      PdfRenderer.peek, PdfRenderer.pop, PdfRenderer.modifyParent, hcs, Container.pushes,
      sameConfig, PdfRenderer.setStyler, PdfRenderer.SetLeftMargin,
      PdfRenderer.cr, PdfRenderer.emit, bind, Except.bind,
      leaveMargin, afterLeave, PdfRenderer.GetLeftMargin] at hp ⊢ <;>
    (try split_ifs) <;> (try simp_all)

theorem handle_leave_nopush (env : Env) (c : Container) (r : PdfRenderer)
    (top : containerState) (rest : List containerState)
    (hp : c.pushes = 0) (hcs : r.cs = top :: rest) :
    ∃ r1, handle env c false r = Except.ok r1 ∧ sameConfig r r1 ∧
      (∃ top1, r1.cs = top1 :: rest ∧ sameFrame top top1 ∧
        top1.itemNumber = top.itemNumber) ∧
      r1.Pdf.leftMargin = r.Pdf.leftMargin := by
  cases c <;>
    simp [handle, processList, processItem, processEmph, processStrong, processLink,
      processImage, processParagraph, processBlockQuote, processHeading, processTable,
      processTableHead, processTableBody, processTableRow, processTableCell,
      PdfRenderer.peek, PdfRenderer.pop, PdfRenderer.modifyTop, hcs, Container.pushes,
      sameConfig, sameFrame, PdfRenderer.setStyler, PdfRenderer.SetLeftMargin,
      PdfRenderer.cr, PdfRenderer.emit, bind, Except.bind] at hp ⊢ <;>
    (try split_ifs) <;> (try simp_all)

/-- The part of the state a leaf handler leaves alone. -/
def sameShape (r r1 : PdfRenderer) : Prop :=
  sameConfig r r1 ∧ r1.cs = r.cs ∧ r1.Pdf.leftMargin = r.Pdf.leftMargin

theorem sameShape.shapeRefl (r : PdfRenderer) : sameShape r r := by
  simp [sameShape, sameConfig]

theorem sameShape.shapeTrans {r r1 r2 : PdfRenderer} (h : sameShape r r1) (h1 : sameShape r1 r2) :
    sameShape r r2 := by
  simp only [sameShape, sameConfig] at *
  obtain ⟨⟨a, b, c⟩, d, e⟩ := h
  obtain ⟨⟨a1, b1, c1⟩, d1, e1⟩ := h1
  simp [*]

theorem resolveAnchor_shape (r : PdfRenderer) (key : String) :
    sameShape r (r.resolveAnchor key).2 := by
  unfold PdfRenderer.resolveAnchor
  cases r.anchor key <;> simp [sameShape, sameConfig, PdfRenderer.AddLink]

theorem writeText_shape (env : Env) (top : containerState) (headingID s : String)
    (r : PdfRenderer) : Post True (writeText env top headingID s r) (sameShape r) := by
  simp only [writeText]
  split_ifs
  · have h := resolveAnchor_shape r top.destination
    simp only [Post, sameShape, sameConfig, PdfRenderer.writeAnchorLink, PdfRenderer.emit] at *
    exact h
  · simp [Post, sameShape, sameConfig, PdfRenderer.writeLink, PdfRenderer.emit]
  · have h := resolveAnchor_shape { r with IsInText := true } ("#" ++ headingID)
    simp only [Post, sameShape, sameConfig, PdfRenderer.write, PdfRenderer.emit] at *
    exact h
  · simp [Post, sameShape, sameConfig, PdfRenderer.setStyler, PdfRenderer.emit]
  · simp only [PdfRenderer.setStyler]
    cases r.cellwidths.get? r.curdatacell <;>
      simp [Post, sameShape, sameConfig, PdfRenderer.emit]
  · simp [Post, sameShape, sameConfig, PdfRenderer.write, PdfRenderer.emit]

theorem firstTextRule_shape (top : containerState) (s : String) (r : PdfRenderer) :
    sameShape r (firstTextRule top s r) := by
  unfold firstTextRule
  split_ifs <;> simp [sameShape, sameConfig, PdfRenderer.cr, PdfRenderer.emit]

theorem beginText_shape (top : containerState) (r : PdfRenderer) :
    sameShape r (beginText top r) := by
  simp only [beginText]
  split_ifs <;> simp [sameShape, sameConfig, PdfRenderer.setStyler]

theorem processText_shape (env : Env) (literal headingID : String) (r : PdfRenderer)
    (top : containerState) (rest : List containerState) (hcs : r.cs = top :: rest) :
    Post True (processText env literal headingID r) (sameShape r) := by
  unfold processText
  split_ifs with him
  · exact sameShape.shapeRefl r
  · simp only [PdfRenderer.peek, hcs, bind, Except.bind]
    have h1 := writeText_shape env top headingID (textToWrite literal r.TrimNext) (beginText top r)
    cases hw : writeText env top headingID (textToWrite literal r.TrimNext) (beginText top r) with
    | error f => rw [hw] at h1; exact h1
    | ok r1 =>
      rw [hw] at h1
      exact ((beginText_shape top r).shapeTrans h1).shapeTrans (firstTextRule_shape top _ r1)

/-- A text leaf: the only kind of node whose handler reads `cellwidths`. -/
def Leaf.isText : Leaf → Bool
  | Leaf.Text _ _ => true
  | _ => false

/-- The forest holds a text node. -/
def Doc.hasText : Doc → Bool
  | Doc.nil => false
  | Doc.leaf l rest => l.isText || rest.hasText
  | Doc.node _ children rest => children.hasText || rest.hasText

theorem handleLeaf_shape (env : Env) (l : Leaf) (r : PdfRenderer)
    (top : containerState) (rest : List containerState) (hcs : r.cs = top :: rest) :
    Post (l.isText = true) (handleLeaf env l r) (sameShape r) := by
  cases l with
  | Text literal headingID =>
    exact (processText_shape env literal headingID r top rest hcs).mono
      (fun _ => by simp [Leaf.isText]) (fun _ h => h)
  | CodeBlock literal =>
    simp [handleLeaf, processCodeblock, Post, sameShape, sameConfig, PdfRenderer.setStyler,
      PdfRenderer.cr, PdfRenderer.emit, PdfRenderer.multiCell]
  | Code literal =>
    simp [handleLeaf, processCode, Post, sameShape, sameConfig, PdfRenderer.setStyler,
      PdfRenderer.emit, PdfRenderer.write]
  | HorizontalRule =>
    simp [handleLeaf, processHorizontalRule, Post, sameShape, sameConfig,
      PdfRenderer.cr, PdfRenderer.emit]
  | HTMLBlock literal =>
    simp [handleLeaf, processHTMLBlock, Post, sameShape, sameConfig, PdfRenderer.setStyler,
      PdfRenderer.cr, PdfRenderer.emit]

/-- Number of item nodes of a forest whose leave handler increments the
counter of the frame that is on top when the forest is entered: the items at
the top level, also below nodes that push no frame. -/
def Doc.topItems : Doc → Nat
  | Doc.nil => 0
  | Doc.leaf _ rest => rest.topItems
  | Doc.node c children rest =>
    (match c with
     | Container.Item => 1
     | Container.Emph => children.topItems
     | Container.Strong => children.topItems
     | Container.Image _ => children.topItems
     | Container.Paragraph => children.topItems
     | _ => 0) + rest.topItems

/-- The indent `I` added to the margin `m` is undone exactly by its
subtraction, at `m` and at the margins of `n - 1` further levels of nesting:
`(m + I) - I = m`, `((m + I) + I) - I = m + I`, and so on. In `float64` this
depends on the numbers: it holds for `m = 10`, `I = 36` and fails for
`m = 0.1`, `I = 0.2`. -/
def exactTo (I : float64) : float64 → Nat → Bool
  | _, 0 => true
  | m, n + 1 => decide ((m + I) - I = m) && exactTo I (m + I) n

/-- Depth of the nesting of lists and block quotes of a forest, not counting
what lies inside a list item: the leave handler of an item sets the margin to
the stored value, whatever its children did. -/
def Doc.indentDepth : Doc → Nat
  | Doc.nil => 0
  | Doc.leaf _ rest => rest.indentDepth
  | Doc.node c children rest =>
    max (match c with
         | Container.List _ => children.indentDepth + 1
         | Container.BlockQuote => children.indentDepth + 1
         | Container.Item => 0
         | _ => children.indentDepth) rest.indentDepth

theorem exactTo_mono (I : float64) (n : Nat) :
    ∀ (m : float64) (k : Nat), k ≤ n → exactTo I m n = true → exactTo I m k = true := by
  induction n with
  | zero =>
    intro m k hk _
    have : k = 0 := by omega
    subst this
    rfl
  | succ n ih =>
    intro m k hk h
    cases k with
    | zero => rfl
    | succ k =>
      simp only [exactTo, Bool.and_eq_true] at h ⊢
      exact ⟨h.1, ih (m + I) k (by omega) h.2⟩

/-- What the walk of a forest `d`, started with `top :: rest` on the stack,
leaves behind: the frames below the top untouched, the top frame with the
same kind and margin and its counter advanced by the items of `d`, the
configuration unchanged, and the canvas margin restored if it was the
top frame's margin at the start and the indent is undone exactly at the
margins of the nested lists and block quotes. -/
def Balanced (d : Doc) (r : PdfRenderer) (top : containerState) (rest : List containerState)
    (r1 : PdfRenderer) : Prop :=
  sameConfig r r1 ∧
  (∃ top1, r1.cs = top1 :: rest ∧ sameFrame top top1 ∧
    top1.itemNumber = top.itemNumber + d.topItems) ∧
  (r.Pdf.leftMargin = top.leftMargin →
    exactTo r.IndentValue top.leftMargin d.indentDepth = true →
    r1.Pdf.leftMargin = r.Pdf.leftMargin)

theorem afterLeave_frame (c : Container) (f : containerState) : sameFrame f (afterLeave c f) := by
  cases c <;> simp [afterLeave, sameFrame]

theorem afterLeave_itemNumber (c : Container) (f : containerState) :
    (afterLeave c f).itemNumber = f.itemNumber + (if c = Container.Item then 1 else 0) := by
  cases c <;> simp [afterLeave]

theorem run_balanced (env : Env) (d : Doc) :
    d.levelsOk = true → ∀ (r : PdfRenderer) (top : containerState) (rest : List containerState),
      r.cs = top :: rest →
      Post (d.hasText = true) (run env d.events r) (Balanced d r top rest) := by
  induction d with
  | nil =>
    intro _ r top rest hcs
    simp [Doc.events, run, Post, Balanced, sameConfig, sameFrame, hcs, Doc.topItems]
  | leaf l tail ih =>
    intro hd r top rest hcs
    simp only [Doc.levelsOk] at hd
    simp only [Doc.events]
    apply Post.runCons
    simp only [step]
    refine Post.mono (handleLeaf_shape env l r top rest hcs)
      (fun h => by simp [Doc.hasText, h]) ?_
    intro r1 h1
    obtain ⟨hcfg, hcs1, hlm⟩ := h1
    refine Post.mono (ih hd r1 top rest (by rw [hcs1, hcs]))
      (fun h => by simp [Doc.hasText, h]) ?_
    intro r2 h2
    obtain ⟨hcfg2, ⟨top2, hcs2, hsf, hin⟩, hlm2⟩ := h2
    refine ⟨hcfg.cfgTrans hcfg2, ⟨top2, hcs2, hsf, ?_⟩, ?_⟩
    · simp [hin, Doc.topItems]
    · intro hal hex
      have hI : r1.IndentValue = r.IndentValue := hcfg.2.1
      rw [hlm2 (by rw [hlm]; exact hal) (by rw [hI]; exact hex), hlm]
  | node c children tail ihc iht =>
    intro hd r top rest hcs
    simp only [Doc.levelsOk, Bool.and_eq_true] at hd
    obtain ⟨⟨hc, hdc⟩, hdt⟩ := hd
    have hEc : children.hasText = true → (Doc.node c children tail).hasText = true :=
      fun h => by simp [Doc.hasText, h]
    have hEt : tail.hasText = true → (Doc.node c children tail).hasText = true :=
      fun h => by simp [Doc.hasText, h]
    simp only [Doc.events]
    apply Post.runCons
    obtain ⟨r1, he, hcfg1, hcase⟩ := handle_enter env c r top rest hc hcs
    simp only [step, he, Post]
    apply Post.runAppend
    rcases hcase with ⟨hp, top1, hcs1, hsf1, hin1, hlm1⟩ | ⟨hp, x, hcs1, hem⟩
    · refine Post.mono (ihc hdc r1 top1 rest hcs1) hEc ?_
      intro r2 h2
      obtain ⟨hcfg2, ⟨top2, hcs2, hsf2, hin2⟩, hlm2⟩ := h2
      apply Post.runCons
      obtain ⟨r3, hl, hcfg3, ⟨top3, hcs3, hsf3, hin3⟩, hlm3⟩ :=
        handle_leave_nopush env c r2 top2 rest hp hcs2
      simp only [step, hl, Post]
      refine Post.mono (iht hdt r3 top3 rest hcs3) hEt ?_
      intro r4 h4
      obtain ⟨hcfg4, ⟨top4, hcs4, hsf4, hin4⟩, hlm4⟩ := h4
      refine ⟨((hcfg1.cfgTrans hcfg2).cfgTrans hcfg3).cfgTrans hcfg4,
        ⟨top4, hcs4, ((hsf1.frameTrans hsf2).frameTrans hsf3).frameTrans hsf4, ?_⟩, ?_⟩
      · rw [hin4, hin3, hin2, hin1]
        cases c <;> simp [Container.pushes] at hp <;> simp [Doc.topItems] <;> omega
      · intro hal hex
        have hdc1 : exactTo r.IndentValue top.leftMargin children.indentDepth = true := by
          refine exactTo_mono _ _ _ _ ?_ hex
          cases c <;> simp [Container.pushes] at hp <;> simp [Doc.indentDepth]
        have hdt1 : exactTo r.IndentValue top.leftMargin tail.indentDepth = true :=
          exactTo_mono _ _ _ _ (by simp [Doc.indentDepth]) hex
        have e1 : r1.Pdf.leftMargin = top1.leftMargin := by rw [hlm1, hsf1.2.1]; exact hal
        have e2 := hlm2 e1 (by rw [hcfg1.2.1, hsf1.2.1]; exact hdc1)
        have e3 : r3.Pdf.leftMargin = top3.leftMargin := by
          rw [hlm3, e2, e1, hsf3.2.1, hsf2.2.1]
        have hI3 : r3.IndentValue = r.IndentValue :=
          ((hcfg1.cfgTrans hcfg2).cfgTrans hcfg3).2.1
        have ht3 : top3.leftMargin = top.leftMargin := by
          rw [hsf3.2.1, hsf2.2.1, hsf1.2.1]
        rw [hlm4 e3 (by rw [hI3, ht3]; exact hdt1), hlm3, e2, hlm1]
    · refine Post.mono (ihc hdc r1 x (top :: rest) hcs1) hEc ?_
      intro r2 h2
      obtain ⟨hcfg2, ⟨x2, hcs2, hsf2, hin2⟩, hlm2⟩ := h2
      apply Post.runCons
      obtain ⟨r3, hl, hcfg3, hcs3, hlv⟩ := handle_leave_push env c r2 x2 top rest hp hcs2
      simp only [step, hl, Post]
      refine Post.mono (iht hdt r3 (afterLeave c top) rest hcs3) hEt ?_
      intro r4 h4
      obtain ⟨hcfg4, ⟨top4, hcs4, hsf4, hin4⟩, hlm4⟩ := h4
      refine ⟨((hcfg1.cfgTrans hcfg2).cfgTrans hcfg3).cfgTrans hcfg4,
        ⟨top4, hcs4, (afterLeave_frame c top).frameTrans hsf4, ?_⟩, ?_⟩
      · rw [hin4, afterLeave_itemNumber]
        cases c <;> simp [Container.pushes] at hp <;> simp [Doc.topItems] <;> omega
      · intro hal hex
        have hI1 : r1.IndentValue = r.IndentValue := hcfg1.2.1
        have hI : r2.IndentValue = r.IndentValue := (hcfg1.cfgTrans hcfg2).2.1
        have hI3 : r3.IndentValue = r.IndentValue :=
          ((hcfg1.cfgTrans hcfg2).cfgTrans hcfg3).2.1
        have hx2 : x2.leftMargin = x.leftMargin := hsf2.2.1
        have hdt1 : exactTo r.IndentValue top.leftMargin tail.indentDepth = true :=
          exactTo_mono _ _ _ _ (by simp [Doc.indentDepth]) hex
        have e3 : r3.Pdf.leftMargin = r.Pdf.leftMargin := by
          cases c with
          | List flags =>
            simp only [enterMargin, leaveMargin] at hem hlv
            have hd1 : exactTo r.IndentValue top.leftMargin (children.indentDepth + 1) = true :=
              exactTo_mono _ _ _ _ (by simp [Doc.indentDepth]) hex
            simp only [exactTo, Bool.and_eq_true, decide_eq_true_eq] at hd1
            rw [hlv, hx2, hem.1, hI, hd1.1, hal]
          | BlockQuote =>
            simp only [enterMargin, leaveMargin] at hem hlv
            have hd1 : exactTo r.IndentValue top.leftMargin (children.indentDepth + 1) = true :=
              exactTo_mono _ _ _ _ (by simp [Doc.indentDepth]) hex
            simp only [exactTo, Bool.and_eq_true, decide_eq_true_eq] at hd1
            have e2 := hlm2 hem.2 (by rw [hI1, hem.1, hal]; exact hd1.2)
            rw [hlv, e2, hem.2, hem.1, hI, hal, hd1.1]
          | Item =>
            simp only [enterMargin, leaveMargin] at hem hlv
            rw [hlv, hx2, hem, hal]
          | Emph => simp [Container.pushes] at hp
          | Strong => simp [Container.pushes] at hp
          | Image destination => simp [Container.pushes] at hp
          | Paragraph => simp [Container.pushes] at hp
          | Link destination =>
            simp only [enterMargin, leaveMargin] at hem hlv
            have hdc1 : exactTo r.IndentValue top.leftMargin children.indentDepth = true :=
              exactTo_mono _ _ _ _ (by simp [Doc.indentDepth]) hex
            rw [hlv, hlm2 (by rw [hem.2, hem.1]; exact hal) (by rw [hI1, hem.1]; exact hdc1),
              hem.2]
          | Heading level =>
            simp only [enterMargin, leaveMargin] at hem hlv
            have hdc1 : exactTo r.IndentValue top.leftMargin children.indentDepth = true :=
              exactTo_mono _ _ _ _ (by simp [Doc.indentDepth]) hex
            rw [hlv, hlm2 (by rw [hem.2, hem.1]; exact hal) (by rw [hI1, hem.1]; exact hdc1),
              hem.2]
          | Table =>
            simp only [enterMargin, leaveMargin] at hem hlv
            have hdc1 : exactTo r.IndentValue top.leftMargin children.indentDepth = true :=
              exactTo_mono _ _ _ _ (by simp [Doc.indentDepth]) hex
            rw [hlv, hlm2 (by rw [hem.2, hem.1]; exact hal) (by rw [hI1, hem.1]; exact hdc1),
              hem.2]
          | TableHead =>
            simp only [enterMargin, leaveMargin] at hem hlv
            have hdc1 : exactTo r.IndentValue top.leftMargin children.indentDepth = true :=
              exactTo_mono _ _ _ _ (by simp [Doc.indentDepth]) hex
            rw [hlv, hlm2 (by rw [hem.2, hem.1]; exact hal) (by rw [hI1, hem.1]; exact hdc1),
              hem.2]
          | TableBody =>
            simp only [enterMargin, leaveMargin] at hem hlv
            have hdc1 : exactTo r.IndentValue top.leftMargin children.indentDepth = true :=
              exactTo_mono _ _ _ _ (by simp [Doc.indentDepth]) hex
            rw [hlv, hlm2 (by rw [hem.2, hem.1]; exact hal) (by rw [hI1, hem.1]; exact hdc1),
              hem.2]
          | TableRow =>
            simp only [enterMargin, leaveMargin] at hem hlv
            have hdc1 : exactTo r.IndentValue top.leftMargin children.indentDepth = true :=
              exactTo_mono _ _ _ _ (by simp [Doc.indentDepth]) hex
            rw [hlv, hlm2 (by rw [hem.2, hem.1]; exact hal) (by rw [hI1, hem.1]; exact hdc1),
              hem.2]
          | TableCell isHeader =>
            simp only [enterMargin, leaveMargin] at hem hlv
            have hdc1 : exactTo r.IndentValue top.leftMargin children.indentDepth = true :=
              exactTo_mono _ _ _ _ (by simp [Doc.indentDepth]) hex
            rw [hlv, hlm2 (by rw [hem.2, hem.1]; exact hal) (by rw [hI1, hem.1]; exact hdc1),
              hem.2]
        have e3a : r3.Pdf.leftMargin = (afterLeave c top).leftMargin := by
          rw [e3, hal]; exact (afterLeave_frame c top).2.1.symm
        have ht3 : (afterLeave c top).leftMargin = top.leftMargin :=
          (afterLeave_frame c top).2.1
        rw [hlm4 e3a (by rw [hI3, ht3]; exact hdt1), e3]

/-- The frames `rest` are still at the bottom of the stack, below at least one more frame. -/
def Above (rest : List containerState) (r1 : PdfRenderer) : Prop :=
  ∃ pre, pre ≠ [] ∧ r1.cs = pre ++ rest

theorem Above.weaken {top : containerState} {rest : List containerState} {r1 : PdfRenderer}
    (h : Above (top :: rest) r1) : Above rest r1 := by
  obtain ⟨pre, _, hcs⟩ := h
  exact ⟨pre ++ [top], by simp, by simp [hcs]⟩

theorem run_take (env : Env) (d : Doc) :
    d.levelsOk = true → ∀ (r : PdfRenderer) (top : containerState) (rest : List containerState),
      r.cs = top :: rest → ∀ n : Nat,
      Post (d.hasText = true) (run env (d.events.take n) r) (Above rest) := by
  induction d with
  | nil =>
    intro _ r top rest hcs n
    simp only [Doc.events, List.take_nil, run, Post]
    exact ⟨[top], by simp, by simp [hcs]⟩
  | leaf l tail ih =>
    intro hd r top rest hcs n
    simp only [Doc.levelsOk] at hd
    cases n with
    | zero =>
      simp only [List.take_zero, run, Post]
      exact ⟨[top], by simp, by simp [hcs]⟩
    | succ n =>
      simp only [Doc.events, List.take_succ_cons]
      apply Post.runCons
      simp only [step]
      refine Post.mono (handleLeaf_shape env l r top rest hcs)
        (fun h => by simp [Doc.hasText, h]) ?_
      intro r1 h1
      exact Post.mono (ih hd r1 top rest (by rw [h1.2.1, hcs]) n)
        (fun h => by simp [Doc.hasText, h]) (fun _ h => h)
  | node c children tail ihc iht =>
    intro hd r top rest hcs n
    simp only [Doc.levelsOk, Bool.and_eq_true] at hd
    obtain ⟨⟨hc, hdc⟩, hdt⟩ := hd
    have hEc : children.hasText = true → (Doc.node c children tail).hasText = true :=
      fun h => by simp [Doc.hasText, h]
    have hEt : tail.hasText = true → (Doc.node c children tail).hasText = true :=
      fun h => by simp [Doc.hasText, h]
    cases n with
    | zero =>
      simp only [List.take_zero, run, Post]
      exact ⟨[top], by simp, by simp [hcs]⟩
    | succ n =>
      simp only [Doc.events, List.take_succ_cons]
      apply Post.runCons
      obtain ⟨r1, he, _, hcase⟩ := handle_enter env c r top rest hc hcs
      simp only [step, he, Post]
      by_cases hn : n ≤ children.events.length
      · rw [List.take_append_of_le_length hn]
        rcases hcase with ⟨_, top1, hcs1, _⟩ | ⟨_, x, hcs1, _⟩
        · exact Post.mono (ihc hdc r1 top1 rest hcs1 n) hEc (fun _ h => h)
        · exact Post.mono (ihc hdc r1 x (top :: rest) hcs1 n) hEc (fun _ h => h.weaken)
      · rw [List.take_append_eq_append_take, List.take_of_length_le (by omega)]
        apply Post.runAppend
        have hleave : ∀ (r2 : PdfRenderer) (m : Nat),
            (∃ r3, handle env c false r2 = Except.ok r3 ∧
              ∃ t3, r3.cs = t3 :: rest) →
            Above rest r2 →
            Post ((Doc.node c children tail).hasText = true)
              (run env (List.take m (Event.leave c :: tail.events)) r2) (Above rest) := by
          intro r2 m hl hab
          cases m with
          | zero => simpa only [List.take_zero, run, Post] using hab
          | succ m =>
            obtain ⟨r3, hl3, t3, hcs3⟩ := hl
            simp only [List.take_succ_cons]
            apply Post.runCons
            simp only [step, hl3, Post]
            exact Post.mono (iht hdt r3 t3 rest hcs3 m) hEt (fun _ h => h)
        rcases hcase with ⟨hp, top1, hcs1, _⟩ | ⟨hp, x, hcs1, _⟩
        · refine Post.mono (run_balanced env children hdc r1 top1 rest hcs1) hEc ?_
          intro r2 h2
          obtain ⟨_, ⟨top2, hcs2, _⟩, _⟩ := h2
          obtain ⟨r3, hl, _, ⟨top3, hcs3, _⟩, _⟩ :=
            handle_leave_nopush env c r2 top2 rest hp hcs2
          exact hleave r2 _ ⟨r3, hl, top3, hcs3⟩ ⟨[top2], by simp, by simp [hcs2]⟩
        · refine Post.mono (run_balanced env children hdc r1 x (top :: rest) hcs1) hEc ?_
          intro r2 h2
          obtain ⟨_, ⟨x2, hcs2, _⟩, _⟩ := h2
          obtain ⟨r3, hl, _, hcs3, _⟩ := handle_leave_push env c r2 x2 top rest hp hcs2
          exact hleave r2 _ ⟨r3, hl, _, hcs3⟩ ⟨[x2, top], by simp, by simp [hcs2]⟩

/-- The level check of the node an event belongs to. -/
def Event.levelOk : Event → Bool
  | Event.enter c => c.levelOk
  | Event.leave c => c.levelOk
  | Event.leaf _ => true

theorem levelsOk_iff_events (d : Doc) :
    d.levelsOk = true ↔ ∀ e ∈ d.events, e.levelOk = true := by
  induction d with
  | nil => simp [Doc.levelsOk, Doc.events]
  | leaf l tail ih => simp [Doc.levelsOk, Doc.events, ih, Event.levelOk]
  | node c children tail ihc iht =>
    simp only [Doc.levelsOk, Doc.events, Bool.and_eq_true, ihc, iht, List.mem_cons,
      List.mem_append, Event.levelOk]
    constructor
    · rintro ⟨⟨hc, h1⟩, h2⟩ e he
      rcases he with rfl | he | rfl | he
      · exact hc
      · exact h1 e he
      · exact hc
      · exact h2 e he
    · intro h
      exact ⟨⟨h _ (Or.inl rfl), fun e he => h e (Or.inr (Or.inl he))⟩,
        fun e he => h e (Or.inr (Or.inr (Or.inr he)))⟩

theorem levelsOk_segment (d seg : Doc) (pre post : List Event)
    (hd : d.levelsOk = true) (h : d.events = pre ++ seg.events ++ post) :
    seg.levelsOk = true := by
  rw [levelsOk_iff_events] at hd ⊢
  intro e he
  exact hd e (by rw [h]; simp [he])

theorem handle_leave_short (env : Env) (c : Container) (r : PdfRenderer)
    (hp : c.pushes = 1) (hlen : r.cs.length < 2) :
    ∃ f, handle env c false r = Except.error f ∧ f ≠ Fault.indexOutOfRange := by
  rcases hcs : r.cs with _ | ⟨a, _ | ⟨b, l⟩⟩
  · cases c <;>
      simp [handle, processList, processItem, processLink, processBlockQuote, processHeading,
        processTable, processTableHead, processTableBody, processTableRow, processTableCell,
        PdfRenderer.peek, PdfRenderer.pop, PdfRenderer.modifyParent, hcs, Container.pushes,
        PdfRenderer.setStyler, PdfRenderer.SetLeftMargin, PdfRenderer.cr, PdfRenderer.emit,
        bind, Except.bind, PdfRenderer.GetLeftMargin] at hp ⊢
  · cases c <;>
      simp [handle, processList, processItem, processLink, processBlockQuote, processHeading,
        processTable, processTableHead, processTableBody, processTableRow, processTableCell,
        PdfRenderer.peek, PdfRenderer.pop, PdfRenderer.modifyParent, hcs, Container.pushes,
        PdfRenderer.setStyler, PdfRenderer.SetLeftMargin, PdfRenderer.cr, PdfRenderer.emit,
        bind, Except.bind, PdfRenderer.GetLeftMargin] at hp ⊢
  · exfalso; rw [hcs] at hlen; simp only [List.length_cons] at hlen; omega

/-! ## Example inputs -/

/-- An environment for the examples. -/
def exampleEnv : Env where
  stringWidth := fun _ s => float64.ofNat (7 * s.length)
  pageNo := fun _ => 1
  getXY := fun _ => (0, 0)
  pageWidth := 595
  hasURLScheme := fun s => s.data.contains ':'
  notExists := fun _ => true
  canOpen := fun _ => false
  pathClean := fun s => s

/-- The style of body text in the examples. -/
def exampleNormal : Styler := { Style := "", Size := 12, Spacing := 2 }

/-- A renderer before the first event: only the root frame on the stack. -/
def exampleRenderer : PdfRenderer where
  Pdf := { leftMargin := 10, font := exampleNormal, links := 0, log := [] }
  Normal := exampleNormal
  H1 := { Style := "b", Size := 24, Spacing := 5 }
  H2 := { Style := "b", Size := 22, Spacing := 5 }
  H3 := { Style := "b", Size := 20, Spacing := 5 }
  H4 := { Style := "b", Size := 18, Spacing := 5 }
  H5 := { Style := "b", Size := 16, Spacing := 5 }
  H6 := { Style := "b", Size := 14, Spacing := 5 }
  Backtick := { Style := "", Size := 12, Spacing := 2 }
  Blockquote := { Style := "i", Size := 14, Spacing := 1 }
  Link := { Style := "b", Size := 12, Spacing := 2 }
  THeader := { Style := "B", Size := 12, Spacing := 2 }
  TBody := { Style := "", Size := 12, Spacing := 2 }
  IndentValue := 36
  em := 6
  LocalFilePathPrefix := ""
  LocalImagePathAlternativePrefix := "alt/"
  cs := [{ containerType := NodeType.Paragraph, textStyle := exampleNormal, leftMargin := 10 }]
  IsInText := false
  IsInImage := false
  TrimNext := false
  ParagraphUnprocessed := false
  StrongOn := false
  CurrentHeaderStyler := none
  anchorLinks := []
  errors := []
  cellwidths := []
  curdatacell := 0
  fill := false

/-- The state a run ends in, or `d` if it aborts. -/
def resultOr (res : Except Fault PdfRenderer) (d : PdfRenderer) : PdfRenderer :=
  match res with
  | Except.ok r => r
  | Except.error _ => d

/-- The frame of an unordered list entered on the root frame of the example
renderer, before its first item is left. -/
def exampleListFrame : containerState :=
  { containerType := NodeType.List, textStyle := exampleNormal, itemNumber := 0,
    listkind := ListKind.unordered, leftMargin := 46 }

/-- The root frame of the example renderer. -/
def exampleRootFrame : containerState :=
  { containerType := NodeType.Paragraph, textStyle := exampleNormal, leftMargin := 10 }

/-- A heading followed by a list of two items, the second holding a nested
block quote with a list. -/
def exampleDoc : Doc :=
  Doc.node (Container.Heading 2) (Doc.leaf (Leaf.Text "Title" "title") Doc.nil)
    (Doc.node (Container.List 1)
      (Doc.node Container.Item
        (Doc.node Container.Paragraph (Doc.leaf (Leaf.Text "one" "") Doc.nil) Doc.nil)
        (Doc.node Container.Item
          (Doc.node Container.BlockQuote
            (Doc.node (Container.List 0) (Doc.node Container.Item Doc.nil Doc.nil) Doc.nil)
            Doc.nil)
          Doc.nil))
      Doc.nil)

/-- Nested lists, items, block quotes and a table, without text. -/
def exampleBlocks : Doc :=
  Doc.node Container.BlockQuote
    (Doc.node (Container.List 0)
      (Doc.node Container.Item
        (Doc.node (Container.List 1) (Doc.node Container.Item Doc.nil Doc.nil) Doc.nil)
        (Doc.node Container.Item (Doc.node Container.Table Doc.nil Doc.nil) Doc.nil))
      Doc.nil)
    (Doc.node (Container.List 1) Doc.nil Doc.nil)

/-! ## Stack discipline -/

/-- C1 (stack balance). For every well-formed event stream (the events of a
forest whose headings have levels 1..6) processed from a stack holding only
the root frame, the walk ends with stack depth 1, unless it aborts on the
out-of-range read of `cellwidths`; and for every node of the stream, the depth
after its leave event equals the depth before its enter event. -/
theorem stack_balance (env : Env) (d : Doc) (hd : d.levelsOk = true) (r : PdfRenderer)
    (hroot : r.cs.length = 1) :
    ((∃ r1, run env d.events r = Except.ok r1 ∧ r1.cs.length = 1) ∨
      run env d.events r = Except.error Fault.indexOutOfRange) ∧
    (∀ (pre post : List Event) (c : Container) (children : Doc) (r1 r2 : PdfRenderer),
      d.events = pre ++ (Doc.node c children Doc.nil).events ++ post →
      run env pre r = Except.ok r1 →
      run env (Doc.node c children Doc.nil).events r1 = Except.ok r2 →
      r2.cs.length = r1.cs.length) := by
  obtain ⟨root, hcs⟩ : ∃ root, r.cs = [root] := by
    rcases h : r.cs with _ | ⟨a, _ | ⟨b, l⟩⟩
    · rw [h] at hroot; simp at hroot
    · exact ⟨a, rfl⟩
    · rw [h] at hroot; simp at hroot
  constructor
  · rcases (run_balanced env d hd r root [] hcs).cases with ⟨r1, h1, hb⟩ | h
    · obtain ⟨_, ⟨top1, hcs1, _⟩, _⟩ := hb
      exact Or.inl ⟨r1, h1, by simp [hcs1]⟩
    · exact Or.inr h
  · intro pre post c children r1 r2 hsplit hpre hseg
    have hpre2 : pre = d.events.take pre.length := by
      rw [hsplit]; simp [List.take_append_of_le_length]
    have hseg_ok := levelsOk_segment d _ pre post hd hsplit
    have hab := run_take env d hd r root [] hcs pre.length
    rw [← hpre2, hpre] at hab
    obtain ⟨stack, hne, hst⟩ := hab
    rcases stack with _ | ⟨t, ts⟩
    · exact absurd rfl hne
    · have hb := (run_balanced env _ hseg_ok r1 t (ts ++ []) (by simpa using hst)).of_ok hseg
      obtain ⟨_, ⟨top2, hcs2, _⟩, _⟩ := hb
      simp [hcs2, hst]

/-- C1, at the example document. -/
theorem stack_balance_witness :
    exampleDoc.levelsOk = true ∧ exampleRenderer.cs.length = 1 ∧
    ((∃ r1, run exampleEnv exampleDoc.events exampleRenderer = Except.ok r1 ∧
        r1.cs.length = 1) ∨
      run exampleEnv exampleDoc.events exampleRenderer =
        Except.error Fault.indexOutOfRange) :=
  ⟨by decide, by decide,
    (stack_balance exampleEnv exampleDoc (by decide) exampleRenderer (by decide)).1⟩

/-- C7 (the root frame is never popped). Starting from a stack holding only
the root frame, at every point of a well-formed event stream the handlers
have not aborted on a stack fault (a pop that finds fewer than two frames, a
`parent()` without a frame below the top, a peek on an empty stack) and the
stack is non-empty; and whenever the next event is the leave event of a node
kind that pops, the stack holds at least two frames. -/
theorem root_never_popped (env : Env) (d : Doc) (hd : d.levelsOk = true) (r : PdfRenderer)
    (hroot : r.cs.length = 1) (n : Nat) :
    ((∃ r1, run env (d.events.take n) r = Except.ok r1 ∧ r1.cs ≠ []) ∨
      run env (d.events.take n) r = Except.error Fault.indexOutOfRange) ∧
    (∀ (c : Container) (r1 : PdfRenderer), d.events[n]? = some (Event.leave c) →
      c.pushes = 1 → run env (d.events.take n) r = Except.ok r1 → 2 ≤ r1.cs.length) := by
  obtain ⟨root, hcs⟩ : ∃ root, r.cs = [root] := by
    rcases h : r.cs with _ | ⟨a, _ | ⟨b, l⟩⟩
    · rw [h] at hroot; simp at hroot
    · exact ⟨a, rfl⟩
    · rw [h] at hroot; simp at hroot
  constructor
  · rcases (run_take env d hd r root [] hcs n).cases with ⟨r1, h1, hab⟩ | h
    · obtain ⟨stack, hne, hst⟩ := hab
      exact Or.inl ⟨r1, h1, by simpa [hst] using hne⟩
    · exact Or.inr h
  · intro c r1 hget hp hrun
    by_contra hlt
    obtain ⟨f, hf, hfne⟩ := handle_leave_short env c r1 hp (by omega)
    have hnext := run_take env d hd r root [] hcs (n + 1)
    rw [List.take_succ, hget, Mdtopdf.run_append, hrun] at hnext
    simp only [Option.toList, run, step, hf, Post] at hnext
    exact hfne hnext.1

/-- C7, at the example document, before its last event (the leave of the list). -/
theorem root_never_popped_witness :
    exampleDoc.levelsOk = true ∧ exampleRenderer.cs.length = 1 ∧
    ((∃ r1, run exampleEnv (exampleDoc.events.take 19) exampleRenderer = Except.ok r1 ∧
        r1.cs ≠ []) ∨
      run exampleEnv (exampleDoc.events.take 19) exampleRenderer =
        Except.error Fault.indexOutOfRange) :=
  ⟨by decide, by decide,
    (root_never_popped exampleEnv exampleDoc (by decide) exampleRenderer (by decide) 19).1⟩

/-! ## Margins -/

/-- C2, amended (margin restoration). For every well-formed stream of nested
nodes (lists, items, block quotes, tables, and any other kind) started while
the canvas left margin equals the top frame's `leftMargin` `m`, and such that
the `float64` sum `x + IndentValue` is undone exactly by the subtraction of
`IndentValue` at `x = m` and at the margins of the nested lists and block
quotes (`exactTo`, to the depth of their nesting outside list items), the
canvas left margin after the stream equals the canvas left margin before it;
a stream without text nodes, such as one of list, item, block-quote and table
events only, is always processed to its end. -/
theorem margin_restoration (env : Env) (d : Doc) (hd : d.levelsOk = true) (r : PdfRenderer)
    (top : containerState) (rest : List containerState) (hcs : r.cs = top :: rest)
    (hal : r.Pdf.leftMargin = top.leftMargin)
    (hex : exactTo r.IndentValue top.leftMargin d.indentDepth = true) :
    ((∃ r1, run env d.events r = Except.ok r1 ∧ r1.Pdf.leftMargin = r.Pdf.leftMargin) ∨
      run env d.events r = Except.error Fault.indexOutOfRange) ∧
    (d.hasText = false →
      ∃ r1, run env d.events r = Except.ok r1 ∧ r1.Pdf.leftMargin = r.Pdf.leftMargin) := by
  have h := run_balanced env d hd r top rest hcs
  constructor
  · rcases h.cases with ⟨r1, h1, hb⟩ | h
    · exact Or.inl ⟨r1, h1, hb.2.2 hal hex⟩
    · exact Or.inr h
  · intro hnt
    obtain ⟨r1, h1, hb⟩ := h.ok (by simp [hnt])
    exact ⟨r1, h1, hb.2.2 hal hex⟩

/-- C2, at the example of nested lists, items, block quotes and a table, with
the margin 10 and the indent 36: the sums 10 + 36 and 46 + 36 are undone
exactly. -/
theorem margin_restoration_witness :
    exampleBlocks.levelsOk = true ∧
    exampleRenderer.Pdf.leftMargin = 10 ∧
    exactTo 36 10 exampleBlocks.indentDepth = true ∧
    ∃ r1, run exampleEnv exampleBlocks.events exampleRenderer = Except.ok r1 ∧
      r1.Pdf.leftMargin = exampleRenderer.Pdf.leftMargin :=
  ⟨by decide, by decide, by decide,
    (margin_restoration exampleEnv exampleBlocks (by decide) exampleRenderer
      { containerType := NodeType.Paragraph, textStyle := exampleNormal, leftMargin := 10 } []
      rfl rfl (by decide)).2 (by decide)⟩

/-- The example renderer with the left margin 0.1 (canvas and root frame) and
the indent 0.2. -/
def driftRenderer : PdfRenderer :=
  { exampleRenderer with
    Pdf := { leftMargin := 0.1, font := exampleNormal, links := 0, log := [] }
    IndentValue := 0.2
    cs := [{ containerType := NodeType.Paragraph, textStyle := exampleNormal,
             leftMargin := 0.1 }] }

/-- C2 fails as stated: with the left margin 0.1 and the indent 0.2, a list of
one item, entered while the canvas margin equals the root frame's margin,
leaves the canvas margin at 0.10000000000000003, the `float64` value of
(0.1 + 0.2) - 0.2, not at 0.1. -/
theorem margin_restoration_counterexample :
    ∃ top r1, driftRenderer.cs = [top] ∧ driftRenderer.Pdf.leftMargin = top.leftMargin ∧
      driftRenderer.Pdf.leftMargin = 0.1 ∧
      run exampleEnv
        (Doc.node (Container.List 0) (Doc.node Container.Item Doc.nil Doc.nil) Doc.nil).events
        driftRenderer = Except.ok r1 ∧
      r1.Pdf.leftMargin = 0.10000000000000003 ∧
      r1.Pdf.leftMargin ≠ driftRenderer.Pdf.leftMargin :=
  ⟨_, _, rfl, rfl, rfl, rfl, by decide, by decide⟩

/-! ## Style flags -/

/-- The style-flag string of the top frame. -/
def PdfRenderer.topStyle (r : PdfRenderer) : String :=
  match r.cs with
  | [] => ""
  | top :: _ => top.textStyle.Style

/-- The events of emphasis nested inside emphasis, with nothing in between. -/
def nestedEmph : List Event :=
  [Event.enter Container.Emph, Event.enter Container.Emph,
   Event.leave Container.Emph, Event.leave Container.Emph]

theorem containsChar_removeChar (s : String) (c : Char) :
    containsChar (removeChar s c) c = false := by
  rw [Bool.eq_false_iff]
  simp [containsChar, removeChar]

theorem containsChar_append_i (s : String) : containsChar (s ++ "i") 'i' = true := by
  simp [containsChar]

theorem containsChar_append_b (s : String) : containsChar (s ++ "b") 'b' = true := by
  simp [containsChar]

theorem removeChar_removeChar (s : String) (c : Char) :
    removeChar (removeChar s c) c = removeChar s c := by
  simp [removeChar]

theorem removeChar_append_i (s : String) : removeChar (s ++ "i") 'i' = removeChar s 'i' := by
  simp [removeChar]

theorem removeChar_append_b (s : String) : removeChar (s ++ "b") 'b' = removeChar s 'b' := by
  simp [removeChar]

theorem removeChar_of_not_contains (s : String) (c : Char) (h : containsChar s c = false) :
    removeChar s c = s := by
  have hm : c ∉ s.data := by
    rw [Bool.eq_false_iff] at h
    intro hm
    exact h (by simpa [containsChar] using hm)
  have : s.data.filter (fun d => decide (d ≠ c)) = s.data := by
    rw [List.filter_eq_self]
    intro a ha
    simp only [ne_eq, decide_not, Bool.not_eq_true', decide_eq_false_iff_not]
    rintro rfl
    exact hm ha
  simp only [removeChar, this]

theorem count_of_not_contains (s : String) (c : Char) (h : containsChar s c = false) :
    s.data.count c = 0 := by
  rw [List.count_eq_zero]
  intro hm
  rw [Bool.eq_false_iff] at h
  exact h (by simpa [containsChar] using hm)

theorem count_pos_of_contains (s : String) (c : Char) (h : containsChar s c = true) :
    1 ≤ s.data.count c := by
  have hm : c ∈ s.data := by simpa [containsChar] using h
  exact List.count_pos_iff.mpr hm

/-- C6, as the code has it (style toggling of nested emphasis). With emphasis
nested inside emphasis on one frame whose style string is `s`: after both
enters the style holds the italic flag, the second enter having added nothing
(so exactly once, when `s` held it at most once); the leave of the inner
emphasis removes every `i`, so the flag is absent while the outer emphasis is
still active, and the leave of the outer emphasis changes nothing more. -/
theorem nested_emph_style (env : Env) (r : PdfRenderer) (top : containerState)
    (rest : List containerState) (hcs : r.cs = top :: rest) :
    ∃ r1 r2 r3 r4,
      run env (nestedEmph.take 1) r = Except.ok r1 ∧
      run env (nestedEmph.take 2) r = Except.ok r2 ∧
      run env (nestedEmph.take 3) r = Except.ok r3 ∧
      run env nestedEmph r = Except.ok r4 ∧
      r2.topStyle = r1.topStyle ∧
      containsChar r2.topStyle 'i' = true ∧
      (top.textStyle.Style.data.count 'i' ≤ 1 → r2.topStyle.data.count 'i' = 1) ∧
      r3.topStyle = removeChar top.textStyle.Style 'i' ∧
      containsChar r3.topStyle 'i' = false ∧
      r4.topStyle = r3.topStyle := by
  by_cases h : containsChar top.textStyle.Style 'i' = true
  · have hc := count_pos_of_contains _ _ h
    simp [nestedEmph, run, step, handle, processEmph, PdfRenderer.peek,
      PdfRenderer.modifyTop, hcs, bind, Except.bind, h, PdfRenderer.topStyle,
      containsChar_removeChar, removeChar_removeChar]
    omega
  · simp only [Bool.not_eq_true] at h
    have h3 := count_of_not_contains _ _ h
    simp [nestedEmph, run, step, handle, processEmph, PdfRenderer.peek,
      PdfRenderer.modifyTop, hcs, bind, Except.bind, h, PdfRenderer.topStyle,
      containsChar_removeChar, removeChar_removeChar, containsChar_append_i,
      removeChar_append_i, h3]

/-- C6 fails as stated: on a frame with the plain style, after emphasis is
entered twice and left once (the outer emphasis still active), the italic flag
is gone. -/
theorem nested_emph_counterexample :
    ∃ r3, run exampleEnv (nestedEmph.take 3) exampleRenderer = Except.ok r3 ∧
      containsChar r3.topStyle 'i' = false :=
  ⟨_, rfl, by decide⟩

/-- C6, at the example renderer. -/
theorem nested_emph_style_witness :
    ∃ r3, run exampleEnv (nestedEmph.take 3) exampleRenderer = Except.ok r3 ∧
      r3.topStyle = removeChar "" 'i' := by
  obtain ⟨r1, r2, r3, r4, _, _, h3, _, _, _, _, h8, _⟩ :=
    nested_emph_style exampleEnv exampleRenderer
      { containerType := NodeType.Paragraph, textStyle := exampleNormal, leftMargin := 10 } []
      rfl
  exact ⟨r3, h3, h8⟩

/-! ## End-to-end scenarios -/

/-- Modelled from the spec: the root frame (document-level margin, normal
style, not-a-list); its tag is a node kind for which no handler has a special
case. -/
def isRootFrame (r : PdfRenderer) (f : containerState) : Prop :=
  f.textStyle = r.Normal ∧ f.listkind = ListKind.notlist ∧
  f.containerType ≠ NodeType.Link ∧ f.containerType ≠ NodeType.Heading ∧
  f.containerType ≠ NodeType.TableCell ∧ f.containerType ≠ NodeType.Item

/-- Scenario A: one paragraph with the bold run "Hello" followed by the plain
run " world". -/
def scenarioA : List Event :=
  [Event.enter Container.Paragraph, Event.enter Container.Strong,
   Event.leaf (Leaf.Text "Hello" ""), Event.leave Container.Strong,
   Event.leaf (Leaf.Text " world" ""), Event.leave Container.Paragraph]

/-- The style `s` with the bold flag appended. -/
def Styler.bold (s : Styler) : Styler :=
  { s with Style := s.Style ++ "b" }

theorem textToWrite_hello : textToWrite "Hello" false = "Hello" := by decide

theorem textToWrite_world : textToWrite " world" false = " world" := by decide

/-- C9 (scenario A). On the root-only stack, with a normal style without the
bold flag, the stream paragraph-enter, strong-enter, "Hello", strong-leave,
" world", paragraph-leave issues exactly: the normal style, a line break, the
bold style, "Hello" in the bold style, the normal style, " world" in the
normal style, the normal style, a line break; and the root frame has the
normal style again at the end. -/
theorem scenario_A (env : Env) (r : PdfRenderer) (root : containerState)
    (hcs : r.cs = [root]) (hroot : isRootFrame r root)
    (hnb : containsChar r.Normal.Style 'b' = false) (himg : r.IsInImage = false) :
    ∃ r1, run env scenarioA r = Except.ok r1 ∧
      r1.Pdf.log = r.Pdf.log ++
        [Cmd.setStyler r.Normal, Cmd.cr,
         Cmd.setStyler r.Normal.bold, Cmd.write r.Normal.bold "Hello",
         Cmd.setStyler r.Normal, Cmd.write r.Normal " world",
         Cmd.setStyler r.Normal, Cmd.cr] ∧
      containsChar r.Normal.bold.Style 'b' = true ∧
      r1.cs = [root] := by
  obtain ⟨hst, hlk, h1, h2, h3, h4⟩ := hroot
  have hrm := removeChar_of_not_contains _ _ hnb
  simp [scenarioA, run, step, handle, handleLeaf, processParagraph, processStrong, processText,
    writeText, firstTextRule, beginText, textToWrite_hello, textToWrite_world,
    PdfRenderer.peek, PdfRenderer.modifyTop, PdfRenderer.setStyler, PdfRenderer.cr,
    PdfRenderer.emit, PdfRenderer.write, hcs, bind, Except.bind, h1, h2, h3, h4, hlk, hst,
    himg, hnb, Styler.bold, removeChar_append_b, hrm, containsChar_append_b]
  cases root
  simp_all

/-- C9, at the example renderer. -/
theorem scenario_A_witness :
    exampleRenderer.cs.length = 1 ∧ containsChar exampleRenderer.Normal.Style 'b' = false ∧
    ∃ r1, run exampleEnv scenarioA exampleRenderer = Except.ok r1 ∧
      r1.Pdf.log =
        [Cmd.setStyler exampleNormal, Cmd.cr,
         Cmd.setStyler exampleNormal.bold, Cmd.write exampleNormal.bold "Hello",
         Cmd.setStyler exampleNormal, Cmd.write exampleNormal " world",
         Cmd.setStyler exampleNormal, Cmd.cr] := by
  obtain ⟨r1, h1, h2, _, _⟩ :=
    scenario_A exampleEnv exampleRenderer
      { containerType := NodeType.Paragraph, textStyle := exampleNormal, leftMargin := 10 }
      rfl (by simp [isRootFrame, exampleRenderer]) (by decide) rfl
  exact ⟨by decide, by decide, r1, h1, h2⟩

/-- Scenario B: an unordered list of two items, each one paragraph with one text. -/
def scenarioB (t1 t2 : String) : List Event :=
  [Event.enter (Container.List 0),
   Event.enter Container.Item, Event.enter Container.Paragraph,
   Event.leaf (Leaf.Text t1 ""), Event.leave Container.Paragraph, Event.leave Container.Item,
   Event.enter Container.Item, Event.enter Container.Paragraph,
   Event.leaf (Leaf.Text t2 ""), Event.leave Container.Paragraph, Event.leave Container.Item,
   Event.leave (Container.List 0)]

/-- The bullet cell `processItem` draws for an item of an unordered list. -/
def bulletCell (r : PdfRenderer) : Cmd :=
  Cmd.CellFormat (3 * r.em) (r.Normal.Size + r.Normal.Spacing) "*" "" 0 "RB" false

/-- Number of line breaks issued before the first occurrence of the command `c`. -/
def lineOf (c : Cmd) (log : List Cmd) : Nat :=
  (log.takeWhile (fun x => decide (x ≠ c))).count Cmd.cr

theorem replaceNewlines_ne_empty (t : String) (ht : t ≠ "") : replaceNewlines t ≠ "" := by
  intro h
  apply ht
  have h1 : (replaceNewlines t).data = [] := by rw [h]
  simp only [replaceNewlines, List.map_eq_nil_iff] at h1
  exact String.ext h1

/-- C10, as the code has it (scenario B). On the root-only stack, an unordered
list of two one-paragraph items issues: the list margin; a line break, the
bullet cell and the text of item 1 with no line break between them; then two
line breaks, one on leaving item 1 and one on entering item 2; the bullet
cell and the text of item 2 with no line break between them; a line break on
leaving item 2 and one on leaving the list; and the canvas left margin is then
the `float64` value `(m + IndentValue) - IndentValue` for the margin `m` before
the list, which is `m` again when that sum is undone exactly. -/
theorem scenario_B (env : Env) (r : PdfRenderer) (root : containerState) (t1 t2 : String)
    (ht1 : t1 ≠ "") (ht2 : t2 ≠ "")
    (hcs : r.cs = [root]) (hroot : isRootFrame r root)
    (hal : r.Pdf.leftMargin = root.leftMargin)
    (himg : r.IsInImage = false) (hstrong : r.StrongOn = false) :
    ∃ r1, run env (scenarioB t1 t2) r = Except.ok r1 ∧
      r1.Pdf.log = r.Pdf.log ++
        [Cmd.setStyler r.Normal, Cmd.SetLeftMargin (root.leftMargin + r.IndentValue),
         Cmd.cr, bulletCell r,
         Cmd.SetLeftMargin (root.leftMargin + r.IndentValue + 4 * r.em),
         Cmd.SetX (root.leftMargin + r.IndentValue + 4 * r.em),
         Cmd.setStyler r.Normal,
         Cmd.setStyler r.Normal, Cmd.write r.Normal (replaceNewlines t1),
         Cmd.setStyler r.Normal,
         Cmd.SetLeftMargin (root.leftMargin + r.IndentValue), Cmd.cr,
         Cmd.cr, bulletCell r,
         Cmd.SetLeftMargin (root.leftMargin + r.IndentValue + 4 * r.em),
         Cmd.SetX (root.leftMargin + r.IndentValue + 4 * r.em),
         Cmd.setStyler r.Normal,
         Cmd.setStyler r.Normal, Cmd.write r.Normal (replaceNewlines t2),
         Cmd.setStyler r.Normal,
         Cmd.SetLeftMargin (root.leftMargin + r.IndentValue), Cmd.cr,
         Cmd.setStyler r.Normal,
         Cmd.SetLeftMargin (root.leftMargin + r.IndentValue - r.IndentValue), Cmd.cr] ∧
      r1.Pdf.leftMargin = r.Pdf.leftMargin + r.IndentValue - r.IndentValue ∧
      (r.Pdf.leftMargin + r.IndentValue - r.IndentValue = r.Pdf.leftMargin →
        r1.Pdf.leftMargin = r.Pdf.leftMargin) ∧
      r1.cs = [root] := by
  obtain ⟨hst, hlk, h1, h2, h3, h4⟩ := hroot
  have hk : listKindOf 0 = ListKind.unordered := by decide
  have hn1 := replaceNewlines_ne_empty t1 ht1
  have hn2 := replaceNewlines_ne_empty t2 ht2
  simp [scenarioB, run, step, handle, handleLeaf, processParagraph, processList, processItem,
    processText, writeText, firstTextRule, beginText, textToWrite,
    PdfRenderer.peek, PdfRenderer.pop, PdfRenderer.push, PdfRenderer.modifyTop,
    PdfRenderer.modifyParent, PdfRenderer.setStyler, PdfRenderer.cr,
    PdfRenderer.SetLeftMargin, PdfRenderer.emit, PdfRenderer.write, hcs, bind, Except.bind,
    h1, h2, h3, h4, hlk, hst, himg, hstrong, hk, bulletCell, hal, hn1, hn2]

/-- C10, at the example renderer with the texts "one" and "two": the margin
10 and the indent 36 are integers, (10 + 36) - 36 is 10, and the margin is
restored. -/
theorem scenario_B_witness :
    exampleRenderer.cs.length = 1 ∧
    ∃ r1, run exampleEnv (scenarioB "one" "two") exampleRenderer = Except.ok r1 ∧
      r1.Pdf.leftMargin = exampleRenderer.Pdf.leftMargin ∧ r1.cs = exampleRenderer.cs := by
  obtain ⟨r1, h1, _, _, h3, h4⟩ :=
    scenario_B exampleEnv exampleRenderer
      { containerType := NodeType.Paragraph, textStyle := exampleNormal, leftMargin := 10 }
      "one" "two" (by decide) (by decide)
      rfl (by simp [isRootFrame, exampleRenderer]) rfl rfl rfl
  exact ⟨by decide, r1, h1, h3 (by decide), h4⟩

/-- C10 fails as stated: with the texts "one" and "two", the text of item 1
is written after one line break and the text of item 2 after three, so item 2
is two lines below item 1, not on the line directly after it. -/
theorem scenario_B_counterexample :
    ∃ r1, run exampleEnv (scenarioB "one" "two") exampleRenderer = Except.ok r1 ∧
      lineOf (Cmd.write exampleNormal "one") r1.Pdf.log = 1 ∧
      lineOf (Cmd.write exampleNormal "two") r1.Pdf.log = 3 :=
  ⟨_, rfl, by decide, by decide⟩

/-! ## List numbering -/

/-- The children of a list node: one item node per entry, holding the given forest. -/
def itemsDoc : List Doc → Doc
  | [] => Doc.nil
  | d :: ds => Doc.node Container.Item d (itemsDoc ds)

/-- A list node with the given items. -/
def listDoc (flags : Nat) (items : List Doc) : Doc :=
  Doc.node (Container.List flags) (itemsDoc items) Doc.nil

/-- The cell `processItem` draws for the item numbered `n` of an ordered list. -/
def ordinalCell (r : PdfRenderer) (n : Nat) : Cmd :=
  Cmd.CellFormat (3 * r.em) (r.Normal.Size + r.Normal.Spacing) (ordinal n) "" 0 "RB" false

theorem itemsDoc_levelsOk (items : List Doc) (h : ∀ d ∈ items, d.levelsOk = true) :
    (itemsDoc items).levelsOk = true := by
  induction items with
  | nil => rfl
  | cons d ds ih =>
    simp only [itemsDoc, Doc.levelsOk, Container.levelOk, Bool.true_and, Bool.and_eq_true]
    exact ⟨h d (List.mem_cons_self _ _), ih (fun x hx => h x (List.mem_cons_of_mem _ hx))⟩

theorem itemsDoc_topItems (items : List Doc) : (itemsDoc items).topItems = items.length := by
  induction items with
  | nil => rfl
  | cons d ds ih => simp [itemsDoc, Doc.topItems, ih]; omega

theorem itemsDoc_events_append (a b : List Doc) :
    (itemsDoc (a ++ b)).events = (itemsDoc a).events ++ (itemsDoc b).events := by
  induction a with
  | nil => simp [itemsDoc, Doc.events]
  | cons d ds ih => simp [itemsDoc, Doc.events, ih]

theorem processList_enter (flags : Nat) (r : PdfRenderer) (top : containerState)
    (rest : List containerState) (hcs : r.cs = top :: rest) :
    ∃ r1, processList flags true r = Except.ok r1 ∧ sameConfig r r1 ∧
      r1.cs = { containerType := NodeType.List, textStyle := r.Normal, itemNumber := 0,
                listkind := listKindOf flags,
                leftMargin := top.leftMargin + r.IndentValue } :: top :: rest := by
  simp [processList, PdfRenderer.peek, PdfRenderer.push, PdfRenderer.setStyler,
    PdfRenderer.SetLeftMargin, hcs, bind, Except.bind, sameConfig]

theorem processItem_enter_ordered (r : PdfRenderer) (top : containerState)
    (rest : List containerState) (hcs : r.cs = top :: rest)
    (hk : top.listkind = ListKind.ordered) :
    ∃ r1, processItem true r = Except.ok r1 ∧
      r1.Pdf.log = r.Pdf.log ++
        [Cmd.cr, ordinalCell r (top.itemNumber + 1),
         Cmd.SetLeftMargin (top.leftMargin + 4 * r.em), Cmd.SetX (top.leftMargin + 4 * r.em)] := by
  simp [processItem, PdfRenderer.peek, PdfRenderer.push, PdfRenderer.cr, PdfRenderer.emit,
    PdfRenderer.SetLeftMargin, hcs, bind, Except.bind, hk, ordinalCell]

/-- C3 (list numbering). For every ordered list with items `items`, entered
in any state (so also inside an item of another list, whatever that list's
counter is), and every `i` below the number of items: the events of the list
node are the list-enter event, the events of the first `i` items, the enter
event of the next item, and a remainder; and in the state reached before that
enter event, `processItem` draws the ordinal cell whose text is the decimal
numeral of `i + 1` followed by a dot: "1." for the first item, "2." for the
second, and so on. The items are arbitrary forests, so numbering also
continues unbroken after an item that holds a nested list. -/
theorem list_numbering (env : Env) (flags : Nat) (hord : listKindOf flags = ListKind.ordered)
    (items : List Doc) (hitems : ∀ d ∈ items, d.levelsOk = true)
    (r : PdfRenderer) (top : containerState) (rest : List containerState)
    (hcs : r.cs = top :: rest) (i : Nat) (hi : i < items.length) :
    (∃ post, (listDoc flags items).events =
        (Event.enter (Container.List flags) :: (itemsDoc (items.take i)).events) ++
          Event.enter Container.Item :: post) ∧
    (∀ ri, run env (Event.enter (Container.List flags) :: (itemsDoc (items.take i)).events) r
        = Except.ok ri →
      ∃ r1, step env (Event.enter Container.Item) ri = Except.ok r1 ∧
        r1.Pdf.log = ri.Pdf.log ++
          [Cmd.cr,
           Cmd.CellFormat (3 * r.em) (r.Normal.Size + r.Normal.Spacing)
             (Nat.repr (i + 1) ++ ".") "" 0 "RB" false,
           Cmd.SetLeftMargin (top.leftMargin + r.IndentValue + 4 * r.em),
           Cmd.SetX (top.leftMargin + r.IndentValue + 4 * r.em)]) ∧
    (items.all (fun d => !d.hasText) = true →
      ∃ ri, run env (Event.enter (Container.List flags) :: (itemsDoc (items.take i)).events) r
        = Except.ok ri) := by
  refine ⟨?_, ?_, ?_⟩
  · have hsplit : items = items.take i ++ items.drop i := (List.take_append_drop i items).symm
    obtain ⟨d, ds, hdrop⟩ : ∃ d ds, items.drop i = d :: ds := by
      rcases h : items.drop i with _ | ⟨d, ds⟩
      · have := List.drop_eq_nil_iff.mp h; omega
      · exact ⟨d, ds, rfl⟩
    refine ⟨d.events ++ Event.leave Container.Item :: ((itemsDoc ds).events ++
      [Event.leave (Container.List flags)]), ?_⟩
    conv_lhs => rw [hsplit]
    simp [listDoc, Doc.events, itemsDoc_events_append, hdrop, itemsDoc]
  · intro ri hrun
    simp only [run] at hrun
    obtain ⟨r1, he, hcfg1, hcs1⟩ := processList_enter flags r top rest hcs
    simp only [step, handle, he] at hrun
    have hok : (itemsDoc (items.take i)).levelsOk = true :=
      itemsDoc_levelsOk _ (fun d hd => hitems d (List.mem_of_mem_take hd))
    have hb := (run_balanced env _ hok r1 _ (top :: rest) hcs1).of_ok hrun
    obtain ⟨hcfg2, ⟨top2, hcs2, hsf, hin⟩, _⟩ := hb
    have hlen : (items.take i).length = i := by simp; omega
    simp only [itemsDoc_topItems, hlen, Nat.zero_add] at hin
    obtain ⟨hN, hI, hem⟩ := hcfg1.cfgTrans hcfg2
    have hk : top2.listkind = ListKind.ordered := by rw [hsf.2.2.1]; exact hord
    have hlm : top2.leftMargin = top.leftMargin + r.IndentValue := by rw [hsf.2.1]
    obtain ⟨r3, hs, hlog⟩ := processItem_enter_ordered ri top2 (top :: rest) hcs2 hk
    refine ⟨r3, by simpa [step, handle] using hs, ?_⟩
    rw [hlog, hin, hlm]
    simp [ordinalCell, ordinal, hN, hem]
    rfl
  · intro hnt
    simp only [run]
    obtain ⟨r1, he, hcfg1, hcs1⟩ := processList_enter flags r top rest hcs
    simp only [step, handle, he]
    have hok : (itemsDoc (items.take i)).levelsOk = true :=
      itemsDoc_levelsOk _ (fun d hd => hitems d (List.mem_of_mem_take hd))
    have hno : (itemsDoc (items.take i)).hasText = false := by
      have : ∀ ds : List Doc, ds.all (fun d => !d.hasText) = true →
          (itemsDoc ds).hasText = false := by
        intro ds
        induction ds with
        | nil => intro _; rfl
        | cons d ds ih =>
          intro h
          simp only [List.all_cons, Bool.and_eq_true, Bool.not_eq_true'] at h
          simp [itemsDoc, Doc.hasText, h.1, ih h.2]
      apply this
      rw [List.all_eq_true] at hnt ⊢
      intro d hd
      exact hnt d (List.mem_of_mem_take hd)
    obtain ⟨ri, hri, _⟩ :=
      (run_balanced env _ hok r1 _ (top :: rest) hcs1).ok (by simp [hno])
    exact ⟨ri, hri⟩

/-- The items of an ordered list of three items: the second holds a nested
ordered list of two items, the third a paragraph. -/
def exampleItems3 : List Doc :=
  [Doc.nil, listDoc 1 [Doc.nil, Doc.nil],
   Doc.node Container.Paragraph (Doc.leaf (Leaf.Text "third" "") Doc.nil) Doc.nil]

/-- The example renderer inside the second item of an ordered list. -/
def exampleInSecondItem : PdfRenderer :=
  resultOr (run exampleEnv
    (Event.enter (Container.List 1) :: ((itemsDoc [Doc.nil]).events ++
      [Event.enter Container.Item])) exampleRenderer) exampleRenderer

/-- The ordinal cell with the text `t` as the example renderer draws it. -/
def exampleOrdinal (t : String) : Cmd :=
  Cmd.CellFormat 18 14 t "" 0 "RB" false

/-- C3, at the example of an ordered list of three items on the root frame:
the items are numbered "1.", "2." and "3.", the third after the nested list of
the second; and the list nested in the second item, entered while the counter
of the enclosing list is 1, numbers its items "1." and "2.". -/
theorem list_numbering_witness :
    listKindOf 1 = ListKind.ordered ∧
    (∃ ri r1,
      run exampleEnv (Event.enter (Container.List 1) :: (itemsDoc (exampleItems3.take 0)).events)
        exampleRenderer = Except.ok ri ∧
      step exampleEnv (Event.enter Container.Item) ri = Except.ok r1 ∧
      r1.Pdf.log = ri.Pdf.log ++
        [Cmd.cr, exampleOrdinal "1.", Cmd.SetLeftMargin 70, Cmd.SetX 70]) ∧
    (∃ ri r1,
      run exampleEnv (Event.enter (Container.List 1) :: (itemsDoc (exampleItems3.take 1)).events)
        exampleRenderer = Except.ok ri ∧
      step exampleEnv (Event.enter Container.Item) ri = Except.ok r1 ∧
      r1.Pdf.log = ri.Pdf.log ++
        [Cmd.cr, exampleOrdinal "2.", Cmd.SetLeftMargin 70, Cmd.SetX 70]) ∧
    (∃ ri r1,
      run exampleEnv (Event.enter (Container.List 1) :: (itemsDoc (exampleItems3.take 2)).events)
        exampleRenderer = Except.ok ri ∧
      step exampleEnv (Event.enter Container.Item) ri = Except.ok r1 ∧
      r1.Pdf.log = ri.Pdf.log ++
        [Cmd.cr, exampleOrdinal "3.", Cmd.SetLeftMargin 70, Cmd.SetX 70]) ∧
    (∃ item below ri r1, exampleInSecondItem.cs = [item, below, exampleRootFrame] ∧
      item.itemNumber = 2 ∧ below.itemNumber = 1 ∧
      run exampleEnv (Event.enter (Container.List 1) ::
        (itemsDoc ([Doc.nil, Doc.nil].take 0)).events) exampleInSecondItem = Except.ok ri ∧
      step exampleEnv (Event.enter Container.Item) ri = Except.ok r1 ∧
      r1.Pdf.log = ri.Pdf.log ++
        [Cmd.cr, exampleOrdinal "1.", Cmd.SetLeftMargin 106, Cmd.SetX 106]) ∧
    (∃ ri r1,
      run exampleEnv (Event.enter (Container.List 1) ::
        (itemsDoc ([Doc.nil, Doc.nil].take 1)).events) exampleInSecondItem = Except.ok ri ∧
      step exampleEnv (Event.enter Container.Item) ri = Except.ok r1 ∧
      r1.Pdf.log = ri.Pdf.log ++
        [Cmd.cr, exampleOrdinal "2.", Cmd.SetLeftMargin 106, Cmd.SetX 106]) := by
  obtain ⟨a1, ha, hla⟩ :=
    (list_numbering exampleEnv 1 (by decide) exampleItems3 (by decide) exampleRenderer
      exampleRootFrame [] rfl 0 (by decide)).2.1 _ rfl
  obtain ⟨b1, hb, hlb⟩ :=
    (list_numbering exampleEnv 1 (by decide) exampleItems3 (by decide) exampleRenderer
      exampleRootFrame [] rfl 1 (by decide)).2.1 _ rfl
  obtain ⟨c1, hc, hlc⟩ :=
    (list_numbering exampleEnv 1 (by decide) exampleItems3 (by decide) exampleRenderer
      exampleRootFrame [] rfl 2 (by decide)).2.1 _ rfl
  obtain ⟨d1, hd, hld⟩ :=
    (list_numbering exampleEnv 1 (by decide) [Doc.nil, Doc.nil] (by decide)
      exampleInSecondItem _ _ rfl 0 (by decide)).2.1 _ rfl
  obtain ⟨e1, he, hle⟩ :=
    (list_numbering exampleEnv 1 (by decide) [Doc.nil, Doc.nil] (by decide)
      exampleInSecondItem _ _ rfl 1 (by decide)).2.1 _ rfl
  exact ⟨by decide, ⟨_, a1, rfl, ha, hla⟩, ⟨_, b1, rfl, hb, hlb⟩, ⟨_, c1, rfl, hc, hlc⟩,
    ⟨_, _, _, d1, rfl, rfl, rfl, rfl, hd, hld⟩, ⟨_, e1, rfl, he, hle⟩⟩

/-! ## Tables -/

/-- The text nodes of a table cell. -/
def textEvents (ts : List String) : List Event :=
  ts.map (fun t => Event.leaf (Leaf.Text t ""))

/-- The events of a table cell holding the text nodes `ts`. -/
def cellEvents (isHeader : Bool) (ts : List String) : List Event :=
  Event.enter (Container.TableCell isHeader) ::
    (textEvents ts ++ [Event.leave (Container.TableCell isHeader)])

/-- The events of the cells of one row. -/
def cellsEvents (isHeader : Bool) : List (List String) → List Event
  | [] => []
  | ts :: cells => cellEvents isHeader ts ++ cellsEvents isHeader cells

/-- The events of a table row with the given cells. -/
def rowEvents (isHeader : Bool) (cells : List (List String)) : List Event :=
  Event.enter Container.TableRow ::
    (cellsEvents isHeader cells ++ [Event.leave Container.TableRow])

/-- The events of the rows of a table body. -/
def rowsEvents : List (List (List String)) → List Event
  | [] => []
  | row :: rows => rowEvents false row ++ rowsEvents rows

/-- The events up to the end of the table head: table > head > row > cell > text. -/
def headEvents (header : List (List String)) : List Event :=
  Event.enter Container.Table :: Event.enter Container.TableHead ::
    (rowEvents true header ++ [Event.leave Container.TableHead])

/-- The event stream of a table: table > head > row > cell > text, then
body > row > cell > text. -/
def tableEvents (header : List (List String)) (body : List (List (List String))) :
    List Event :=
  headEvents header ++ Event.enter Container.TableBody ::
    (rowsEvents body ++ [Event.leave Container.TableBody, Event.leave Container.Table])

/-- The widths of the body cells drawn (cells with the border `"LR"`), in order. -/
def bodyWidths (log : List Cmd) : List float64 :=
  log.filterMap (fun c =>
    match c with
    | Cmd.CellFormat w _ _ borderStr _ _ _ => if borderStr = "LR" then some w else none
    | _ => none)

/-- The widths of the header cells drawn (cells with the border `"1"`), in order. -/
def headWidths (log : List Cmd) : List float64 :=
  log.filterMap (fun c =>
    match c with
    | Cmd.CellFormat w _ _ borderStr _ _ _ => if borderStr = "1" then some w else none
    | _ => none)

/-- What the handlers of a table leave alone unless stated otherwise. -/
def sameTable (r r1 : PdfRenderer) : Prop :=
  r1.IsInImage = r.IsInImage ∧ r1.cellwidths = r.cellwidths ∧
  r1.curdatacell = r.curdatacell ∧
  headWidths r1.Pdf.log = headWidths r.Pdf.log ∧
  bodyWidths r1.Pdf.log = bodyWidths r.Pdf.log

theorem beginText_eq (top : containerState) (r : PdfRenderer) :
    beginText top r =
      { r with IsInText := false, TrimNext := false,
               Pdf := { r.Pdf with font := top.textStyle,
                                   log := r.Pdf.log ++ [Cmd.setStyler top.textStyle] } } := by
  cases r with
  | mk Pdf Normal H1 H2 H3 H4 H5 H6 Backtick Blockquote Link THeader TBody IndentValue em
      pfx alt cs IsInText IsInImage TrimNext ParagraphUnprocessed StrongOn CurrentHeaderStyler
      anchorLinks errors cellwidths curdatacell fill =>
    cases TrimNext <;> simp [beginText, PdfRenderer.setStyler]

theorem text_header_cell (env : Env) (t : String) (r : PdfRenderer) (x : containerState)
    (rest : List containerState) (hcs : r.cs = x :: rest)
    (hx : x.containerType = NodeType.TableCell) (hh : x.isHeader = true)
    (hl : x.listkind = ListKind.notlist) :
    ∃ ws r1, processText env t "" r = Except.ok r1 ∧ r1.cs = r.cs ∧
      r1.IsInImage = r.IsInImage ∧ r1.curdatacell = r.curdatacell ∧
      r1.cellwidths = r.cellwidths ++ ws ∧
      headWidths r1.Pdf.log = headWidths r.Pdf.log ++ ws ∧
      bodyWidths r1.Pdf.log = bodyWidths r.Pdf.log ∧
      (r.IsInImage = false → ws.length = 1) := by
  by_cases himg : r.IsInImage = true
  · exact ⟨[], r, by simp [processText, himg], rfl, rfl, rfl, by simp, by simp, rfl,
      by simp [himg]⟩
  · simp only [Bool.not_eq_true] at himg
    refine ⟨[env.stringWidth x.textStyle (textToWrite t r.TrimNext) + 2 * r.em], ?_⟩
    simp [processText, writeText, firstTextRule, beginText_eq, PdfRenderer.peek, hcs, hx, hh, hl,
      himg, bind, Except.bind, PdfRenderer.setStyler, PdfRenderer.emit, headWidths, bodyWidths,
      List.filterMap_append]

theorem text_body_cell (env : Env) (t : String) (r : PdfRenderer) (x : containerState)
    (rest : List containerState) (hcs : r.cs = x :: rest)
    (hx : x.containerType = NodeType.TableCell) (hh : x.isHeader = false)
    (hl : x.listkind = ListKind.notlist)
    (hsafe : r.IsInImage = false → r.curdatacell < r.cellwidths.length) :
    ∃ ws r1, processText env t "" r = Except.ok r1 ∧ r1.cs = r.cs ∧
      r1.IsInImage = r.IsInImage ∧ r1.curdatacell = r.curdatacell ∧
      r1.cellwidths = r.cellwidths ∧
      headWidths r1.Pdf.log = headWidths r.Pdf.log ∧
      bodyWidths r1.Pdf.log = bodyWidths r.Pdf.log ++ ws ∧
      (r.IsInImage = false → ws = [r.cellwidths.getD r.curdatacell 0]) := by
  by_cases himg : r.IsInImage = true
  · exact ⟨[], r, by simp [processText, himg], rfl, rfl, rfl, rfl, rfl, by simp,
      by simp [himg]⟩
  · simp only [Bool.not_eq_true] at himg
    have hlt := hsafe himg
    obtain ⟨w, hw⟩ : ∃ w, r.cellwidths[r.curdatacell]? = some w :=
      ⟨_, List.getElem?_eq_getElem hlt⟩
    have hd : r.cellwidths.getD r.curdatacell 0 = w := by
      rw [List.getD_eq_getElem?_getD, hw]; rfl
    rw [hd]
    refine ⟨[w], ?_⟩
    simp [processText, writeText, firstTextRule, beginText_eq, PdfRenderer.peek, hcs, hx, hh, hl,
      himg, bind, Except.bind, PdfRenderer.setStyler, PdfRenderer.emit, headWidths, bodyWidths,
      List.filterMap_append, hw]

theorem cell_enter (env : Env) (h : Bool) (r : PdfRenderer) (top : containerState)
    (rest : List containerState) (hcs : r.cs = top :: rest) :
    ∃ x r1, handle env (Container.TableCell h) true r = Except.ok r1 ∧
      r1.cs = x :: top :: rest ∧ x.containerType = NodeType.TableCell ∧ x.isHeader = h ∧
      x.listkind = ListKind.notlist ∧ sameTable r r1 := by
  cases h <;>
    simp [handle, processTableCell, PdfRenderer.peek, PdfRenderer.push, PdfRenderer.setStyler,
      PdfRenderer.emit, hcs, bind, Except.bind, sameTable, headWidths, bodyWidths,
      List.filterMap_append]

theorem cell_leave (env : Env) (h : Bool) (r : PdfRenderer) (x top : containerState)
    (rest : List containerState) (hcs : r.cs = x :: top :: rest) :
    ∃ r1, handle env (Container.TableCell h) false r = Except.ok r1 ∧
      r1.cs = top :: rest ∧ r1.curdatacell = r.curdatacell + 1 ∧
      r1.IsInImage = r.IsInImage ∧ r1.cellwidths = r.cellwidths ∧
      headWidths r1.Pdf.log = headWidths r.Pdf.log ∧
      bodyWidths r1.Pdf.log = bodyWidths r.Pdf.log := by
  simp [handle, processTableCell, PdfRenderer.pop, hcs, bind, Except.bind]

theorem row_enter (env : Env) (r : PdfRenderer) (top : containerState)
    (rest : List containerState) (hcs : r.cs = top :: rest) :
    ∃ x r1, handle env Container.TableRow true r = Except.ok r1 ∧
      r1.cs = x :: top :: rest ∧ r1.curdatacell = 0 ∧
      r1.IsInImage = r.IsInImage ∧ r1.cellwidths = r.cellwidths ∧
      headWidths r1.Pdf.log = headWidths r.Pdf.log ∧
      bodyWidths r1.Pdf.log = bodyWidths r.Pdf.log := by
  simp [handle, processTableRow, PdfRenderer.peek, PdfRenderer.push, PdfRenderer.emit, hcs,
    bind, Except.bind, headWidths, bodyWidths, List.filterMap_append]

theorem row_leave (env : Env) (r : PdfRenderer) (x top : containerState)
    (rest : List containerState) (hcs : r.cs = x :: top :: rest) :
    ∃ r1, handle env Container.TableRow false r = Except.ok r1 ∧
      r1.cs = top :: rest ∧ sameTable r r1 := by
  simp [handle, processTableRow, PdfRenderer.pop, hcs, bind, Except.bind, sameTable]

theorem table_enter (env : Env) (r : PdfRenderer) (top : containerState)
    (rest : List containerState) (hcs : r.cs = top :: rest) :
    ∃ x r1, handle env Container.Table true r = Except.ok r1 ∧
      r1.cs = x :: top :: rest ∧ sameTable r r1 := by
  simp [handle, processTable, PdfRenderer.peek, PdfRenderer.push, PdfRenderer.cr,
    PdfRenderer.emit, hcs, bind, Except.bind, sameTable, headWidths, bodyWidths,
    List.filterMap_append]

theorem table_leave (env : Env) (r : PdfRenderer) (x top : containerState)
    (rest : List containerState) (hcs : r.cs = x :: top :: rest) :
    ∃ r1, handle env Container.Table false r = Except.ok r1 ∧
      r1.cs = top :: rest ∧ sameTable r r1 := by
  simp [handle, processTable, PdfRenderer.pop, PdfRenderer.cr, PdfRenderer.emit, hcs,
    bind, Except.bind, sameTable, headWidths, bodyWidths, List.filterMap_append]

theorem head_enter (env : Env) (r : PdfRenderer) (top : containerState)
    (rest : List containerState) (hcs : r.cs = top :: rest) :
    ∃ x r1, handle env Container.TableHead true r = Except.ok r1 ∧
      r1.cs = x :: top :: rest ∧ r1.cellwidths = [] ∧ r1.IsInImage = r.IsInImage ∧
      headWidths r1.Pdf.log = headWidths r.Pdf.log ∧
      bodyWidths r1.Pdf.log = bodyWidths r.Pdf.log := by
  simp [handle, processTableHead, PdfRenderer.peek, PdfRenderer.push, hcs, bind, Except.bind]

theorem head_leave (env : Env) (r : PdfRenderer) (x top : containerState)
    (rest : List containerState) (hcs : r.cs = x :: top :: rest) :
    ∃ r1, handle env Container.TableHead false r = Except.ok r1 ∧
      r1.cs = top :: rest ∧ sameTable r r1 := by
  simp [handle, processTableHead, PdfRenderer.pop, hcs, bind, Except.bind, sameTable]

theorem body_enter (env : Env) (r : PdfRenderer) (top : containerState)
    (rest : List containerState) (hcs : r.cs = top :: rest) :
    ∃ x r1, handle env Container.TableBody true r = Except.ok r1 ∧
      r1.cs = x :: top :: rest ∧ sameTable r r1 := by
  simp [handle, processTableBody, PdfRenderer.peek, PdfRenderer.push, hcs, bind, Except.bind,
    sameTable]

theorem body_leave (env : Env) (r : PdfRenderer) (x top : containerState)
    (rest : List containerState) (hcs : r.cs = x :: top :: rest) :
    ∃ r1, handle env Container.TableBody false r = Except.ok r1 ∧
      r1.cs = top :: rest ∧ sameTable r r1 := by
  simp [handle, processTableBody, PdfRenderer.pop, PdfRenderer.emit, hcs, bind, Except.bind,
    sameTable, headWidths, bodyWidths, List.filterMap_append]

/-- The effect of a part of a table on the renderer: stack and image flag
as before, the column index `cur`, and the widths recorded and drawn. -/
def TableEffect (r r1 : PdfRenderer) (cur : Nat) (recorded drawnHead drawnBody : List float64) :
    Prop :=
  r1.cs = r.cs ∧ r1.IsInImage = r.IsInImage ∧ r1.curdatacell = cur ∧
  r1.cellwidths = r.cellwidths ++ recorded ∧
  headWidths r1.Pdf.log = headWidths r.Pdf.log ++ drawnHead ∧
  bodyWidths r1.Pdf.log = bodyWidths r.Pdf.log ++ drawnBody

theorem run_ok_append {env : Env} {es fs : List Event} {r r1 r2 : PdfRenderer}
    (h1 : run env es r = Except.ok r1) (h2 : run env fs r1 = Except.ok r2) :
    run env (es ++ fs) r = Except.ok r2 := by
  rw [Mdtopdf.run_append, h1]; exact h2

theorem run_ok_cons {env : Env} {e : Event} {fs : List Event} {r r1 r2 : PdfRenderer}
    (h1 : step env e r = Except.ok r1) (h2 : run env fs r1 = Except.ok r2) :
    run env (e :: fs) r = Except.ok r2 := by
  simp only [run, h1]; exact h2

theorem texts_header (env : Env) (ts : List String) :
    ∀ (r : PdfRenderer) (x : containerState) (rest : List containerState),
      r.cs = x :: rest → x.containerType = NodeType.TableCell → x.isHeader = true →
      x.listkind = ListKind.notlist →
      ∃ ws r1, run env (textEvents ts) r = Except.ok r1 ∧
        TableEffect r r1 r.curdatacell ws ws [] ∧
        (r.IsInImage = false → ws.length = ts.length) := by
  induction ts with
  | nil =>
    intro r x rest _ _ _ _
    exact ⟨[], r, rfl, by simp [TableEffect], by simp⟩
  | cons t ts ih =>
    intro r x rest hcs hx hh hl
    obtain ⟨w1, r1, h1, hcs1, himg1, hcur1, hcw1, hhw1, hbw1, hlen1⟩ :=
      text_header_cell env t r x rest hcs hx hh hl
    obtain ⟨w2, r2, h2, ⟨hcs2, himg2, hcur2, hcw2, hhw2, hbw2⟩, hlen2⟩ :=
      ih r1 x rest (by rw [hcs1, hcs]) hx hh hl
    refine ⟨w1 ++ w2, r2, ?_, ⟨?_, ?_, ?_, ?_, ?_, ?_⟩, ?_⟩
    · exact run_ok_cons (by simpa [step, handleLeaf] using h1) h2
    · rw [hcs2, hcs1]
    · rw [himg2, himg1]
    · rw [hcur2, hcur1]
    · rw [hcw2, hcw1, List.append_assoc]
    · rw [hhw2, hhw1, List.append_assoc]
    · rw [hbw2, hbw1]
    · intro hi
      simp [hlen1 hi, hlen2 (by rw [himg1]; exact hi)]; omega

theorem texts_body (env : Env) (ts : List String) :
    ∀ (r : PdfRenderer) (x : containerState) (rest : List containerState),
      r.cs = x :: rest → x.containerType = NodeType.TableCell → x.isHeader = false →
      x.listkind = ListKind.notlist →
      (r.IsInImage = false → ts ≠ [] → r.curdatacell < r.cellwidths.length) →
      ∃ ws r1, run env (textEvents ts) r = Except.ok r1 ∧
        TableEffect r r1 r.curdatacell [] [] ws ∧
        (r.IsInImage = false →
          ws = ts.map (fun _ => r.cellwidths.getD r.curdatacell 0)) := by
  induction ts with
  | nil =>
    intro r x rest _ _ _ _ _
    exact ⟨[], r, rfl, by simp [TableEffect], by simp⟩
  | cons t ts ih =>
    intro r x rest hcs hx hh hl hsafe
    have hs : r.IsInImage = false → r.curdatacell < r.cellwidths.length :=
      fun hi => hsafe hi (by simp)
    obtain ⟨w1, r1, h1, hcs1, himg1, hcur1, hcw1, hhw1, hbw1, hlen1⟩ :=
      text_body_cell env t r x rest hcs hx hh hl hs
    obtain ⟨w2, r2, h2, ⟨hcs2, himg2, hcur2, hcw2, hhw2, hbw2⟩, hlen2⟩ :=
      ih r1 x rest (by rw [hcs1, hcs]) hx hh hl
        (fun hi _ => by rw [hcur1, hcw1]; exact hs (by rw [← himg1]; exact hi))
    refine ⟨w1 ++ w2, r2, ?_, ⟨?_, ?_, ?_, ?_, ?_, ?_⟩, ?_⟩
    · exact run_ok_cons (by simpa [step, handleLeaf] using h1) h2
    · rw [hcs2, hcs1]
    · rw [himg2, himg1]
    · rw [hcur2, hcur1]
    · rw [hcw2, hcw1]
    · rw [hhw2, hhw1]
    · rw [hbw2, hbw1, List.append_assoc]
    · intro hi
      rw [hlen1 hi, hlen2 (by rw [himg1]; exact hi), hcur1, hcw1]
      simp

/-- The widths of the body cells drawn for the cells `cells` of one row, the
first of them in column `i`: one cell of the recorded width of the column for
every text node. -/
def drawn (cw : List float64) (i : Nat) : List (List String) → List float64
  | [] => []
  | ts :: cells => ts.map (fun _ => cw.getD i 0) ++ drawn cw (i + 1) cells

/-- Number of text nodes in the cells of a row. -/
def textCount (cells : List (List String)) : Nat :=
  (cells.map List.length).sum

theorem cell_header_run (env : Env) (ts : List String) (r : PdfRenderer)
    (top : containerState) (rest : List containerState) (hcs : r.cs = top :: rest) :
    ∃ ws r1, run env (cellEvents true ts) r = Except.ok r1 ∧
      TableEffect r r1 (r.curdatacell + 1) ws ws [] ∧
      (r.IsInImage = false → ws.length = ts.length) := by
  obtain ⟨x, r1, he, hcs1, hx, hh, hl, himg1, hcw1, hcur1, hhw1, hbw1⟩ :=
    cell_enter env true r top rest hcs
  obtain ⟨ws, r2, ht, ⟨hcs2, himg2, hcur2, hcw2, hhw2, hbw2⟩, hlen⟩ :=
    texts_header env ts r1 x (top :: rest) hcs1 hx hh hl
  obtain ⟨r3, hlv, hcs3, hcur3, himg3, hcw3, hhw3, hbw3⟩ :=
    cell_leave env true r2 x top rest (by rw [hcs2, hcs1])
  refine ⟨ws, r3, ?_, ⟨?_, ?_, ?_, ?_, ?_, ?_⟩, ?_⟩
  · exact run_ok_cons (by simpa [step] using he)
      (run_ok_append ht (run_ok_cons (by simpa [step] using hlv) rfl))
  · rw [hcs3, hcs]
  · rw [himg3, himg2, himg1]
  · rw [hcur3, hcur2, hcur1]
  · rw [hcw3, hcw2, hcw1]
  · rw [hhw3, hhw2, hhw1]
  · rw [hbw3, hbw2, hbw1]
  · intro hi; exact hlen (by rw [himg1]; exact hi)

theorem cell_body_run (env : Env) (ts : List String) (r : PdfRenderer)
    (top : containerState) (rest : List containerState) (hcs : r.cs = top :: rest)
    (hsafe : r.IsInImage = false → ts ≠ [] → r.curdatacell < r.cellwidths.length) :
    ∃ ws r1, run env (cellEvents false ts) r = Except.ok r1 ∧
      TableEffect r r1 (r.curdatacell + 1) [] [] ws ∧
      (r.IsInImage = false → ws = ts.map (fun _ => r.cellwidths.getD r.curdatacell 0)) := by
  obtain ⟨x, r1, he, hcs1, hx, hh, hl, himg1, hcw1, hcur1, hhw1, hbw1⟩ :=
    cell_enter env false r top rest hcs
  obtain ⟨ws, r2, ht, ⟨hcs2, himg2, hcur2, hcw2, hhw2, hbw2⟩, hlen⟩ :=
    texts_body env ts r1 x (top :: rest) hcs1 hx hh hl
      (fun hi hne => by rw [hcur1, hcw1]; exact hsafe (by rw [← himg1]; exact hi) hne)
  obtain ⟨r3, hlv, hcs3, hcur3, himg3, hcw3, hhw3, hbw3⟩ :=
    cell_leave env false r2 x top rest (by rw [hcs2, hcs1])
  refine ⟨ws, r3, ?_, ⟨?_, ?_, ?_, ?_, ?_, ?_⟩, ?_⟩
  · exact run_ok_cons (by simpa [step] using he)
      (run_ok_append ht (run_ok_cons (by simpa [step] using hlv) rfl))
  · rw [hcs3, hcs]
  · rw [himg3, himg2, himg1]
  · rw [hcur3, hcur2, hcur1]
  · rw [hcw3, hcw2, hcw1]
  · rw [hhw3, hhw2, hhw1]
  · rw [hbw3, hbw2, hbw1]
  · intro hi
    rw [hlen (by rw [himg1]; exact hi), hcur1, hcw1]

theorem cells_header_run (env : Env) (cells : List (List String)) :
    ∀ (r : PdfRenderer) (top : containerState) (rest : List containerState),
      r.cs = top :: rest →
      ∃ ws r1, run env (cellsEvents true cells) r = Except.ok r1 ∧
        TableEffect r r1 (r.curdatacell + cells.length) ws ws [] ∧
        (r.IsInImage = false → ws.length = textCount cells) := by
  induction cells with
  | nil =>
    intro r top rest _
    exact ⟨[], r, rfl, by simp [TableEffect], by simp [textCount]⟩
  | cons ts cells ih =>
    intro r top rest hcs
    obtain ⟨w1, r1, h1, ⟨hcs1, himg1, hcur1, hcw1, hhw1, hbw1⟩, hlen1⟩ :=
      cell_header_run env ts r top rest hcs
    obtain ⟨w2, r2, h2, ⟨hcs2, himg2, hcur2, hcw2, hhw2, hbw2⟩, hlen2⟩ :=
      ih r1 top rest (by rw [hcs1, hcs])
    refine ⟨w1 ++ w2, r2, run_ok_append h1 h2, ⟨?_, ?_, ?_, ?_, ?_, ?_⟩, ?_⟩
    · rw [hcs2, hcs1]
    · rw [himg2, himg1]
    · rw [hcur2, hcur1]; simp; omega
    · rw [hcw2, hcw1, List.append_assoc]
    · rw [hhw2, hhw1, List.append_assoc]
    · rw [hbw2, hbw1]; simp
    · intro hi
      simp [textCount, hlen1 hi, hlen2 (by rw [himg1]; exact hi)] at *

theorem cells_body_run (env : Env) (cells : List (List String)) :
    ∀ (r : PdfRenderer) (top : containerState) (rest : List containerState),
      r.cs = top :: rest →
      (r.IsInImage = false → r.curdatacell + cells.length ≤ r.cellwidths.length) →
      ∃ ws r1, run env (cellsEvents false cells) r = Except.ok r1 ∧
        TableEffect r r1 (r.curdatacell + cells.length) [] [] ws ∧
        (r.IsInImage = false → ws = drawn r.cellwidths r.curdatacell cells) := by
  induction cells with
  | nil =>
    intro r top rest _ _
    exact ⟨[], r, rfl, by simp [TableEffect], by simp [drawn]⟩
  | cons ts cells ih =>
    intro r top rest hcs hsafe
    obtain ⟨w1, r1, h1, ⟨hcs1, himg1, hcur1, hcw1, hhw1, hbw1⟩, hlen1⟩ :=
      cell_body_run env ts r top rest hcs
        (fun hi _ => by have := hsafe hi; simp at this; omega)
    simp only [List.append_nil] at hcw1 hhw1
    obtain ⟨w2, r2, h2, ⟨hcs2, himg2, hcur2, hcw2, hhw2, hbw2⟩, hlen2⟩ :=
      ih r1 top rest (by rw [hcs1, hcs])
        (fun hi => by
          have := hsafe (by rw [← himg1]; exact hi)
          rw [hcur1, hcw1]; simp at this; omega)
    refine ⟨w1 ++ w2, r2, run_ok_append h1 h2, ⟨?_, ?_, ?_, ?_, ?_, ?_⟩, ?_⟩
    · rw [hcs2, hcs1]
    · rw [himg2, himg1]
    · rw [hcur2, hcur1]; simp; omega
    · rw [hcw2, hcw1]
    · rw [hhw2, hhw1]
    · rw [hbw2, hbw1, List.append_assoc]
    · intro hi
      rw [hlen1 hi, hlen2 (by rw [himg1]; exact hi), hcur1, hcw1]
      simp [drawn]

theorem row_header_run (env : Env) (cells : List (List String)) (r : PdfRenderer)
    (top : containerState) (rest : List containerState) (hcs : r.cs = top :: rest) :
    ∃ ws r1, run env (rowEvents true cells) r = Except.ok r1 ∧
      TableEffect r r1 cells.length ws ws [] ∧
      (r.IsInImage = false → ws.length = textCount cells) := by
  obtain ⟨x, r1, he, hcs1, hcur1, himg1, hcw1, hhw1, hbw1⟩ := row_enter env r top rest hcs
  obtain ⟨ws, r2, hc, ⟨hcs2, himg2, hcur2, hcw2, hhw2, hbw2⟩, hlen⟩ :=
    cells_header_run env cells r1 x (top :: rest) hcs1
  obtain ⟨r3, hlv, hcs3, himg3, hcw3, hcur3, hhw3, hbw3⟩ :=
    row_leave env r2 x top rest (by rw [hcs2, hcs1])
  refine ⟨ws, r3, ?_, ⟨?_, ?_, ?_, ?_, ?_, ?_⟩, ?_⟩
  · exact run_ok_cons (by simpa [step] using he)
      (run_ok_append hc (run_ok_cons (by simpa [step] using hlv) rfl))
  · rw [hcs3, hcs]
  · rw [himg3, himg2, himg1]
  · rw [hcur3, hcur2, hcur1]; simp
  · rw [hcw3, hcw2, hcw1]
  · rw [hhw3, hhw2, hhw1]
  · rw [hbw3, hbw2, hbw1]
  · intro hi; exact hlen (by rw [himg1]; exact hi)

theorem row_body_run (env : Env) (cells : List (List String)) (r : PdfRenderer)
    (top : containerState) (rest : List containerState) (hcs : r.cs = top :: rest)
    (hsafe : r.IsInImage = false → cells.length ≤ r.cellwidths.length) :
    ∃ ws r1, run env (rowEvents false cells) r = Except.ok r1 ∧
      TableEffect r r1 cells.length [] [] ws ∧
      (r.IsInImage = false → ws = drawn r.cellwidths 0 cells) := by
  obtain ⟨x, r1, he, hcs1, hcur1, himg1, hcw1, hhw1, hbw1⟩ := row_enter env r top rest hcs
  obtain ⟨ws, r2, hc, ⟨hcs2, himg2, hcur2, hcw2, hhw2, hbw2⟩, hlen⟩ :=
    cells_body_run env cells r1 x (top :: rest) hcs1
      (fun hi => by rw [hcur1, hcw1]; have := hsafe (by rw [← himg1]; exact hi); omega)
  obtain ⟨r3, hlv, hcs3, himg3, hcw3, hcur3, hhw3, hbw3⟩ :=
    row_leave env r2 x top rest (by rw [hcs2, hcs1])
  refine ⟨ws, r3, ?_, ⟨?_, ?_, ?_, ?_, ?_, ?_⟩, ?_⟩
  · exact run_ok_cons (by simpa [step] using he)
      (run_ok_append hc (run_ok_cons (by simpa [step] using hlv) rfl))
  · rw [hcs3, hcs]
  · rw [himg3, himg2, himg1]
  · rw [hcur3, hcur2, hcur1]; simp
  · rw [hcw3, hcw2, hcw1]
  · rw [hhw3, hhw2, hhw1]
  · rw [hbw3, hbw2, hbw1]
  · intro hi
    rw [hlen (by rw [himg1]; exact hi), hcur1, hcw1]

theorem rows_body_run (env : Env) (body : List (List (List String))) :
    ∀ (r : PdfRenderer) (top : containerState) (rest : List containerState),
      r.cs = top :: rest →
      (r.IsInImage = false → ∀ row ∈ body, row.length ≤ r.cellwidths.length) →
      ∃ r1, run env (rowsEvents body) r = Except.ok r1 ∧ r1.cs = r.cs ∧
        r1.IsInImage = r.IsInImage ∧ r1.cellwidths = r.cellwidths ∧
        headWidths r1.Pdf.log = headWidths r.Pdf.log := by
  induction body with
  | nil =>
    intro r top rest _ _
    exact ⟨r, rfl, rfl, rfl, rfl, rfl⟩
  | cons row rows ih =>
    intro r top rest hcs hsafe
    obtain ⟨ws, r1, h1, ⟨hcs1, himg1, _, hcw1, hhw1, _⟩, _⟩ :=
      row_body_run env row r top rest hcs (fun hi => hsafe hi row (List.mem_cons_self _ _))
    simp only [List.append_nil] at hcw1 hhw1
    obtain ⟨r2, h2, hcs2, himg2, hcw2, hhw2⟩ :=
      ih r1 top rest (by rw [hcs1, hcs])
        (fun hi row hrow => by
          rw [hcw1]
          exact hsafe (by rw [← himg1]; exact hi) row (List.mem_cons_of_mem _ hrow))
    exact ⟨r2, run_ok_append h1 h2, by rw [hcs2, hcs1], by rw [himg2, himg1],
      by rw [hcw2, hcw1], by rw [hhw2, hhw1]⟩

theorem rowsEvents_append (a b : List (List (List String))) :
    rowsEvents (a ++ b) = rowsEvents a ++ rowsEvents b := by
  induction a with
  | nil => rfl
  | cons row rows ih => simp [rowsEvents, ih]

theorem head_run (env : Env) (header : List (List String)) (r : PdfRenderer)
    (top : containerState) (rest : List containerState) (hcs : r.cs = top :: rest) :
    ∃ x r1, run env (headEvents header) r = Except.ok r1 ∧ r1.cs = x :: top :: rest ∧
      r1.IsInImage = r.IsInImage ∧
      headWidths r1.Pdf.log = headWidths r.Pdf.log ++ r1.cellwidths ∧
      bodyWidths r1.Pdf.log = bodyWidths r.Pdf.log ∧
      (r.IsInImage = false → r1.cellwidths.length = textCount header) := by
  obtain ⟨x, r1, he, hcs1, himg1, hcw1, hcur1, hhw1, hbw1⟩ := table_enter env r top rest hcs
  obtain ⟨y, r2, he2, hcs2, hcw2, himg2, hhw2, hbw2⟩ :=
    head_enter env r1 x (top :: rest) hcs1
  obtain ⟨ws, r3, hrow, ⟨hcs3, himg3, hcur3, hcw3, hhw3, hbw3⟩, hlen⟩ :=
    row_header_run env header r2 y (x :: top :: rest) hcs2
  obtain ⟨r4, hlv, hcs4, himg4, hcw4, hcur4, hhw4, hbw4⟩ :=
    head_leave env r3 y x (top :: rest) (by rw [hcs3, hcs2])
  refine ⟨x, r4, ?_, hcs4, ?_, ?_, ?_, ?_⟩
  · exact run_ok_cons (by simpa [step] using he)
      (run_ok_cons (by simpa [step] using he2)
        (run_ok_append hrow (run_ok_cons (by simpa [step] using hlv) rfl)))
  · rw [himg4, himg3, himg2, himg1]
  · rw [hhw4, hhw3, hhw2, hhw1, hcw4, hcw3, hcw2]; simp
  · rw [hbw4, hbw3, hbw2, hbw1]; simp
  · intro hi
    rw [hcw4, hcw3, hcw2]
    simpa using hlen (by rw [himg2, himg1]; exact hi)

theorem table_run (env : Env) (header : List (List String))
    (body : List (List (List String))) (r : PdfRenderer)
    (top : containerState) (rest : List containerState) (hcs : r.cs = top :: rest)
    (hrows : ∀ row ∈ body, row.length ≤ textCount header) :
    ∃ r1, run env (tableEvents header body) r = Except.ok r1 ∧ r1.cs = r.cs := by
  obtain ⟨x, r1, h1, hcs1, himg1, _, _, hlen1⟩ := head_run env header r top rest hcs
  obtain ⟨y, r2, h2, hcs2, himg2, hcw2, _⟩ := body_enter env r1 x (top :: rest) hcs1
  obtain ⟨r3, h3, hcs3, himg3, hcw3, _⟩ :=
    rows_body_run env body r2 y (x :: top :: rest) hcs2
      (fun hi row hrow => by
        rw [hcw2, hlen1 (by rw [← himg1, ← himg2]; exact hi)]
        exact hrows row hrow)
  obtain ⟨r4, h4, hcs4, _⟩ := body_leave env r3 y x (top :: rest) (by rw [hcs3, hcs2])
  obtain ⟨r5, h5, hcs5, _⟩ := table_leave env r4 x top rest hcs4
  refine ⟨r5, ?_, by rw [hcs5, hcs]⟩
  exact run_ok_append h1
    (run_ok_cons (by simpa [step] using h2)
      (run_ok_append h3
        (run_ok_cons (by simpa [step] using h4) (run_ok_cons (by simpa [step] using h5) rfl))))

/-- The text nodes of a cell as a forest. -/
def textsDoc : List String → Doc
  | [] => Doc.nil
  | t :: ts => Doc.leaf (Leaf.Text t "") (textsDoc ts)

/-- The cells of a row as a forest. -/
def cellsDoc (isHeader : Bool) : List (List String) → Doc
  | [] => Doc.nil
  | ts :: cells => Doc.node (Container.TableCell isHeader) (textsDoc ts) (cellsDoc isHeader cells)

/-- The rows of a table body as a forest. -/
def rowsDoc : List (List (List String)) → Doc
  | [] => Doc.nil
  | row :: rows => Doc.node Container.TableRow (cellsDoc false row) (rowsDoc rows)

/-- A table node: a head with one row of header cells, and a body of rows. -/
def tableDoc (header : List (List String)) (body : List (List (List String))) : Doc :=
  Doc.node Container.Table
    (Doc.node Container.TableHead
      (Doc.node Container.TableRow (cellsDoc true header) Doc.nil)
      (Doc.node Container.TableBody (rowsDoc body) Doc.nil))
    Doc.nil

/-- A row in which every cell holds exactly one text node. -/
def oneText (row : List String) : List (List String) :=
  row.map (fun t => [t])

theorem textsDoc_events (ts : List String) : (textsDoc ts).events = textEvents ts := by
  induction ts with
  | nil => rfl
  | cons t ts ih => simp [textsDoc, Doc.events, textEvents, ih]

theorem cellsDoc_events (h : Bool) (cells : List (List String)) :
    (cellsDoc h cells).events = cellsEvents h cells := by
  induction cells with
  | nil => rfl
  | cons ts cells ih =>
    simp [cellsDoc, Doc.events, cellsEvents, cellEvents, textsDoc_events, ih]

theorem rowsDoc_events (rows : List (List (List String))) :
    (rowsDoc rows).events = rowsEvents rows := by
  induction rows with
  | nil => rfl
  | cons row rows ih =>
    simp [rowsDoc, Doc.events, rowsEvents, rowEvents, cellsDoc_events, ih]

theorem tableDoc_events (header : List (List String)) (body : List (List (List String))) :
    (tableDoc header body).events = tableEvents header body := by
  simp [tableDoc, Doc.events, tableEvents, headEvents, rowEvents, cellsDoc_events,
    rowsDoc_events]

theorem textCount_oneText (row : List String) : textCount (oneText row) = row.length := by
  induction row with
  | nil => rfl
  | cons t ts ih =>
    simp only [textCount, oneText, List.map_cons, List.sum_cons, List.length_cons,
      List.length_nil] at *
    omega

theorem drawn_oneText (cw : List float64) (row : List String) :
    ∀ i, i + row.length ≤ cw.length →
      drawn cw i (oneText row) = (cw.drop i).take row.length := by
  induction row with
  | nil => intro i _; simp [oneText, drawn]
  | cons t ts ih =>
    intro i hi
    simp only [List.length_cons] at hi
    have hlt : i < cw.length := by omega
    have hih := ih (i + 1) (by omega)
    simp only [oneText, List.map_cons, drawn, List.map_nil] at hih ⊢
    have hg : cw.getD i 0 = cw[i] := by
      simp [List.getD_eq_getElem?_getD, List.getElem?_eq_getElem hlt]
    rw [hih, List.drop_eq_getElem_cons hlt, hg]
    rfl

/-- X1 (the column index stays in bounds when every header cell that a body
cell relies on recorded a width). For every table (header cells and body cells with
any number of text nodes) whose body rows have no more cells than the header
row holds text nodes, processed in any state with a non-empty stack, the walk
of the table runs to its end: no read `cellwidths[curdatacell]` of
`processText` is out of range (such a read aborts the walk with
`Fault.indexOutOfRange`). -/
theorem table_index_in_bounds (env : Env) (header : List (List String))
    (body : List (List (List String)))
    (hrows : ∀ row ∈ body, row.length ≤ textCount header)
    (r : PdfRenderer) (top : containerState) (rest : List containerState)
    (hcs : r.cs = top :: rest) :
    ∃ r1, run env (tableDoc header body).events r = Except.ok r1 ∧
      r1.cs = r.cs := by
  rw [tableDoc_events]
  exact table_run env header body r top rest hcs hrows

/-- X1, at a table of two columns with a full body row, a short row and a row
with an empty cell: the walk runs to its end. -/
theorem table_index_in_bounds_witness :
    (∀ row ∈ [[["1"], ["2"]], [["3"]], [[], ["4"]]],
      List.length row ≤ textCount (oneText ["a", "bcd"])) ∧
    ∃ r1, run exampleEnv
        (tableDoc (oneText ["a", "bcd"]) [[["1"], ["2"]], [["3"]], [[], ["4"]]]).events
        exampleRenderer = Except.ok r1 ∧ r1.cs = exampleRenderer.cs :=
  ⟨by decide,
    table_index_in_bounds exampleEnv (oneText ["a", "bcd"])
      [[["1"], ["2"]], [["3"]], [[], ["4"]]]
      (by decide) exampleRenderer
      { containerType := NodeType.Paragraph, textStyle := exampleNormal, leftMargin := 10 } []
      rfl⟩

/-- The events of the table with the header cells "a" and an empty cell and
the body cells "1" and "2", up to the text node "2". -/
def emptyHeaderCellEvents : List Event :=
  headEvents [["a"], []] ++
    [Event.enter Container.TableBody, Event.enter Container.TableRow,
     Event.enter (Container.TableCell false), Event.leaf (Leaf.Text "1" ""),
     Event.leave (Container.TableCell false), Event.enter (Container.TableCell false)]

/-- C8 (the column index leaves the bounds). A table whose header row has the
cell "a" and an empty cell (a cell without a text node), and whose body row has
the cells "1" and "2": the body row has no more cells than the header row, yet
the header recorded one width only, for "a". At the text node "2" the column
index is 1 and `cellwidths` has length 1, so the read `cellwidths[curdatacell]`
of `processText` is out of range and the walk of the table aborts with
`Fault.indexOutOfRange`. -/
theorem table_index_out_of_range :
    (∀ row ∈ [[["1"], ["2"]]], List.length row ≤ [["a"], ([] : List String)].length) ∧
    (∃ post, (tableDoc [["a"], []] [[["1"], ["2"]]]).events =
      emptyHeaderCellEvents ++ Event.leaf (Leaf.Text "2" "") :: post) ∧
    (∃ r2, run exampleEnv emptyHeaderCellEvents exampleRenderer = Except.ok r2 ∧
      r2.curdatacell = 1 ∧ r2.cellwidths.length = 1 ∧
      step exampleEnv (Event.leaf (Leaf.Text "2" "")) r2 =
        Except.error Fault.indexOutOfRange) ∧
    run exampleEnv (tableDoc [["a"], []] [[["1"], ["2"]]]).events exampleRenderer =
      Except.error Fault.indexOutOfRange :=
  ⟨by decide, ⟨_, rfl⟩, ⟨_, rfl, rfl, rfl, rfl⟩, rfl⟩

/-- C5, as the code has it (table width consistency). For every table whose
header cells hold one text node each, not inside an image, and whose body rows
(cells with any number of text nodes) have no more cells than the header: the
header row records one width per header cell, `[c0, ..., ck]`, the widths of
the header cells drawn; and the widths of the cells drawn for body row `j` are
`drawn [c0, ..., ck] 0 row`: for the cell in column `i`, one cell of width `ci`
for every text node it holds, so none for an empty cell and several for a
cell with several text nodes. For a row that has as many cells as the header,
each holding exactly one text node (of any length), these are exactly
`[c0, ..., ck]` in that order. -/
theorem table_width_consistency (env : Env) (header : List String)
    (body : List (List (List String))) (hrows : ∀ row ∈ body, row.length ≤ header.length)
    (r : PdfRenderer) (top : containerState) (rest : List containerState)
    (hcs : r.cs = top :: rest) (himg : r.IsInImage = false)
    (j : Nat) (hj : j < body.length) :
    ∃ rh rj rj1 post,
      (tableDoc (oneText header) body).events =
        (headEvents (oneText header) ++
          Event.enter Container.TableBody :: rowsEvents (body.take j)) ++
        (rowEvents false body[j] ++ post) ∧
      run env (headEvents (oneText header)) r = Except.ok rh ∧
      rh.cellwidths.length = header.length ∧
      headWidths rh.Pdf.log = headWidths r.Pdf.log ++ rh.cellwidths ∧
      run env (headEvents (oneText header) ++
          Event.enter Container.TableBody :: rowsEvents (body.take j)) r
        = Except.ok rj ∧
      run env (rowEvents false body[j]) rj = Except.ok rj1 ∧
      bodyWidths rj1.Pdf.log = bodyWidths rj.Pdf.log ++ drawn rh.cellwidths 0 body[j] ∧
      (∀ row : List String, body[j] = oneText row → row.length = header.length →
        bodyWidths rj1.Pdf.log = bodyWidths rj.Pdf.log ++ rh.cellwidths) := by
  obtain ⟨x, rh, h1, hcs1, himg1, hhw1, _, hlen1⟩ :=
    head_run env (oneText header) r top rest hcs
  have hlen : rh.cellwidths.length = header.length := by
    rw [hlen1 himg, textCount_oneText]
  obtain ⟨y, r2, h2, hcs2, himg2, hcw2, _⟩ := body_enter env rh x (top :: rest) hcs1
  obtain ⟨rj, h3, hcs3, himg3, hcw3, _⟩ :=
    rows_body_run env (body.take j) r2 y (x :: top :: rest) hcs2
      (fun _ row hrow => by
        rw [hcw2, hlen]; exact hrows row (List.mem_of_mem_take hrow))
  have himgj : rj.IsInImage = false := by rw [himg3, himg2, himg1]; exact himg
  have hcwj : rj.cellwidths = rh.cellwidths := by rw [hcw3, hcw2]
  obtain ⟨ws, rj1, h4, ⟨_, _, _, _, _, hbw4⟩, hws⟩ :=
    row_body_run env body[j] rj y (x :: top :: rest) (by rw [hcs3, hcs2])
      (fun _ => by rw [hcwj, hlen]; exact hrows _ (List.getElem_mem _))
  have hdrawn : ws = drawn rh.cellwidths 0 body[j] := by
    rw [hws himgj, hcwj]
  refine ⟨rh, rj, rj1,
    rowsEvents (body.drop (j + 1)) ++
      [Event.leave Container.TableBody, Event.leave Container.Table],
    ?_, h1, hlen, hhw1, ?_, h4, ?_, ?_⟩
  · have hsplit : body = body.take j ++ body[j] :: body.drop (j + 1) := by
      rw [List.getElem_cons_drop, List.take_append_drop]
    have hev : rowsEvents body =
        rowsEvents (body.take j) ++
          (rowEvents false body[j] ++ rowsEvents (body.drop (j + 1))) := by
      conv_lhs => rw [hsplit]
      rw [rowsEvents_append]
      rfl
    rw [tableDoc_events, tableEvents, hev]
    simp only [List.append_assoc, List.cons_append]
  · exact run_ok_append h1 (run_ok_cons (by simpa [step] using h2) h3)
  · rw [hbw4, hdrawn]
  · intro row hrow hfull
    rw [hbw4, hdrawn, hrow, drawn_oneText _ _ 0 (by omega)]
    rw [hfull, ← hlen]
    simp

/-- C5, at a table of two columns with a full body row, a row whose first
cell is empty and a row whose first cell holds two text nodes: the full row
is drawn with the widths of the header, the others are not. -/
theorem table_width_consistency_witness :
    (∀ row ∈ [[["long text"], [""]], [[], ["2"]], [["3", "4"], ["5"]]],
      List.length row ≤ ["a", "bcd"].length) ∧
    ∃ rh rj rj1,
      run exampleEnv (headEvents (oneText ["a", "bcd"])) exampleRenderer = Except.ok rh ∧
      rh.cellwidths = [19, 33] ∧
      run exampleEnv (rowEvents false [["long text"], [""]]) rj = Except.ok rj1 ∧
      bodyWidths rj1.Pdf.log = bodyWidths rj.Pdf.log ++ [19, 33] ∧
      drawn rh.cellwidths 0 [[], ["2"]] = [33] ∧
      drawn rh.cellwidths 0 [["3", "4"], ["5"]] = [19, 19, 33] := by
  obtain ⟨rh, rj, rj1, _, _, h1, h2, _, _, h5, _, h7⟩ :=
    table_width_consistency exampleEnv ["a", "bcd"]
      [[["long text"], [""]], [[], ["2"]], [["3", "4"], ["5"]]]
      (by decide) exampleRenderer
      { containerType := NodeType.Paragraph, textStyle := exampleNormal, leftMargin := 10 } []
      rfl rfl 0 (by decide)
  have hw : rh.cellwidths = [19, 33] := by
    have h0 : run exampleEnv (headEvents (oneText ["a", "bcd"])) exampleRenderer =
        Except.ok (resultOr (run exampleEnv (headEvents (oneText ["a", "bcd"]))
          exampleRenderer) exampleRenderer) := rfl
    have := h1.symm.trans h0
    simp only [Except.ok.injEq] at this
    rw [this]
    decide
  refine ⟨by decide, rh, rj, rj1, h1, hw, h5, ?_, ?_, ?_⟩
  · rw [h7 ["long text", ""] rfl rfl, hw]
  · rw [hw]; decide
  · rw [hw]; decide

/-- C5 fails as stated: in a table whose header defines the widths `[19, 33]`,
a body row whose first cell is empty (it holds no text node) and whose second
cell holds "2" is drawn as the single cell of width 33. -/
theorem table_width_counterexample :
    ∃ r1, run exampleEnv (tableDoc (oneText ["a", "bcd"]) [[[], ["2"]]]).events
        exampleRenderer = Except.ok r1 ∧
      headWidths r1.Pdf.log = [19, 33] ∧ bodyWidths r1.Pdf.log = [33] :=
  ⟨_, rfl, by decide, by decide⟩

/-! ## Anchors -/

/-- The handles `r.Pdf.AddLink()` has returned, in order of the calls. -/
def allocated (log : List Cmd) : List Nat :=
  log.filterMap (fun c =>
    match c with
    | Cmd.AddLink id => some id
    | _ => none)

/-- The handles the references written so far use, in order: one for every
internal link written and one for every heading bound to its page. -/
def handlesUsed (log : List Cmd) : List Nat :=
  log.filterMap (fun c =>
    match c with
    | Cmd.writeAnchorLink _ _ id => some id
    | Cmd.SetLink id _ _ => some id
    | _ => none)

/-- The key under which `processText` looks up the anchor map when the top
frame is `top`: the destination of a link frame without URL scheme, or `"#"`
followed by the heading identifier for a heading frame. -/
def refKey (env : Env) (top : containerState) (headingID : String) : Option String :=
  if top.containerType = NodeType.Link then
    if env.hasURLScheme top.destination then none else some top.destination
  else if top.containerType = NodeType.Heading then some ("#" ++ headingID)
  else none

/-- One handler step on the anchor map: nothing changes, or one entry with a
new key is added together with one call of `AddLink`. -/
def AnchorStep (r r1 : PdfRenderer) : Prop :=
  (r1.anchorLinks = r.anchorLinks ∧ allocated r1.Pdf.log = allocated r.Pdf.log) ∨
  (∃ k id, r.anchor k = none ∧ r1.anchorLinks = (k, id) :: r.anchorLinks ∧
    allocated r1.Pdf.log = allocated r.Pdf.log ++ [id])

theorem lookup_none_iff (l : List (String × Nat)) (k : String) :
    l.lookup k = none ↔ k ∉ l.map Prod.fst := by
  induction l with
  | nil => simp
  | cons p l ih =>
    obtain ⟨a, b⟩ := p
    simp only [List.lookup_cons, List.map_cons, List.mem_cons, not_or]
    by_cases h : k = a
    · subst h; simp
    · have : (k == a) = false := by simpa using h
      simp [this, ih, h]

theorem resolveAnchor_spec (r : PdfRenderer) (key : String) :
    (r.resolveAnchor key).2.cs = r.cs ∧
    (r.resolveAnchor key).2.IsInImage = r.IsInImage ∧
    (r.resolveAnchor key).2.anchor key = some (r.resolveAnchor key).1 ∧
    handlesUsed (r.resolveAnchor key).2.Pdf.log = handlesUsed r.Pdf.log ∧
    (∀ h0, r.anchor key = some h0 →
      (r.resolveAnchor key).1 = h0 ∧ (r.resolveAnchor key).2.anchorLinks = r.anchorLinks ∧
      allocated (r.resolveAnchor key).2.Pdf.log = allocated r.Pdf.log) ∧
    (r.anchor key = none →
      (r.resolveAnchor key).2.anchorLinks = (key, (r.resolveAnchor key).1) :: r.anchorLinks ∧
      allocated (r.resolveAnchor key).2.Pdf.log =
        allocated r.Pdf.log ++ [(r.resolveAnchor key).1]) := by
  unfold PdfRenderer.resolveAnchor
  cases h : r.anchor key with
  | some id => simp [h]
  | none =>
    simp [PdfRenderer.AddLink, PdfRenderer.anchor, List.lookup_cons, handlesUsed, allocated,
      List.filterMap_append]

/-- What one reference to the key `k` does: it uses the handle `h` that the
map holds for `k` afterwards; if the map held a handle before, that one is
used and nothing is allocated, otherwise `h` is allocated by one `AddLink`. -/
def Reference (k : String) (h : Nat) (r r1 : PdfRenderer) : Prop :=
  r1.anchor k = some h ∧
  handlesUsed r1.Pdf.log = handlesUsed r.Pdf.log ++ [h] ∧
  (∀ h0, r.anchor k = some h0 →
    h = h0 ∧ r1.anchorLinks = r.anchorLinks ∧
    allocated r1.Pdf.log = allocated r.Pdf.log) ∧
  (r.anchor k = none →
    r1.anchorLinks = (k, h) :: r.anchorLinks ∧
    allocated r1.Pdf.log = allocated r.Pdf.log ++ [h])

theorem writeText_ref (env : Env) (top : containerState) (headingID s : String)
    (r : PdfRenderer) (k : String) (hk : refKey env top headingID = some k) :
    ∃ r1 h, writeText env top headingID s r = Except.ok r1 ∧ Reference k h r r1 := by
  simp only [refKey] at hk
  split_ifs at hk with h1 h2 h3
  · simp only [Option.some.injEq] at hk
    subst hk
    obtain ⟨_, _, ha, hu, hsome, hnone⟩ := resolveAnchor_spec r top.destination
    refine ⟨(r.resolveAnchor top.destination).2.writeAnchorLink top.textStyle s
      (r.resolveAnchor top.destination).1, (r.resolveAnchor top.destination).1,
      by simp [writeText, h1, h2], ?_⟩
    refine ⟨?_, ?_, ?_, ?_⟩
    · simpa [PdfRenderer.writeAnchorLink, PdfRenderer.emit, PdfRenderer.anchor] using ha
    · simp [PdfRenderer.writeAnchorLink, PdfRenderer.emit, handlesUsed,
        List.filterMap_append] at hu ⊢
      exact hu
    · intro h0 hh
      obtain ⟨e1, e2, e3⟩ := hsome h0 hh
      refine ⟨e1, by simpa [PdfRenderer.writeAnchorLink, PdfRenderer.emit] using e2, ?_⟩
      simp [PdfRenderer.writeAnchorLink, PdfRenderer.emit, allocated,
        List.filterMap_append] at e3 ⊢
      exact e3
    · intro hh
      obtain ⟨e2, e3⟩ := hnone hh
      refine ⟨by simpa [PdfRenderer.writeAnchorLink, PdfRenderer.emit] using e2, ?_⟩
      simp [PdfRenderer.writeAnchorLink, PdfRenderer.emit, allocated,
        List.filterMap_append] at e3 ⊢
      exact e3
  · simp only [Option.some.injEq] at hk
    subst hk
    obtain ⟨_, _, ha, hu, hsome, hnone⟩ :=
      resolveAnchor_spec { r with IsInText := true } ("#" ++ headingID)
    refine ⟨((({ r with IsInText := true } : PdfRenderer).resolveAnchor
        ("#" ++ headingID)).2.emit (Cmd.SetLink
          (({ r with IsInText := true } : PdfRenderer).resolveAnchor ("#" ++ headingID)).1 (-1)
          (env.pageNo (({ r with IsInText := true } : PdfRenderer).resolveAnchor
            ("#" ++ headingID)).2.Pdf.log))).write top.textStyle s,
      (({ r with IsInText := true } : PdfRenderer).resolveAnchor ("#" ++ headingID)).1,
      by simp [writeText, h1, h3], ?_⟩
    refine ⟨?_, ?_, ?_, ?_⟩
    · simpa [PdfRenderer.write, PdfRenderer.emit, PdfRenderer.anchor] using ha
    · simp [PdfRenderer.write, PdfRenderer.emit, handlesUsed, List.filterMap_append] at hu ⊢
      exact hu
    · intro h0 hh
      obtain ⟨e1, e2, e3⟩ := hsome h0 hh
      refine ⟨e1, by simpa [PdfRenderer.write, PdfRenderer.emit] using e2, ?_⟩
      simp [PdfRenderer.write, PdfRenderer.emit, allocated, List.filterMap_append] at e3 ⊢
      exact e3
    · intro hh
      obtain ⟨e2, e3⟩ := hnone hh
      refine ⟨by simpa [PdfRenderer.write, PdfRenderer.emit] using e2, ?_⟩
      simp [PdfRenderer.write, PdfRenderer.emit, allocated, List.filterMap_append] at e3 ⊢
      exact e3

/-- The anchor map, the allocations and the handles used are as before. -/
def sameAnchors (r r1 : PdfRenderer) : Prop :=
  r1.anchorLinks = r.anchorLinks ∧ allocated r1.Pdf.log = allocated r.Pdf.log ∧
  handlesUsed r1.Pdf.log = handlesUsed r.Pdf.log

theorem beginText_anchors (top : containerState) (r : PdfRenderer) :
    sameAnchors r (beginText top r) := by
  simp [beginText_eq, sameAnchors, allocated, handlesUsed, List.filterMap_append]

theorem firstTextRule_anchors (top : containerState) (s : String) (r : PdfRenderer) :
    sameAnchors r (firstTextRule top s r) := by
  unfold firstTextRule
  split_ifs <;>
    simp [sameAnchors, PdfRenderer.cr, PdfRenderer.emit, allocated, handlesUsed,
      List.filterMap_append]

theorem Reference.step {k : String} {h : Nat} {r r1 : PdfRenderer}
    (href : Reference k h r r1) : AnchorStep r r1 := by
  obtain ⟨_, _, hsome, hnone⟩ := href
  cases hk : r.anchor k with
  | some h0 => exact Or.inl (hsome h0 hk).2
  | none => exact Or.inr ⟨k, h, hk, hnone hk⟩

theorem writeText_anchor (env : Env) (top : containerState) (headingID s : String)
    (r r1 : PdfRenderer) (hrun : writeText env top headingID s r = Except.ok r1) :
    AnchorStep r r1 := by
  cases hk : refKey env top headingID with
  | some k =>
    obtain ⟨r2, h, hw, href⟩ := writeText_ref env top headingID s r k hk
    rw [hw] at hrun
    cases hrun
    exact href.step
  | none =>
    left
    simp only [refKey] at hk
    simp only [writeText] at hrun
    by_cases h1 : top.containerType = NodeType.Link
    · by_cases h2 : env.hasURLScheme top.destination = true
      · simp only [h1, h2, if_true, Bool.not_true, Bool.false_eq_true, if_false] at hrun
        cases hrun
        simp [PdfRenderer.writeLink, PdfRenderer.emit, allocated, List.filterMap_append]
      · simp [h1, h2] at hk
    · by_cases h3 : top.containerType = NodeType.Heading
      · simp [h1, h3] at hk
      · simp only [h1, h3, if_false] at hrun
        by_cases h4 : top.containerType = NodeType.TableCell
        · simp only [h4, if_true] at hrun
          by_cases h5 : top.isHeader = true
          · simp only [h5, if_true] at hrun
            cases hrun
            simp [PdfRenderer.setStyler, PdfRenderer.emit, allocated, List.filterMap_append]
          · simp only [h5, if_false, PdfRenderer.setStyler, Bool.false_eq_true] at hrun
            split at hrun
            · cases hrun
            · cases hrun
              simp [PdfRenderer.emit, allocated, List.filterMap_append]
        · simp only [h4, if_false] at hrun
          cases hrun
          simp [PdfRenderer.write, PdfRenderer.emit, allocated, List.filterMap_append]

theorem AnchorStep.of_same {r r1 r2 r3 : PdfRenderer} (h0 : sameAnchors r r1)
    (h : AnchorStep r1 r2) (h2 : sameAnchors r2 r3) : AnchorStep r r3 := by
  obtain ⟨a0, b0, _⟩ := h0
  obtain ⟨a2, b2, _⟩ := h2
  rcases h with ⟨a, b⟩ | ⟨k, id, hk, a, b⟩
  · exact Or.inl ⟨by rw [a2, a, a0], by rw [b2, b, b0]⟩
  · refine Or.inr ⟨k, id, ?_, by rw [a2, a, a0], by rw [b2, b, b0]⟩
    simpa [PdfRenderer.anchor, a0] using hk

theorem processText_anchor (env : Env) (literal headingID : String) (r r1 : PdfRenderer)
    (hrun : processText env literal headingID r = Except.ok r1) : AnchorStep r r1 := by
  unfold processText at hrun
  split_ifs at hrun with himg
  · cases hrun; exact Or.inl ⟨rfl, rfl⟩
  · rcases hcs : r.cs with _ | ⟨top, rest⟩
    · simp [PdfRenderer.peek, hcs, bind, Except.bind] at hrun
    · simp only [PdfRenderer.peek, hcs, bind, Except.bind] at hrun
      cases hw : writeText env top headingID (textToWrite literal r.TrimNext)
          (beginText top r) with
      | error f => rw [hw] at hrun; cases hrun
      | ok r2 =>
        rw [hw] at hrun
        cases hrun
        exact AnchorStep.of_same (beginText_anchors top r)
          (writeText_anchor env top headingID _ _ r2 hw) (firstTextRule_anchors top _ r2)

theorem processText_ref (env : Env) (literal headingID : String) (r : PdfRenderer)
    (top : containerState) (rest : List containerState) (k : String)
    (hcs : r.cs = top :: rest) (himg : r.IsInImage = false)
    (hk : refKey env top headingID = some k) :
    ∃ r1 h, processText env literal headingID r = Except.ok r1 ∧ Reference k h r r1 := by
  obtain ⟨r2, h, hw, ha, hu, hsome, hnone⟩ :=
    writeText_ref env top headingID (textToWrite literal r.TrimNext) (beginText top r) k hk
  obtain ⟨a0, b0, c0⟩ := beginText_anchors top r
  obtain ⟨a2, b2, c2⟩ := firstTextRule_anchors top (textToWrite literal r.TrimNext) r2
  refine ⟨firstTextRule top (textToWrite literal r.TrimNext) r2, h, ?_, ?_, ?_, ?_, ?_⟩
  · simp [processText, himg, PdfRenderer.peek, hcs, bind, Except.bind, hw]
  · simpa [PdfRenderer.anchor, a2] using ha
  · rw [c2, hu, c0]
  · intro h0 hh
    obtain ⟨e1, e2, e3⟩ := hsome h0 (by simpa [PdfRenderer.anchor, a0] using hh)
    exact ⟨e1, by rw [a2, e2, a0], by rw [b2, e3, b0]⟩
  · intro hh
    obtain ⟨e2, e3⟩ := hnone (by simpa [PdfRenderer.anchor, a0] using hh)
    exact ⟨by rw [a2, e2, a0], by rw [b2, e3, b0]⟩

theorem handle_anchor (env : Env) (c : Container) (entering : Bool) (r r1 : PdfRenderer)
    (hrun : handle env c entering r = Except.ok r1) :
    r1.anchorLinks = r.anchorLinks ∧ allocated r1.Pdf.log = allocated r.Pdf.log := by
  rcases hcs : r.cs with _ | ⟨a, _ | ⟨b, l⟩⟩ <;> cases c <;> cases entering <;>
    simp [handle, processList, processItem, processEmph, processStrong, processLink,
      processImage, processParagraph, processBlockQuote, processHeading, processTable,
      processTableHead, processTableBody, processTableRow, processTableCell,
      PdfRenderer.peek, PdfRenderer.pop, PdfRenderer.push, PdfRenderer.modifyTop,
      PdfRenderer.modifyParent, hcs, PdfRenderer.setStyler, PdfRenderer.SetLeftMargin,
      PdfRenderer.cr, PdfRenderer.emit, bind, Except.bind, PdfRenderer.GetLeftMargin] at hrun <;>
    (try split_ifs at hrun) <;>
    (try simp only [Except.ok.injEq] at hrun) <;>
    (try subst hrun) <;>
    (try simp [allocated, List.filterMap_append])

theorem step_anchor (env : Env) (e : Event) (r r1 : PdfRenderer)
    (hrun : step env e r = Except.ok r1) : AnchorStep r r1 := by
  cases e with
  | enter c => exact Or.inl (handle_anchor env c true r r1 hrun)
  | leave c => exact Or.inl (handle_anchor env c false r r1 hrun)
  | leaf l =>
    cases l with
    | Text literal headingID => exact processText_anchor env literal headingID r r1 hrun
    | CodeBlock literal =>
      simp only [step, handleLeaf, processCodeblock, Except.ok.injEq] at hrun
      subst hrun
      exact Or.inl (by simp [PdfRenderer.setStyler, PdfRenderer.cr, PdfRenderer.emit,
        PdfRenderer.multiCell, allocated, List.filterMap_append])
    | Code literal =>
      simp only [step, handleLeaf, processCode, Except.ok.injEq] at hrun
      subst hrun
      exact Or.inl (by simp [PdfRenderer.setStyler, PdfRenderer.emit, PdfRenderer.write,
        allocated, List.filterMap_append])
    | HorizontalRule =>
      simp only [step, handleLeaf, processHorizontalRule, Except.ok.injEq] at hrun
      subst hrun
      exact Or.inl (by simp [PdfRenderer.cr, PdfRenderer.emit, allocated,
        List.filterMap_append])
    | HTMLBlock literal =>
      simp only [step, handleLeaf, processHTMLBlock, Except.ok.injEq] at hrun
      subst hrun
      exact Or.inl (by simp [PdfRenderer.setStyler, PdfRenderer.cr, PdfRenderer.emit,
        allocated, List.filterMap_append])

/-- What any sequence of handler calls does to the anchor map: the keys stay
distinct, an entry once stored is never overwritten, and `AddLink` has been
called once for every entry added. -/
def AnchorsGrow (r r1 : PdfRenderer) : Prop :=
  ((r.anchorLinks.map Prod.fst).Nodup → (r1.anchorLinks.map Prod.fst).Nodup) ∧
  (∀ k v, r.anchor k = some v → r1.anchor k = some v) ∧
  (allocated r1.Pdf.log).length + r.anchorLinks.length =
    (allocated r.Pdf.log).length + r1.anchorLinks.length

theorem AnchorStep.grow {r r1 : PdfRenderer} (h : AnchorStep r r1) : AnchorsGrow r r1 := by
  rcases h with ⟨a, b⟩ | ⟨k, id, hk, a, b⟩
  · refine ⟨fun hn => by rw [a]; exact hn, fun k v hv => ?_, by rw [a, b]⟩
    simpa [PdfRenderer.anchor, a] using hv
  · refine ⟨fun hn => ?_, fun k0 v hv => ?_, ?_⟩
    · rw [a, List.map_cons, List.nodup_cons]
      exact ⟨(lookup_none_iff _ _).mp hk, hn⟩
    · have hne : k0 ≠ k := by
        rintro rfl
        rw [hk] at hv
        cases hv
      have hb : (k0 == k) = false := by simpa using hne
      simpa [PdfRenderer.anchor, a, List.lookup_cons, hb] using hv
    · rw [a, b]; simp; omega

theorem AnchorsGrow.trans {r r1 r2 : PdfRenderer} (h : AnchorsGrow r r1)
    (h1 : AnchorsGrow r1 r2) : AnchorsGrow r r2 := by
  obtain ⟨a, b, c⟩ := h
  obtain ⟨a1, b1, c1⟩ := h1
  exact ⟨fun hn => a1 (a hn), fun k v hv => b1 k v (b k v hv), by omega⟩

theorem run_anchor (env : Env) (es : List Event) :
    ∀ (r r1 : PdfRenderer), run env es r = Except.ok r1 → AnchorsGrow r r1 := by
  induction es with
  | nil =>
    intro r r1 h
    simp only [run, Except.ok.injEq] at h
    subst h
    exact ⟨fun hn => hn, fun _ _ hv => hv, rfl⟩
  | cons e es ih =>
    intro r r1 h
    simp only [run] at h
    cases hs : step env e r with
    | error f => rw [hs] at h; cases h
    | ok r2 =>
      rw [hs] at h
      exact (step_anchor env e r r2 hs).grow.trans (ih r2 r1 h)

/-- C4 (anchor idempotence). Start from an empty anchor map and let any
handlers run (`es1`). A `processText` call under a link frame with a
scheme-less destination or under a heading frame, with key `k`, uses the
handle `h` stored for `k` (allocating it by one `AddLink` if `k` was not in
the map). After any further handlers (`es2`), every later `processText` call
with the same key `k`, whether under a link or a heading frame, uses the same
handle `h`, calls `AddLink` not at all and leaves the map as it is; no entry
stored is ever overwritten, the keys of the map are distinct, and `AddLink`
has been called exactly once per entry of the map. -/
theorem anchor_idempotence (env : Env) (es1 es2 : List Event) (r r1 : PdfRenderer)
    (lit1 hid1 lit2 hid2 k : String) (top1 : containerState) (rest1 : List containerState)
    (hfresh : r.anchorLinks = [])
    (h1 : run env es1 r = Except.ok r1)
    (hc1 : r1.cs = top1 :: rest1) (hi1 : r1.IsInImage = false)
    (hk1 : refKey env top1 hid1 = some k) :
    ∃ r2 h, processText env lit1 hid1 r1 = Except.ok r2 ∧ Reference k h r1 r2 ∧
      ∀ r3 top2 rest2, run env es2 r2 = Except.ok r3 → r3.cs = top2 :: rest2 →
        r3.IsInImage = false → refKey env top2 hid2 = some k →
        ∃ r4, processText env lit2 hid2 r3 = Except.ok r4 ∧
          handlesUsed r4.Pdf.log = handlesUsed r3.Pdf.log ++ [h] ∧
          allocated r4.Pdf.log = allocated r3.Pdf.log ∧
          r4.anchorLinks = r3.anchorLinks ∧
          (∀ k0 v, r2.anchor k0 = some v → r4.anchor k0 = some v) ∧
          (r4.anchorLinks.map Prod.fst).Nodup ∧
          (allocated r4.Pdf.log).length =
            (allocated r.Pdf.log).length + r4.anchorLinks.length := by
  obtain ⟨r2, h, hp2, href⟩ := processText_ref env lit1 hid1 r1 top1 rest1 k hc1 hi1 hk1
  refine ⟨r2, h, hp2, href, ?_⟩
  intro r3 top2 rest2 h3 hc3 hi3 hk3
  have g01 := run_anchor env es1 r r1 h1
  have g12 := href.step.grow
  have g23 := run_anchor env es2 r2 r3 h3
  obtain ⟨r4, h4, hp4, href4⟩ := processText_ref env lit2 hid2 r3 top2 rest2 k hc3 hi3 hk3
  have g34 := href4.step.grow
  have hk3a : r3.anchor k = some h := g23.2.1 k h href.1
  obtain ⟨_, hu4, hsome4, _⟩ := href4
  obtain ⟨e1, e2, e3⟩ := hsome4 h hk3a
  have g04 := ((g01.trans g12).trans g23).trans g34
  refine ⟨r4, hp4, by rw [hu4, e1], e3, e2, (g23.trans g34).2.1, ?_, ?_⟩
  · exact g04.1 (by simp [hfresh])
  · have := g04.2.2
    simp only [hfresh, List.length_nil, Nat.add_zero] at this
    exact this

/-- The example renderer inside a heading of level 1. -/
def exampleInHeading : PdfRenderer :=
  resultOr (run exampleEnv [Event.enter (Container.Heading 1)] exampleRenderer) exampleRenderer

/-- The example renderer after the heading text "Intro" of the heading "x". -/
def exampleAfterHeadingText : PdfRenderer :=
  resultOr (processText exampleEnv "Intro" "x" exampleInHeading) exampleRenderer

/-- The example renderer later, inside a link to "#x" in a paragraph. -/
def exampleInLink : PdfRenderer :=
  resultOr (run exampleEnv [Event.leave (Container.Heading 1), Event.enter Container.Paragraph,
    Event.enter (Container.Link "#x")] exampleAfterHeadingText) exampleRenderer

/-- C4, at the example: the heading with identifier "x" is written first, a
link with destination "#x" later; both use the same handle and the link
allocates nothing. -/
theorem anchor_idempotence_witness :
    ∃ r4 h,
      run exampleEnv [Event.enter (Container.Heading 1)] exampleRenderer =
        Except.ok exampleInHeading ∧
      processText exampleEnv "Intro" "x" exampleInHeading =
        Except.ok exampleAfterHeadingText ∧
      exampleAfterHeadingText.anchor "#x" = some h ∧
      run exampleEnv [Event.leave (Container.Heading 1), Event.enter Container.Paragraph,
        Event.enter (Container.Link "#x")] exampleAfterHeadingText = Except.ok exampleInLink ∧
      processText exampleEnv "see intro" "" exampleInLink = Except.ok r4 ∧
      handlesUsed r4.Pdf.log = handlesUsed exampleInLink.Pdf.log ++ [h] ∧
      allocated r4.Pdf.log = allocated exampleInLink.Pdf.log := by
  obtain ⟨r2, h, hp, href, hlater⟩ :=
    anchor_idempotence exampleEnv [Event.enter (Container.Heading 1)]
      [Event.leave (Container.Heading 1), Event.enter Container.Paragraph,
        Event.enter (Container.Link "#x")]
      exampleRenderer exampleInHeading "Intro" "x" "see intro" "" "#x" _ _ rfl rfl rfl rfl rfl
  have hp2 : processText exampleEnv "Intro" "x" exampleInHeading =
      Except.ok exampleAfterHeadingText := rfl
  have e2 : r2 = exampleAfterHeadingText := by
    rw [hp2] at hp
    cases hp
    rfl
  subst e2
  obtain ⟨r4, hp4, hu, ha, _⟩ := hlater exampleInLink _ _ rfl rfl rfl rfl
  exact ⟨r4, h, rfl, rfl, href.1, rfl, hp4, hu, ha⟩

/-! ## Images -/

/-- A frame for which `processText` has no special case: not a link, a
heading or a table cell, and not part of a list. -/
def plainFrame (f : containerState) : Prop :=
  f.listkind = ListKind.notlist ∧ f.containerType ≠ NodeType.Link ∧
  f.containerType ≠ NodeType.Heading ∧ f.containerType ≠ NodeType.TableCell

/-- The image-drawing commands of a log. -/
def imagesDrawn (log : List Cmd) : List Cmd :=
  log.filter (fun c =>
    match c with
    | Cmd.ImageOptions _ _ _ => true
    | _ => false)

/-- Scenario C: an image node with its alternative text, then a later text. -/
def scenarioC (destination alt later : String) : List Event :=
  [Event.enter (Container.Image destination), Event.leaf (Leaf.Text alt ""),
   Event.leave (Container.Image destination), Event.leaf (Leaf.Text later "")]

/-- The texts drawn by the commands of a log, in order: those of `write`,
`writeLink`, `writeAnchorLink` and `CellFormat`. -/
def textsWritten (log : List Cmd) : List String :=
  log.filterMap (fun c =>
    match c with
    | Cmd.write _ t => some t
    | Cmd.writeLink _ t _ => some t
    | Cmd.writeAnchorLink _ t _ => some t
    | Cmd.CellFormat _ _ t _ _ _ _ => some t
    | _ => none)

/-- What the writing of a text adds to the canvas: the text itself, no image,
and nothing else that scenario C observes. -/
def TextWritten (s : String) (r r1 : PdfRenderer) : Prop :=
  r1.IsInImage = r.IsInImage ∧ r1.cs = r.cs ∧ r1.Pdf.leftMargin = r.Pdf.leftMargin ∧
  r1.errors = r.errors ∧ textsWritten r1.Pdf.log = textsWritten r.Pdf.log ++ [s] ∧
  imagesDrawn r1.Pdf.log = imagesDrawn r.Pdf.log

theorem resolveAnchor_written (r : PdfRenderer) (key : String) :
    (r.resolveAnchor key).2.IsInImage = r.IsInImage ∧ (r.resolveAnchor key).2.cs = r.cs ∧
    (r.resolveAnchor key).2.Pdf.leftMargin = r.Pdf.leftMargin ∧
    (r.resolveAnchor key).2.errors = r.errors ∧
    textsWritten (r.resolveAnchor key).2.Pdf.log = textsWritten r.Pdf.log ∧
    imagesDrawn (r.resolveAnchor key).2.Pdf.log = imagesDrawn r.Pdf.log := by
  unfold PdfRenderer.resolveAnchor
  cases r.anchor key <;>
    simp [PdfRenderer.AddLink, textsWritten, imagesDrawn, List.filterMap_append]

theorem writeText_written (env : Env) (top : containerState) (headingID s : String)
    (r : PdfRenderer)
    (hsafe : top.containerType = NodeType.TableCell → top.isHeader = false →
      r.curdatacell < r.cellwidths.length) :
    ∃ r1, writeText env top headingID s r = Except.ok r1 ∧ TextWritten s r r1 := by
  simp only [writeText]
  by_cases h1 : top.containerType = NodeType.Link
  · by_cases h2 : env.hasURLScheme top.destination = true
    · simp [h1, h2, TextWritten, PdfRenderer.writeLink, PdfRenderer.emit, textsWritten,
        imagesDrawn, List.filterMap_append]
    · simp only [Bool.not_eq_true] at h2
      obtain ⟨ha, hb, hc, hd, he, hf⟩ := resolveAnchor_written r top.destination
      simp [h1, h2, TextWritten, PdfRenderer.writeAnchorLink, PdfRenderer.emit, textsWritten,
        imagesDrawn, List.filterMap_append, ha, hb, hc, hd]
      simp only [textsWritten, imagesDrawn] at he hf
      exact ⟨he, hf⟩
  · by_cases h3 : top.containerType = NodeType.Heading
    · obtain ⟨ha, hb, hc, hd, he, hf⟩ :=
        resolveAnchor_written { r with IsInText := true } ("#" ++ headingID)
      simp [h1, h3, TextWritten, PdfRenderer.write, PdfRenderer.emit, textsWritten,
        imagesDrawn, List.filterMap_append, ha, hb, hc, hd]
      simp only [textsWritten, imagesDrawn] at he hf
      exact ⟨he, hf⟩
    · by_cases h4 : top.containerType = NodeType.TableCell
      · by_cases h5 : top.isHeader = true
        · simp [h1, h3, h4, h5, TextWritten, PdfRenderer.setStyler, PdfRenderer.emit,
            textsWritten, imagesDrawn, List.filterMap_append]
        · simp only [Bool.not_eq_true] at h5
          have hlt := hsafe h4 h5
          obtain ⟨w, hw⟩ : ∃ w, r.cellwidths[r.curdatacell]? = some w :=
            ⟨_, List.getElem?_eq_getElem hlt⟩
          simp [h1, h3, h4, h5, TextWritten, PdfRenderer.setStyler, PdfRenderer.emit,
            textsWritten, imagesDrawn, List.filterMap_append, hw]
      · simp [h1, h3, h4, TextWritten, PdfRenderer.write, PdfRenderer.emit, textsWritten,
          imagesDrawn, List.filterMap_append]

theorem processText_written (env : Env) (literal headingID : String) (r : PdfRenderer)
    (top : containerState) (rest : List containerState) (hcs : r.cs = top :: rest)
    (himg : r.IsInImage = false)
    (hsafe : top.containerType = NodeType.TableCell → top.isHeader = false →
      r.curdatacell < r.cellwidths.length) :
    ∃ r1, processText env literal headingID r = Except.ok r1 ∧
      TextWritten (textToWrite literal r.TrimNext) r r1 := by
  obtain ⟨r1, h1, ha, hb, hc, hd, he, hf⟩ :=
    writeText_written env top headingID (textToWrite literal r.TrimNext) (beginText top r)
      (by simpa [beginText_eq] using hsafe)
  simp only [beginText_eq] at ha hb hc hd he hf
  refine ⟨firstTextRule top (textToWrite literal r.TrimNext) r1,
    by simp [processText, himg, PdfRenderer.peek, hcs, bind, Except.bind, h1], ?_⟩
  have he1 : textsWritten r1.Pdf.log =
      textsWritten r.Pdf.log ++ [textToWrite literal r.TrimNext] := by
    rw [he]; simp [textsWritten, List.filterMap_append]
  have hf1 : imagesDrawn r1.Pdf.log = imagesDrawn r.Pdf.log := by
    rw [hf]; simp [imagesDrawn]
  simp only [textsWritten, imagesDrawn] at he1 hf1
  unfold firstTextRule
  split_ifs <;>
    simp [TextWritten, PdfRenderer.cr, PdfRenderer.emit, ha, hb, hc, hd, he1, hf1, textsWritten,
      imagesDrawn, List.filterMap_append]

/-- C11 (scenario C, image not openable). For every image-enter event, in any
state, whose destination does not exist at the primary prefix and cannot be
opened at the alternative prefix: the handler returns normally and changes
nothing but the in-image flag, which it sets, and the failure report, to which
it adds one entry; so no canvas command is issued (no image is drawn) and the
stack and the left margin are as before. The text below the image is
suppressed, and the matching image-leave clears the flag. A text after the
image is written again, whatever frame is on top (for a body cell of a table,
if its column index is in range): the canvas draws exactly that text, and
still no image. -/
theorem scenario_C (env : Env) (r : PdfRenderer) (destination alt later : String)
    (hmissing : env.notExists (r.LocalFilePathPrefix ++ destination) = true)
    (hclosed : env.canOpen
      (env.pathClean (r.LocalImagePathAlternativePrefix ++ destination)) = false) :
    ∃ r1 r3,
      processImage env destination true r = Except.ok r1 ∧
      r1 = { r with IsInImage := true, errors := r.errors ++ ["Can't open image; " ++
        env.pathClean (r.LocalImagePathAlternativePrefix ++ destination)] } ∧
      processText env alt "" r1 = Except.ok r1 ∧
      run env [Event.enter (Container.Image destination), Event.leaf (Leaf.Text alt ""),
        Event.leave (Container.Image destination)] r = Except.ok r3 ∧
      r3 = { r1 with IsInImage := false } ∧
      (∀ (top : containerState) (rest : List containerState), r.cs = top :: rest →
        (top.containerType = NodeType.TableCell → top.isHeader = false →
          r.curdatacell < r.cellwidths.length) →
        ∃ r4, run env (scenarioC destination alt later) r = Except.ok r4 ∧
          r4.IsInImage = false ∧ r4.cs = r.cs ∧ r4.Pdf.leftMargin = r.Pdf.leftMargin ∧
          r4.errors = r1.errors ∧
          textsWritten r4.Pdf.log = textsWritten r.Pdf.log ++ [textToWrite later r.TrimNext] ∧
          imagesDrawn r4.Pdf.log = imagesDrawn r.Pdf.log ∧
          (plainFrame top → r4.Pdf.log = r.Pdf.log ++
            [Cmd.setStyler top.textStyle,
             Cmd.write top.textStyle (textToWrite later r.TrimNext)])) := by
  refine ⟨{ r with IsInImage := true, errors := r.errors ++ ["Can't open image; " ++
      env.pathClean (r.LocalImagePathAlternativePrefix ++ destination)] },
    { r with IsInImage := false, errors := r.errors ++ ["Can't open image; " ++
      env.pathClean (r.LocalImagePathAlternativePrefix ++ destination)] },
    by simp [processImage, hmissing, hclosed], rfl, by simp [processText],
    by simp [run, step, handle, handleLeaf, processImage, processText, hmissing, hclosed],
    rfl, ?_⟩
  intro top rest hcs hsafe
  obtain ⟨r4, h4, ha, hb, hc, hd, he, hf⟩ :=
    processText_written env later ""
      { r with IsInImage := false, errors := r.errors ++ ["Can't open image; " ++
        env.pathClean (r.LocalImagePathAlternativePrefix ++ destination)] }
      top rest hcs rfl hsafe
  refine ⟨r4, ?_, ha, hb, hc, hd, he, hf, ?_⟩
  · have h3 : run env [Event.enter (Container.Image destination), Event.leaf (Leaf.Text alt ""),
        Event.leave (Container.Image destination)] r =
        Except.ok { r with IsInImage := false, errors := r.errors ++ ["Can't open image; " ++
          env.pathClean (r.LocalImagePathAlternativePrefix ++ destination)] } := by
      simp [run, step, handle, handleLeaf, processImage, processText, hmissing, hclosed]
    exact run_ok_append h3 (run_ok_cons (by simpa [step, handleLeaf] using h4) rfl)
  · rintro ⟨hl, h1, h2, h3⟩
    have h5 : processText env later ""
        { r with IsInImage := false, errors := r.errors ++ ["Can't open image; " ++
          env.pathClean (r.LocalImagePathAlternativePrefix ++ destination)] } =
        Except.ok r4 := h4
    simp [processText, writeText, firstTextRule, beginText_eq, PdfRenderer.peek,
      PdfRenderer.emit, PdfRenderer.write, hcs, hl, h1, h2, h3, bind, Except.bind] at h5
    rw [← h5]

/-- A link frame inside a list item, as `processLink` pushes it. -/
def exampleLinkFrame : containerState :=
  { containerType := NodeType.Link, textStyle := exampleRenderer.Link,
    listkind := ListKind.notlist, leftMargin := 46, destination := "http://x" }

/-- C11, at the example renderer, whose files never exist and never open: an
image inside a link inside a list item; the text after the image is written
as the link text. -/
theorem scenario_C_witness :
    ∃ r0 r4,
      run exampleEnv [Event.enter (Container.List 0), Event.enter Container.Item,
        Event.enter (Container.Link "http://x")] exampleRenderer = Except.ok r0 ∧
      r0.cs.head? = some exampleLinkFrame ∧
      run exampleEnv (scenarioC "pic.png" "a picture" "after") r0 = Except.ok r4 ∧
      r4.errors = ["Can't open image; alt/pic.png"] ∧
      r4.cs = r0.cs ∧ r4.Pdf.leftMargin = r0.Pdf.leftMargin ∧ r4.IsInImage = false ∧
      textsWritten r4.Pdf.log = textsWritten r0.Pdf.log ++ ["after"] ∧
      imagesDrawn r4.Pdf.log = [] := by
  obtain ⟨r1, r3, _, he, _, _, _, hlater⟩ :=
    scenario_C exampleEnv
      (resultOr (run exampleEnv [Event.enter (Container.List 0), Event.enter Container.Item,
        Event.enter (Container.Link "http://x")] exampleRenderer) exampleRenderer)
      "pic.png" "a picture" "after" rfl rfl
  obtain ⟨r4, hrun, h1, h2, h3, h4, h5, h6, _⟩ :=
    hlater exampleLinkFrame _ rfl (by decide)
  exact ⟨_, r4, rfl, rfl, hrun, by rw [h4, he]; rfl, h2, h3, h1, h5, by rw [h6]; rfl⟩

/-! ## Margins set on leave -/

/-- C12, as the code has it (margins on leave). In any well-formed nesting:
the leave handler of a list sets the canvas left margin to the list frame's
stored `leftMargin` minus `IndentValue`, the `float64` value
`(p + IndentValue) - IndentValue` for the `leftMargin` `p` stored in the parent
frame (the frame on top after the pop), which is `p` when that sum is undone
exactly; the leave handler of a block quote sets it to the current canvas
margin minus `IndentValue`, which is the canvas margin that was in force just
before the block quote was entered when the indent is undone exactly at that
margin and at the margins of the lists and block quotes nested in the quote,
whatever the parent frame stores. -/
theorem margin_on_leave (env : Env) (r : PdfRenderer) (top : containerState)
    (rest : List containerState) (hcs : r.cs = top :: rest)
    (children : Doc) (hd : children.levelsOk = true) :
    (∀ flags r2, run env (Event.enter (Container.List flags) :: children.events) r
        = Except.ok r2 →
      ∃ r3 x, r2.cs = x :: top :: rest ∧
        step env (Event.leave (Container.List flags)) r2 = Except.ok r3 ∧
        r3.cs = top :: rest ∧
        r3.Pdf.leftMargin = x.leftMargin - r2.IndentValue ∧
        r3.Pdf.leftMargin = top.leftMargin + r.IndentValue - r.IndentValue ∧
        (top.leftMargin + r.IndentValue - r.IndentValue = top.leftMargin →
          r3.Pdf.leftMargin = top.leftMargin)) ∧
    (∀ r2, run env (Event.enter Container.BlockQuote :: children.events) r = Except.ok r2 →
      ∃ r3, step env (Event.leave Container.BlockQuote) r2 = Except.ok r3 ∧
        r3.cs = top :: rest ∧
        r3.Pdf.leftMargin = r2.Pdf.leftMargin - r2.IndentValue ∧
        (exactTo r.IndentValue r.Pdf.leftMargin (children.indentDepth + 1) = true →
          r3.Pdf.leftMargin = r.Pdf.leftMargin)) := by
  constructor
  · intro flags r2 hrun
    obtain ⟨r1, he, hcfg1, hcase⟩ :=
      handle_enter env (Container.List flags) r top rest rfl hcs
    rcases hcase with ⟨hp, _⟩ | ⟨_, x, hcs1, hem⟩
    · simp [Container.pushes] at hp
    · simp only [run, step, he] at hrun
      obtain ⟨hcfg2, ⟨x2, hcs2, hsf2, _⟩, _⟩ :=
        (run_balanced env children hd r1 x (top :: rest) hcs1).of_ok hrun
      obtain ⟨r3, hl, _, hcs3, hlv⟩ :=
        handle_leave_push env (Container.List flags) r2 x2 top rest rfl hcs2
      simp only [enterMargin, leaveMargin, afterLeave] at hem hlv hcs3
      have hI : r2.IndentValue = r.IndentValue := (hcfg1.cfgTrans hcfg2).2.1
      have hx : x2.leftMargin = x.leftMargin := hsf2.2.1
      have hm : r3.Pdf.leftMargin = top.leftMargin + r.IndentValue - r.IndentValue := by
        rw [hlv, hx, hem.1, hI]
      exact ⟨r3, x2, hcs2, by simpa [step] using hl, hcs3, hlv, hm,
        fun hex => by rw [hm, hex]⟩
  · intro r2 hrun
    obtain ⟨r1, he, hcfg1, hcase⟩ :=
      handle_enter env Container.BlockQuote r top rest rfl hcs
    rcases hcase with ⟨hp, _⟩ | ⟨_, x, hcs1, hem⟩
    · simp [Container.pushes] at hp
    · simp only [run, step, he] at hrun
      simp only [enterMargin] at hem
      obtain ⟨hcfg2, ⟨x2, hcs2, hsf2, _⟩, hlm2⟩ :=
        (run_balanced env children hd r1 x (top :: rest) hcs1).of_ok hrun
      obtain ⟨r3, hl, _, hcs3, hlv⟩ :=
        handle_leave_push env Container.BlockQuote r2 x2 top rest rfl hcs2
      simp only [leaveMargin, afterLeave] at hlv hcs3
      have hI : r2.IndentValue = r.IndentValue := (hcfg1.cfgTrans hcfg2).2.1
      refine ⟨r3, by simpa [step] using hl, hcs3, hlv, ?_⟩
      intro hex
      simp only [exactTo, Bool.and_eq_true, decide_eq_true_eq] at hex
      have h2 := hlm2 hem.2 (by rw [hcfg1.2.1, hem.1]; exact hex.2)
      rw [hlv, h2, hem.2, hem.1, hI, hex.1]

/-- C12, at the example: a list with one item on the root frame, with the
margin 10 and the indent 36, where (10 + 36) - 36 is 10. -/
theorem margin_on_leave_witness :
    ∃ r2 r3, run exampleEnv (Event.enter (Container.List 0) ::
        (Doc.node Container.Item Doc.nil Doc.nil).events) exampleRenderer = Except.ok r2 ∧
      step exampleEnv (Event.leave (Container.List 0)) r2 = Except.ok r3 ∧
      r3.Pdf.leftMargin = 10 := by
  obtain ⟨r3, x, _, hs, _, _, _, hm⟩ :=
    (margin_on_leave exampleEnv exampleRenderer
      { containerType := NodeType.Paragraph, textStyle := exampleNormal, leftMargin := 10 } []
      rfl (Doc.node Container.Item Doc.nil Doc.nil) (by decide)).1 0 _ rfl
  exact ⟨_, r3, rfl, hs, hm (by decide)⟩

/-- C12 fails as stated, in two ways. For a block quote directly inside a
list item, the leave handler of the block quote sets the canvas left margin
to 70 (the item-text margin), while the parent frame, the item frame on top
after the pop, stores the left margin 46. And for a list on the root frame
with the margin 0.1 and the indent 0.2, the leave handler of the list sets the
canvas left margin to 0.10000000000000003, while the parent frame stores 0.1:
the value is obtained by undoing a delta, not read from the parent frame. -/
theorem margin_on_leave_counterexample :
    (∃ r3 parent, run exampleEnv
        [Event.enter (Container.List 0), Event.enter Container.Item,
         Event.enter Container.BlockQuote, Event.leave Container.BlockQuote]
        exampleRenderer = Except.ok r3 ∧
      r3.cs.head? = some parent ∧ parent.containerType = NodeType.Item ∧
      r3.Pdf.leftMargin = 70 ∧ parent.leftMargin = 46) ∧
    (∃ r3 parent, run exampleEnv
        [Event.enter (Container.List 0), Event.enter Container.Item,
         Event.leave Container.Item, Event.leave (Container.List 0)]
        driftRenderer = Except.ok r3 ∧
      r3.cs = [parent] ∧ parent.leftMargin = 0.1 ∧
      r3.Pdf.leftMargin = 0.10000000000000003 ∧
      r3.Pdf.leftMargin ≠ parent.leftMargin) :=
  ⟨⟨_, _, rfl, rfl, rfl, by decide, by decide⟩, ⟨_, _, rfl, rfl, rfl, by decide, by decide⟩⟩

/-! ## The in-image flag -/

/-- The forest holds an image node. -/
def Doc.hasImage : Doc → Bool
  | Doc.nil => false
  | Doc.leaf _ rest => rest.hasImage
  | Doc.node c children rest =>
    (match c with
     | Container.Image _ => true
     | _ => false) || children.hasImage || rest.hasImage

/-- The event belongs to an image node. -/
def Event.isImage : Event → Bool
  | Event.enter (Container.Image _) => true
  | Event.leave (Container.Image _) => true
  | _ => false

theorem hasImage_iff_events (d : Doc) :
    d.hasImage = false ↔ ∀ e ∈ d.events, e.isImage = false := by
  induction d with
  | nil => simp [Doc.hasImage, Doc.events]
  | leaf l tail ih => simp [Doc.hasImage, Doc.events, ih, Event.isImage]
  | node c children tail ihc iht =>
    simp only [Doc.hasImage, Doc.events, Bool.or_eq_false_iff, ihc, iht, List.mem_cons,
      List.mem_append]
    constructor
    · rintro ⟨⟨hc, h1⟩, h2⟩ e he
      rcases he with rfl | he | rfl | he
      · cases c <;> simp_all [Event.isImage]
      · exact h1 e he
      · cases c <;> simp_all [Event.isImage]
      · exact h2 e he
    · intro h
      refine ⟨⟨?_, fun e he => h e (Or.inr (Or.inl he))⟩,
        fun e he => h e (Or.inr (Or.inr (Or.inr he)))⟩
      have := h (Event.enter c) (Or.inl rfl)
      cases c <;> simp_all [Event.isImage]

theorem processText_in_image (env : Env) (literal headingID : String) (r : PdfRenderer)
    (himg : r.IsInImage = true) : processText env literal headingID r = Except.ok r := by
  simp [processText, himg]

theorem writeText_flag (env : Env) (top : containerState) (headingID s : String)
    (r r1 : PdfRenderer) (hrun : writeText env top headingID s r = Except.ok r1) :
    r1.IsInImage = r.IsInImage := by
  simp only [writeText] at hrun
  by_cases h1 : top.containerType = NodeType.Link
  · by_cases h2 : env.hasURLScheme top.destination = true
    · simp only [h1, h2, if_true, Bool.not_true, Bool.false_eq_true, if_false] at hrun
      cases hrun
      simp [PdfRenderer.writeLink, PdfRenderer.emit]
    · simp only [h1, h2, if_true, Bool.not_eq_true, Bool.not_false] at hrun
      cases hrun
      have := (resolveAnchor_spec r top.destination).2.1
      simpa [PdfRenderer.writeAnchorLink, PdfRenderer.emit] using this
  · by_cases h3 : top.containerType = NodeType.Heading
    · simp only [h1, h3, if_false, if_true] at hrun
      cases hrun
      have := (resolveAnchor_spec { r with IsInText := true } ("#" ++ headingID)).2.1
      simpa [PdfRenderer.write, PdfRenderer.emit] using this
    · simp only [h1, h3, if_false] at hrun
      by_cases h4 : top.containerType = NodeType.TableCell
      · simp only [h4, if_true] at hrun
        by_cases h5 : top.isHeader = true
        · simp only [h5, if_true] at hrun
          cases hrun
          simp [PdfRenderer.setStyler, PdfRenderer.emit]
        · simp only [h5, if_false, PdfRenderer.setStyler, Bool.false_eq_true] at hrun
          split at hrun
          · cases hrun
          · cases hrun
            simp [PdfRenderer.emit]
      · simp only [h4, if_false] at hrun
        cases hrun
        simp [PdfRenderer.write, PdfRenderer.emit]

theorem firstTextRule_flag (top : containerState) (s : String) (r : PdfRenderer) :
    (firstTextRule top s r).IsInImage = r.IsInImage := by
  unfold firstTextRule
  split_ifs <;> simp [PdfRenderer.cr, PdfRenderer.emit]

theorem processText_flag (env : Env) (literal headingID : String) (r r1 : PdfRenderer)
    (hrun : processText env literal headingID r = Except.ok r1) :
    r1.IsInImage = r.IsInImage := by
  unfold processText at hrun
  split_ifs at hrun with himg
  · cases hrun; rfl
  · rcases hcs : r.cs with _ | ⟨top, rest⟩
    · simp [PdfRenderer.peek, hcs, bind, Except.bind] at hrun
    · simp only [PdfRenderer.peek, hcs, bind, Except.bind] at hrun
      cases hw : writeText env top headingID (textToWrite literal r.TrimNext)
          (beginText top r) with
      | error f => rw [hw] at hrun; cases hrun
      | ok r2 =>
        rw [hw] at hrun
        cases hrun
        rw [firstTextRule_flag, writeText_flag env top headingID _ _ r2 hw]
        simp [beginText_eq]

theorem handle_flag (env : Env) (c : Container) (entering : Bool) (r r1 : PdfRenderer)
    (hc : (Event.enter c).isImage = false)
    (hrun : handle env c entering r = Except.ok r1) : r1.IsInImage = r.IsInImage := by
  rcases hcs : r.cs with _ | ⟨a, _ | ⟨b, l⟩⟩ <;> cases c <;> cases entering <;>
    simp [handle, processList, processItem, processEmph, processStrong, processLink,
      processImage, processParagraph, processBlockQuote, processHeading, processTable,
      processTableHead, processTableBody, processTableRow, processTableCell,
      PdfRenderer.peek, PdfRenderer.pop, PdfRenderer.push, PdfRenderer.modifyTop,
      PdfRenderer.modifyParent, hcs, PdfRenderer.setStyler, PdfRenderer.SetLeftMargin,
      PdfRenderer.cr, PdfRenderer.emit, bind, Except.bind, PdfRenderer.GetLeftMargin,
      Event.isImage] at hrun hc <;>
    (try split_ifs at hrun) <;>
    (try simp only [Except.ok.injEq] at hrun) <;>
    (try subst hrun) <;>
    (try simp)

theorem handle_error (env : Env) (c : Container) (entering : Bool) (r : PdfRenderer)
    (f : Fault) (hrun : handle env c entering r = Except.error f) :
    f ≠ Fault.indexOutOfRange := by
  rcases hcs : r.cs with _ | ⟨a, _ | ⟨b, l⟩⟩ <;> cases c <;> cases entering <;>
    simp [handle, processList, processItem, processEmph, processStrong, processLink,
      processImage, processParagraph, processBlockQuote, processHeading, processTable,
      processTableHead, processTableBody, processTableRow, processTableCell,
      PdfRenderer.peek, PdfRenderer.pop, PdfRenderer.push, PdfRenderer.modifyTop,
      PdfRenderer.modifyParent, hcs, PdfRenderer.setStyler, PdfRenderer.SetLeftMargin,
      PdfRenderer.cr, PdfRenderer.emit, bind, Except.bind, PdfRenderer.GetLeftMargin] at hrun <;>
    (try split_ifs at hrun) <;>
    (try simp at hrun) <;>
    (try subst hrun) <;>
    (try simp)

theorem step_flag (env : Env) (e : Event) (r r1 : PdfRenderer) (he : e.isImage = false)
    (hrun : step env e r = Except.ok r1) : r1.IsInImage = r.IsInImage := by
  cases e with
  | enter c => exact handle_flag env c true r r1 he hrun
  | leave c =>
    refine handle_flag env c false r r1 ?_ hrun
    cases c <;> simp_all [Event.isImage]
  | leaf l =>
    cases l with
    | Text literal headingID => exact processText_flag env literal headingID r r1 hrun
    | CodeBlock literal =>
      simp only [step, handleLeaf, processCodeblock, Except.ok.injEq] at hrun
      subst hrun
      simp [PdfRenderer.setStyler, PdfRenderer.cr, PdfRenderer.emit, PdfRenderer.multiCell]
    | Code literal =>
      simp only [step, handleLeaf, processCode, Except.ok.injEq] at hrun
      subst hrun
      simp [PdfRenderer.setStyler, PdfRenderer.emit, PdfRenderer.write]
    | HorizontalRule =>
      simp only [step, handleLeaf, processHorizontalRule, Except.ok.injEq] at hrun
      subst hrun
      simp [PdfRenderer.cr, PdfRenderer.emit]
    | HTMLBlock literal =>
      simp only [step, handleLeaf, processHTMLBlock, Except.ok.injEq] at hrun
      subst hrun
      simp [PdfRenderer.setStyler, PdfRenderer.cr, PdfRenderer.emit]

theorem step_error_in_image (env : Env) (e : Event) (r : PdfRenderer) (f : Fault)
    (himg : r.IsInImage = true) (hrun : step env e r = Except.error f) :
    f ≠ Fault.indexOutOfRange := by
  cases e with
  | enter c => exact handle_error env c true r f hrun
  | leave c => exact handle_error env c false r f hrun
  | leaf l =>
    cases l with
    | Text literal headingID =>
      simp [step, handleLeaf, processText_in_image env literal headingID r himg] at hrun
    | CodeBlock literal => simp [step, handleLeaf, processCodeblock] at hrun
    | Code literal => simp [step, handleLeaf, processCode] at hrun
    | HorizontalRule => simp [step, handleLeaf, processHorizontalRule] at hrun
    | HTMLBlock literal => simp [step, handleLeaf, processHTMLBlock] at hrun

theorem run_flag (env : Env) (es : List Event) :
    ∀ (r r1 : PdfRenderer), (∀ e ∈ es, e.isImage = false) →
      run env es r = Except.ok r1 → r1.IsInImage = r.IsInImage := by
  induction es with
  | nil =>
    intro r r1 _ h
    simp only [run, Except.ok.injEq] at h
    subst h; rfl
  | cons e es ih =>
    intro r r1 hes h
    simp only [run] at h
    cases hs : step env e r with
    | error f => rw [hs] at h; cases h
    | ok r2 =>
      rw [hs] at h
      rw [ih r2 r1 (fun x hx => hes x (List.mem_cons_of_mem _ hx)) h,
        step_flag env e r r2 (hes e (List.mem_cons_self _ _)) hs]

theorem run_in_image (env : Env) (d : Doc) (hd : d.levelsOk = true)
    (hni : d.hasImage = false) (r : PdfRenderer) (top : containerState)
    (rest : List containerState) (hcs : r.cs = top :: rest) (himg : r.IsInImage = true) :
    ∀ n : Nat, ∃ rn, run env (d.events.take n) r = Except.ok rn ∧ rn.IsInImage = true := by
  have hev := (hasImage_iff_events d).mp hni
  intro n
  induction n with
  | zero => exact ⟨r, by simp [run], himg⟩
  | succ n ih =>
    obtain ⟨rn, hrn, hfl⟩ := ih
    have hpost := run_take env d hd r top rest hcs (n + 1)
    rw [List.take_succ, Mdtopdf.run_append, hrn] at hpost ⊢
    cases hget : d.events[n]? with
    | none => exact ⟨rn, by simp [Option.toList, run], hfl⟩
    | some e =>
      rw [hget] at hpost
      simp only [Option.toList, run] at hpost ⊢
      have hmem : e ∈ d.events := List.getElem?_mem hget
      cases hs : step env e rn with
      | ok r1 =>
        exact ⟨r1, rfl, by rw [step_flag env e rn r1 (hev e hmem) hs]; exact hfl⟩
      | error f =>
        rw [hs] at hpost
        exact absurd hpost.1 (step_error_in_image env e rn f hfl hs)

/-- C13, as the code has it (text inside an image). In a state with the
in-image flag set, `processText` returns the state as it is: no canvas command,
no change of any part of the renderer. For an image node whose subtree holds
no other image node, the flag is set at every point between the enter event
and the leave event of the image, the walk of the subtree never aborts, and
the flag is clear after the leave event; and a stream without image events
leaves the flag as it is. -/
theorem text_suppressed_in_image (env : Env) (destination : String) (children : Doc)
    (hd : children.levelsOk = true) (hni : children.hasImage = false)
    (r : PdfRenderer) (top : containerState) (rest : List containerState)
    (hcs : r.cs = top :: rest) :
    (∀ (q : PdfRenderer) (literal headingID : String), q.IsInImage = true →
      processText env literal headingID q = Except.ok q) ∧
    (∀ n : Nat, ∃ rn,
      run env (Event.enter (Container.Image destination) :: children.events.take n) r
        = Except.ok rn ∧ rn.IsInImage = true) ∧
    (∃ r2, run env (Doc.node (Container.Image destination) children Doc.nil).events r
        = Except.ok r2 ∧ r2.IsInImage = false) ∧
    (∀ (es : List Event) (q q1 : PdfRenderer), (∀ e ∈ es, e.isImage = false) →
      run env es q = Except.ok q1 → q1.IsInImage = q.IsInImage) := by
  have henter : step env (Event.enter (Container.Image destination)) r =
      Except.ok (resultOr (processImage env destination true r) r) := by
    simp only [step, handle, processImage, resultOr]
    split_ifs <;> rfl
  have hcs1 : (resultOr (processImage env destination true r) r).cs = top :: rest := by
    simp only [processImage, resultOr]
    split_ifs <;> simp [PdfRenderer.emit, hcs]
  have himg1 : (resultOr (processImage env destination true r) r).IsInImage = true := by
    simp only [processImage, resultOr]
    split_ifs <;> simp [PdfRenderer.emit]
  refine ⟨fun q literal headingID hq => processText_in_image env literal headingID q hq,
    ?_, ?_, fun es q q1 hes h => run_flag env es q q1 hes h⟩
  · intro n
    obtain ⟨rn, hrn, hfl⟩ := run_in_image env children hd hni _ top rest hcs1 himg1 n
    exact ⟨rn, run_ok_cons henter hrn, hfl⟩
  · obtain ⟨rn, hrn, hfl⟩ :=
      run_in_image env children hd hni _ top rest hcs1 himg1 children.events.length
    rw [List.take_length] at hrn
    refine ⟨{ rn with IsInImage := false }, ?_, rfl⟩
    simp only [Doc.events]
    refine run_ok_cons henter (run_ok_append hrn ?_)
    simp [run, step, handle, processImage]

/-- C13, at the example: an image with an alternative text. -/
theorem text_suppressed_in_image_witness :
    ∃ r2, run exampleEnv (Doc.node (Container.Image "pic.png")
        (Doc.leaf (Leaf.Text "a picture" "") Doc.nil) Doc.nil).events exampleRenderer
        = Except.ok r2 ∧ r2.IsInImage = false :=
  (text_suppressed_in_image exampleEnv "pic.png" (Doc.leaf (Leaf.Text "a picture" "") Doc.nil)
    (by decide) (by decide) exampleRenderer
    { containerType := NodeType.Paragraph, textStyle := exampleNormal, leftMargin := 10 } []
    rfl).2.2.1

/-- C13 fails as stated: with an image nested in an image, after the leave
event of the inner image the flag is clear although the outer image has not
been left, and the text that follows inside the outer image is written. -/
theorem in_image_flag_counterexample :
    ∃ r3 r4, run exampleEnv
        [Event.enter (Container.Image "outer.png"), Event.enter (Container.Image "inner.png"),
         Event.leave (Container.Image "inner.png")] exampleRenderer = Except.ok r3 ∧
      r3.IsInImage = false ∧
      processText exampleEnv "still inside" "" r3 = Except.ok r4 ∧
      r4.Pdf.log = [Cmd.setStyler exampleNormal, Cmd.write exampleNormal "still inside"] :=
  ⟨_, _, rfl, rfl, rfl, by decide⟩

/-! ## The style registry -/

/-- The registry styles are the same in both states. -/
def sameRegistry (r r1 : PdfRenderer) : Prop :=
  r1.Normal = r.Normal ∧ r1.H1 = r.H1 ∧ r1.H2 = r.H2 ∧ r1.H3 = r.H3 ∧ r1.H4 = r.H4 ∧
  r1.H5 = r.H5 ∧ r1.H6 = r.H6 ∧ r1.Backtick = r.Backtick ∧ r1.Blockquote = r.Blockquote ∧
  r1.Link = r.Link ∧ r1.THeader = r.THeader ∧ r1.TBody = r.TBody

theorem sameRegistry.regRefl (r : PdfRenderer) : sameRegistry r r := by
  simp [sameRegistry]

theorem sameRegistry.regTrans {r r1 r2 : PdfRenderer} (h : sameRegistry r r1)
    (h1 : sameRegistry r1 r2) : sameRegistry r r2 := by
  simp only [sameRegistry] at *
  obtain ⟨a1, a2, a3, a4, a5, a6, a7, a8, a9, a10, a11, a12⟩ := h
  obtain ⟨b1, b2, b3, b4, b5, b6, b7, b8, b9, b10, b11, b12⟩ := h1
  simp [*]

theorem resolveAnchor_registry (r : PdfRenderer) (key : String) :
    sameRegistry r (r.resolveAnchor key).2 := by
  unfold PdfRenderer.resolveAnchor
  cases r.anchor key <;> simp [sameRegistry, PdfRenderer.AddLink]

theorem writeText_registry (env : Env) (top : containerState) (headingID s : String)
    (r r1 : PdfRenderer) (hrun : writeText env top headingID s r = Except.ok r1) :
    sameRegistry r r1 := by
  simp only [writeText] at hrun
  by_cases h1 : top.containerType = NodeType.Link
  · by_cases h2 : env.hasURLScheme top.destination = true
    · simp only [h1, h2, if_true, Bool.not_true, Bool.false_eq_true, if_false] at hrun
      cases hrun
      simp [sameRegistry, PdfRenderer.writeLink, PdfRenderer.emit]
    · simp only [h1, h2, if_true, Bool.not_eq_true, Bool.not_false] at hrun
      cases hrun
      have := resolveAnchor_registry r top.destination
      simpa [sameRegistry, PdfRenderer.writeAnchorLink, PdfRenderer.emit] using this
  · by_cases h3 : top.containerType = NodeType.Heading
    · simp only [h1, h3, if_false, if_true] at hrun
      cases hrun
      have := resolveAnchor_registry { r with IsInText := true } ("#" ++ headingID)
      simpa [sameRegistry, PdfRenderer.write, PdfRenderer.emit] using this
    · simp only [h1, h3, if_false] at hrun
      by_cases h4 : top.containerType = NodeType.TableCell
      · simp only [h4, if_true] at hrun
        by_cases h5 : top.isHeader = true
        · simp only [h5, if_true] at hrun
          cases hrun
          simp [sameRegistry, PdfRenderer.setStyler, PdfRenderer.emit]
        · simp only [h5, if_false, PdfRenderer.setStyler, Bool.false_eq_true] at hrun
          split at hrun
          · cases hrun
          · cases hrun
            simp [sameRegistry, PdfRenderer.emit]
      · simp only [h4, if_false] at hrun
        cases hrun
        simp [sameRegistry, PdfRenderer.write, PdfRenderer.emit]

theorem firstTextRule_registry (top : containerState) (s : String) (r : PdfRenderer) :
    sameRegistry r (firstTextRule top s r) := by
  unfold firstTextRule
  split_ifs <;> simp [sameRegistry, PdfRenderer.cr, PdfRenderer.emit]

theorem processText_registry (env : Env) (literal headingID : String) (r r1 : PdfRenderer)
    (hrun : processText env literal headingID r = Except.ok r1) : sameRegistry r r1 := by
  unfold processText at hrun
  split_ifs at hrun with himg
  · cases hrun; exact sameRegistry.regRefl r
  · rcases hcs : r.cs with _ | ⟨top, rest⟩
    · simp [PdfRenderer.peek, hcs, bind, Except.bind] at hrun
    · simp only [PdfRenderer.peek, hcs, bind, Except.bind] at hrun
      cases hw : writeText env top headingID (textToWrite literal r.TrimNext)
          (beginText top r) with
      | error f => rw [hw] at hrun; cases hrun
      | ok r2 =>
        rw [hw] at hrun
        cases hrun
        have h0 : sameRegistry r (beginText top r) := by simp [beginText_eq, sameRegistry]
        exact (h0.regTrans (writeText_registry env top headingID _ _ r2 hw)).regTrans
          (firstTextRule_registry top _ r2)

theorem handle_registry (env : Env) (c : Container) (entering : Bool) (r r1 : PdfRenderer)
    (hrun : handle env c entering r = Except.ok r1) : sameRegistry r r1 := by
  rcases hcs : r.cs with _ | ⟨a, _ | ⟨b, l⟩⟩ <;> cases c <;> cases entering <;>
    simp [handle, processList, processItem, processEmph, processStrong, processLink,
      processImage, processParagraph, processBlockQuote, processHeading, processTable,
      processTableHead, processTableBody, processTableRow, processTableCell,
      PdfRenderer.peek, PdfRenderer.pop, PdfRenderer.push, PdfRenderer.modifyTop,
      PdfRenderer.modifyParent, hcs, PdfRenderer.setStyler, PdfRenderer.SetLeftMargin,
      PdfRenderer.cr, PdfRenderer.emit, bind, Except.bind, PdfRenderer.GetLeftMargin] at hrun <;>
    (try split_ifs at hrun) <;>
    (try simp only [Except.ok.injEq] at hrun) <;>
    (try subst hrun) <;>
    (try simp [sameRegistry])

theorem step_registry (env : Env) (e : Event) (r r1 : PdfRenderer)
    (hrun : step env e r = Except.ok r1) : sameRegistry r r1 := by
  cases e with
  | enter c => exact handle_registry env c true r r1 hrun
  | leave c => exact handle_registry env c false r r1 hrun
  | leaf l =>
    cases l with
    | Text literal headingID => exact processText_registry env literal headingID r r1 hrun
    | CodeBlock literal =>
      simp only [step, handleLeaf, processCodeblock, Except.ok.injEq] at hrun
      subst hrun
      simp [sameRegistry, PdfRenderer.setStyler, PdfRenderer.cr, PdfRenderer.emit,
        PdfRenderer.multiCell]
    | Code literal =>
      simp only [step, handleLeaf, processCode, Except.ok.injEq] at hrun
      subst hrun
      simp [sameRegistry, PdfRenderer.setStyler, PdfRenderer.emit, PdfRenderer.write]
    | HorizontalRule =>
      simp only [step, handleLeaf, processHorizontalRule, Except.ok.injEq] at hrun
      subst hrun
      simp [sameRegistry, PdfRenderer.cr, PdfRenderer.emit]
    | HTMLBlock literal =>
      simp only [step, handleLeaf, processHTMLBlock, Except.ok.injEq] at hrun
      subst hrun
      simp [sameRegistry, PdfRenderer.setStyler, PdfRenderer.cr, PdfRenderer.emit]

theorem run_registry (env : Env) (es : List Event) :
    ∀ (r r1 : PdfRenderer), run env es r = Except.ok r1 → sameRegistry r r1 := by
  induction es with
  | nil =>
    intro r r1 h
    simp only [run, Except.ok.injEq] at h
    subst h
    exact sameRegistry.regRefl r
  | cons e es ih =>
    intro r r1 h
    simp only [run] at h
    cases hs : step env e r with
    | error f => rw [hs] at h; cases h
    | ok r2 =>
      rw [hs] at h
      exact (step_registry env e r r2 hs).regTrans (ih r2 r1 h)

/-- The frame `processLink` pushes for a link with the given destination when
the heading of level `level` is being processed. -/
def linkFrameInHeading (r : PdfRenderer) (top : containerState) (level : Nat)
    (destination : String) : containerState :=
  { containerType := NodeType.Link,
    textStyle := { r.Link with Size := (r.headingStyle level).Size },
    listkind := ListKind.notlist, leftMargin := top.leftMargin, destination := destination }

/-- C14 (the style registry is read-only). Whatever events the handlers of
this file process, the registry styles (Normal, H1..H6, Backtick, Blockquote,
Link, THeader, TBody) are afterwards what they were before. In particular,
entering or leaving emphasis changes nothing but the top frame, entering or
leaving strong nothing but the top frame and the strong flag, and entering a
link inside a heading pushes a frame holding a copy of the link style with
the heading's size and changes nothing else. -/
theorem registry_read_only (env : Env) (es : List Event) (r r1 : PdfRenderer)
    (hrun : run env es r = Except.ok r1) :
    sameRegistry r r1 ∧
    (∀ (q : PdfRenderer) (top : containerState) (rest : List containerState)
      (entering : Bool), q.cs = top :: rest →
      (∃ top1, processEmph entering q = Except.ok { q with cs := top1 :: rest }) ∧
      (∃ top1, processStrong entering q =
        Except.ok { q with cs := top1 :: rest, StrongOn := entering })) ∧
    (∀ (q : PdfRenderer) (top : containerState) (rest : List containerState)
      (level : Nat) (destination : String), q.cs = top :: rest →
      q.CurrentHeaderStyler = some level →
      processLink destination true q =
        Except.ok { q with cs := linkFrameInHeading q top level destination :: q.cs }) := by
  refine ⟨run_registry env es r r1 hrun, ?_, ?_⟩
  · intro q top rest entering hcs
    cases entering
    · constructor
      · exact ⟨_, by simp [processEmph, PdfRenderer.modifyTop, hcs]; rfl⟩
      · exact ⟨_, by simp [processStrong, PdfRenderer.modifyTop, hcs]; rfl⟩
    · constructor
      · by_cases hc : containsChar top.textStyle.Style 'i' = true
        · refine ⟨top, ?_⟩
          simp [processEmph, PdfRenderer.peek, hcs, hc, bind, Except.bind]
          cases q; simp_all
        · exact ⟨_, by
            simp [processEmph, PdfRenderer.peek, PdfRenderer.modifyTop, hcs, hc, bind,
              Except.bind]; rfl⟩
      · exact ⟨_, by simp [processStrong, PdfRenderer.modifyTop, hcs]; rfl⟩
  · intro q top rest level destination hcs hlvl
    simp [processLink, PdfRenderer.peek, PdfRenderer.push, hcs, hlvl, bind, Except.bind,
      linkFrameInHeading]

/-- C14, at the example document. -/
theorem registry_read_only_witness :
    ∃ r1, run exampleEnv exampleDoc.events exampleRenderer = Except.ok r1 ∧
      sameRegistry exampleRenderer r1 :=
  ⟨_, rfl, (registry_read_only exampleEnv exampleDoc.events exampleRenderer _ rfl).1⟩

/-! ## Enter and leave of one style flag -/

theorem removeChar_eq_self_iff (s : String) (c : Char) :
    removeChar s c = s ↔ containsChar s c = false := by
  constructor
  · intro h
    rw [← h]
    exact containsChar_removeChar s c
  · exact removeChar_of_not_contains s c

/-- A block-quote frame of the example renderer, in its italic style. -/
def quoteFrame : containerState :=
  { containerType := NodeType.BlockQuote, textStyle := exampleRenderer.Blockquote,
    leftMargin := 46 }

/-- The example renderer with the block-quote frame alone on its stack. -/
def quoteRenderer : PdfRenderer :=
  { exampleRenderer with cs := [quoteFrame] }

/-- C19 (enter then leave of a style flag). For every style-flag string `s`
held by the top frame, entering and then leaving emphasis yields `s` with
every `i` removed, and entering and then leaving strong yields `s` with every
`b` removed; so the pair restores the style exactly when `s` did not hold the
flag before. -/
theorem enter_leave_style (env : Env) (r : PdfRenderer) (top : containerState)
    (rest : List containerState) (hcs : r.cs = top :: rest) :
    (∃ r1, run env [Event.enter Container.Emph, Event.leave Container.Emph] r = Except.ok r1 ∧
      r1.topStyle = removeChar top.textStyle.Style 'i' ∧
      (r1.topStyle = top.textStyle.Style ↔ containsChar top.textStyle.Style 'i' = false)) ∧
    (∃ r1, run env [Event.enter Container.Strong, Event.leave Container.Strong] r
        = Except.ok r1 ∧
      r1.topStyle = removeChar top.textStyle.Style 'b' ∧
      (r1.topStyle = top.textStyle.Style ↔ containsChar top.textStyle.Style 'b' = false)) := by
  constructor
  · by_cases h : containsChar top.textStyle.Style 'i' = true
    · simp [run, step, handle, processEmph, PdfRenderer.peek, PdfRenderer.modifyTop, hcs,
        bind, Except.bind, h, PdfRenderer.topStyle, removeChar_eq_self_iff]
    · simp only [Bool.not_eq_true] at h
      simp [run, step, handle, processEmph, PdfRenderer.peek, PdfRenderer.modifyTop, hcs,
        bind, Except.bind, h, PdfRenderer.topStyle, removeChar_append_i,
        removeChar_eq_self_iff]
  · by_cases h : containsChar top.textStyle.Style 'b' = true
    · simp [run, step, handle, processStrong, PdfRenderer.peek, PdfRenderer.modifyTop, hcs,
        bind, Except.bind, h, PdfRenderer.topStyle, removeChar_eq_self_iff]
    · simp only [Bool.not_eq_true] at h
      simp [run, step, handle, processStrong, PdfRenderer.peek, PdfRenderer.modifyTop, hcs,
        bind, Except.bind, h, PdfRenderer.topStyle, removeChar_append_b,
        removeChar_eq_self_iff]

/-- C19, at a frame with the block-quote style "i" of the example: after
emphasis is entered and left, the italic flag of the frame is gone. -/
theorem enter_leave_style_witness :
    ∃ r1, run exampleEnv [Event.enter Container.Emph, Event.leave Container.Emph]
        quoteRenderer = Except.ok r1 ∧
      r1.topStyle = removeChar "i" 'i' := by
  obtain ⟨r1, h1, h2, _⟩ := (enter_leave_style exampleEnv quoteRenderer quoteFrame [] rfl).1
  exact ⟨r1, h1, h2⟩

/-! ## Line break after a list -/

/-- The frame belongs to a list or to a list item. -/
def isListFrame (f : containerState) : Bool :=
  f.containerType = NodeType.List || f.containerType = NodeType.Item

/-- C17 (line break after a list), amended. On every list-leave event met with
the list frame `x` on top of at least one more frame, the handler selects the
normal style, sets the left margin, pops the list frame, and then forces a
line break exactly when no frame but the root remains below the popped one
(`rest = []`): the test is on the depth of the stack, not on the kind of the
frames that remain. -/
theorem list_leave_line_break (env : Env) (flags : Nat) (r : PdfRenderer)
    (x below : containerState) (rest : List containerState)
    (hcs : r.cs = x :: below :: rest) :
    ∃ r1, step env (Event.leave (Container.List flags)) r = Except.ok r1 ∧
      r1.cs = below :: rest ∧
      r1.Pdf.log = r.Pdf.log ++
        [Cmd.setStyler r.Normal, Cmd.SetLeftMargin (x.leftMargin - r.IndentValue)] ++
        (if rest = [] then [Cmd.cr] else []) := by
  cases rest with
  | nil =>
    simp [step, handle, processList, PdfRenderer.peek, PdfRenderer.pop, hcs,
      PdfRenderer.setStyler, PdfRenderer.SetLeftMargin, PdfRenderer.cr, PdfRenderer.emit,
      bind, Except.bind]
  | cons c l =>
    have hlen : ¬ (l.length + 1 + 1 < 2) := by omega
    simp [hlen, step, handle, processList, PdfRenderer.peek, PdfRenderer.pop, hcs,
      PdfRenderer.setStyler, PdfRenderer.SetLeftMargin, PdfRenderer.cr, PdfRenderer.emit,
      bind, Except.bind]

/-- C17, at the list of the example that lies directly under the root: its
leave event ends with a forced line break. -/
theorem list_leave_line_break_witness :
    ∃ r2 r3, run exampleEnv
        [Event.enter (Container.List 0), Event.enter Container.Item,
         Event.leave Container.Item] exampleRenderer = Except.ok r2 ∧
      step exampleEnv (Event.leave (Container.List 0)) r2 = Except.ok r3 ∧
      r3.Pdf.log = r2.Pdf.log ++
        [Cmd.setStyler exampleNormal, Cmd.SetLeftMargin 10] ++ [Cmd.cr] := by
  obtain ⟨r3, hs, _, hlog⟩ :=
    list_leave_line_break exampleEnv 0
      (resultOr (run exampleEnv
        [Event.enter (Container.List 0), Event.enter Container.Item,
         Event.leave Container.Item] exampleRenderer) exampleRenderer)
      { containerType := NodeType.List, textStyle := exampleNormal, itemNumber := 1,
        listkind := ListKind.unordered, leftMargin := 46 }
      { containerType := NodeType.Paragraph, textStyle := exampleNormal, leftMargin := 10 }
      [] rfl
  exact ⟨_, r3, rfl, hs, hlog⟩

/-- C17 fails as stated: a list directly inside a block quote has no enclosing
list, and after its frame is popped no list or item frame remains on the
stack, yet its leave event forces no line break: it only selects the normal
style and sets the left margin. -/
theorem list_leave_counterexample :
    ∃ r2 r3, run exampleEnv
        [Event.enter Container.BlockQuote, Event.enter (Container.List 0),
         Event.enter Container.Item, Event.leave Container.Item]
        exampleRenderer = Except.ok r2 ∧
      step exampleEnv (Event.leave (Container.List 0)) r2 = Except.ok r3 ∧
      r3.cs.all (fun f => !isListFrame f) = true ∧
      r3.Pdf.log = r2.Pdf.log ++ [Cmd.setStyler exampleNormal, Cmd.SetLeftMargin 46] :=
  ⟨_, _, rfl, rfl, by decide, by decide⟩

/-! ## A list nested in a list item -/

/-- What holds after a list nested in the item frame `item`, and after the
content `following` that comes next in the same item: the canvas left margin
is `(x + IndentValue) - IndentValue` for the item frame's stored `leftMargin`
`x`, and stays `x` when the indent is undone exactly at the margins involved. -/
def NestedListMargin (env : Env) (following : Doc) (r : PdfRenderer) (item : containerState)
    (r1 : PdfRenderer) : Prop :=
  r1.Pdf.leftMargin = item.leftMargin + r.IndentValue - r.IndentValue ∧
  (item.leftMargin + r.IndentValue - r.IndentValue = item.leftMargin →
    exactTo r.IndentValue item.leftMargin following.indentDepth = true →
    Post (following.hasText = true) (run env following.events r1)
      (fun r2 => r2.Pdf.leftMargin = item.leftMargin))

theorem nested_list_post (env : Env) (flags : Nat) (children following : Doc)
    (hc : children.levelsOk = true) (hf : following.levelsOk = true)
    (r : PdfRenderer) (item : containerState) (rest : List containerState)
    (hcs : r.cs = item :: rest) :
    Post (children.hasText = true)
      (run env (Doc.node (Container.List flags) children Doc.nil).events r)
      (NestedListMargin env following r item) := by
  simp only [Doc.events]
  apply Post.runCons
  obtain ⟨r1, h1, hcf1, hpush⟩ := handle_enter env (Container.List flags) r item rest rfl hcs
  simp only [step, h1, Post]
  rcases hpush with ⟨hp, _⟩ | ⟨_, x, hcs1, hx, hm1⟩
  · simp [Container.pushes] at hp
  apply Post.runAppend
  refine (run_balanced env children hc r1 x (item :: rest) hcs1).mono (fun h => h) ?_
  rintro r2 ⟨hcf2, ⟨top2, hcs2, hfr2, _⟩, _⟩
  apply Post.runCons
  obtain ⟨r3, h3, hcf3, hcs3, hm3⟩ :=
    handle_leave_push env (Container.List flags) r2 top2 item rest rfl hcs2
  simp only [step, h3, Post, run]
  simp only [leaveMargin] at hm3
  simp only [afterLeave] at hcs3
  have hI : r2.IndentValue = r.IndentValue := by
    rw [hcf2.2.1, hcf1.2.1]
  have hI3 : r3.IndentValue = r.IndentValue := by
    rw [hcf3.2.1, hI]
  have hmar : r3.Pdf.leftMargin = item.leftMargin + r.IndentValue - r.IndentValue := by
    rw [hm3, hfr2.2.1, hx, hI]
  refine ⟨hmar, ?_⟩
  intro hex hdepth
  refine (run_balanced env following hf r3 item rest hcs3).mono (fun h => h) ?_
  rintro r4 ⟨_, _, hal⟩
  rw [hal (by rw [hmar, hex]) (by rw [hI3]; exact hdepth), hmar, hex]

/-- C20, amended (a list nested directly in a list item). For every list
entered while the top frame is an item frame with the stored `leftMargin` `x`
and the item-text margin `x + 4*em` is in force, after the list's matching
leave event the canvas left margin is the `float64` value
`(x + IndentValue) - IndentValue`. When that sum is undone exactly, this is
`x`, the item frame's stored `leftMargin`; and after any content that follows
the list in the same item (with the indent undone exactly at the margins of
its lists and block quotes) the canvas left margin is still `x`, not the
item-text margin. The walk can stop early only on the out-of-range read of
`cellwidths`, which needs a text node. -/
theorem nested_list_margin (env : Env) (flags : Nat) (children following : Doc)
    (hc : children.levelsOk = true) (hf : following.levelsOk = true)
    (r : PdfRenderer) (item : containerState) (rest : List containerState)
    (hcs : r.cs = item :: rest) (_hitem : item.containerType = NodeType.Item)
    (hm : r.Pdf.leftMargin = item.leftMargin + 4 * r.em) :
    ((∃ r1, run env (Doc.node (Container.List flags) children Doc.nil).events r = Except.ok r1 ∧
        r1.Pdf.leftMargin = item.leftMargin + r.IndentValue - r.IndentValue ∧
        (item.leftMargin + r.IndentValue - r.IndentValue = item.leftMargin →
          r1.Pdf.leftMargin = item.leftMargin ∧
          (exactTo r.IndentValue item.leftMargin following.indentDepth = true →
            ((∃ r2, run env following.events r1 = Except.ok r2 ∧
                r2.Pdf.leftMargin = item.leftMargin) ∨
              run env following.events r1 = Except.error Fault.indexOutOfRange)))) ∨
      run env (Doc.node (Container.List flags) children Doc.nil).events r =
        Except.error Fault.indexOutOfRange) ∧
    (children.hasText = false → following.hasText = false →
      item.leftMargin + r.IndentValue - r.IndentValue = item.leftMargin →
      exactTo r.IndentValue item.leftMargin following.indentDepth = true →
      ∃ r1 r2, run env (Doc.node (Container.List flags) children Doc.nil).events r
          = Except.ok r1 ∧
        run env following.events r1 = Except.ok r2 ∧
        r1.Pdf.leftMargin = item.leftMargin ∧ r2.Pdf.leftMargin = item.leftMargin ∧
        (item.leftMargin + 4 * r.em ≠ item.leftMargin →
          r2.Pdf.leftMargin ≠ r.Pdf.leftMargin)) := by
  have h := nested_list_post env flags children following hc hf r item rest hcs
  constructor
  · rcases h.cases with ⟨r1, h1, ha, hpost⟩ | h
    · exact Or.inl ⟨r1, h1, ha, fun hex => ⟨by rw [ha, hex], fun hd => (hpost hex hd).cases⟩⟩
    · exact Or.inr h
  · intro hct hft hex hd
    obtain ⟨r1, h1, ha, hpost⟩ := h.ok (by simp [hct])
    obtain ⟨r2, h2, hc2⟩ := (hpost hex hd).ok (by simp [hft])
    refine ⟨r1, r2, h1, h2, by rw [ha, hex], hc2, ?_⟩
    intro hne heq
    apply hne
    rw [← hm, ← heq, hc2]

/-- The example renderer inside the first item of an unordered list. -/
def exampleInItem : PdfRenderer :=
  resultOr (run exampleEnv [Event.enter (Container.List 0), Event.enter Container.Item]
    exampleRenderer) exampleRenderer

/-- The item frame on top of the stack of `exampleInItem`. -/
def exampleItemFrame : containerState :=
  { containerType := NodeType.Item, textStyle := exampleNormal, itemNumber := 1,
    listkind := ListKind.unordered, firstParagraph := true, leftMargin := 46 }

/-- C20, at the example: inside an item with stored margin 46 and item-text
margin 70, with the indent 36 (and (46 + 36) - 36 is 46), a nested ordered
list of one item, followed by an empty paragraph, leaves the canvas left
margin at 46, not at 70. -/
theorem nested_list_margin_witness :
    exampleInItem.cs.head? = some exampleItemFrame ∧
    exampleInItem.Pdf.leftMargin = 70 ∧
    ∃ r1 r2, run exampleEnv
        (Doc.node (Container.List 1) (Doc.node Container.Item Doc.nil Doc.nil) Doc.nil).events
        exampleInItem = Except.ok r1 ∧
      run exampleEnv (Doc.node Container.Paragraph Doc.nil Doc.nil).events r1 = Except.ok r2 ∧
      r1.Pdf.leftMargin = 46 ∧ r2.Pdf.leftMargin = 46 ∧
      r2.Pdf.leftMargin ≠ exampleInItem.Pdf.leftMargin := by
  obtain ⟨r1, r2, h1, h2, ha, hb, hne⟩ :=
    (nested_list_margin exampleEnv 1 (Doc.node Container.Item Doc.nil Doc.nil)
      (Doc.node Container.Paragraph Doc.nil Doc.nil) (by decide) (by decide)
      exampleInItem exampleItemFrame _ rfl rfl (by decide)).2 (by decide) (by decide)
      (by decide) (by decide)
  exact ⟨rfl, by decide, r1, r2, h1, h2, ha, hb, hne (by decide)⟩

/-- The example renderer with the left margin 28.35 (canvas and root frame)
and the indent 29.988. -/
def pointsRenderer : PdfRenderer :=
  { exampleRenderer with
    Pdf := { leftMargin := 28.35, font := exampleNormal, links := 0, log := [] }
    IndentValue := 29.988
    cs := [{ containerType := NodeType.Paragraph, textStyle := exampleNormal,
             leftMargin := 28.35 }] }

/-- C20 fails as stated: with the left margin 28.35 and the indent 29.988, the
item of a list on the root frame stores the left margin 58.338; after a list
nested in that item is left, the canvas left margin is 58.337999999999994, the
`float64` value of (58.338 + 29.988) - 29.988, not the item frame's stored
58.338. -/
theorem nested_list_counterexample :
    ∃ r0 r1 item, run exampleEnv [Event.enter (Container.List 0), Event.enter Container.Item]
        pointsRenderer = Except.ok r0 ∧
      r0.cs.head? = some item ∧ item.containerType = NodeType.Item ∧
      item.leftMargin = 58.338 ∧ r0.Pdf.leftMargin = item.leftMargin + 4 * r0.em ∧
      run exampleEnv
        (Doc.node (Container.List 0) (Doc.node Container.Item Doc.nil Doc.nil) Doc.nil).events
        r0 = Except.ok r1 ∧
      r1.cs.head? = some item ∧
      r1.Pdf.leftMargin = 58.337999999999994 ∧ r1.Pdf.leftMargin ≠ item.leftMargin :=
  ⟨_, _, _, rfl, rfl, rfl, by decide, by decide, rfl, by decide, by decide, by decide⟩

/-! ## The fill flag of table rows -/

/-- The fill flags of the body cells drawn (cells with the border `"LR"`), in order. -/
def bodyFills (log : List Cmd) : List Bool :=
  log.filterMap (fun c =>
    match c with
    | Cmd.CellFormat _ _ _ borderStr _ _ fill => if borderStr = "LR" then some fill else none
    | _ => none)

/-- The fill flag of body row `j` of a table (rows counted from 0). -/
def rowFill (j : Nat) : Bool :=
  decide (j % 2 = 0)

/-- The fill flags of the cells drawn for the body rows `rows`, the first of
them being row `j`: one flag for every text node of the row. -/
def rowFillsFrom (j : Nat) : List (List (List String)) → List Bool
  | [] => []
  | row :: rows => List.replicate (textCount row) (rowFill j) ++ rowFillsFrom (j + 1) rows

/-- What a part of a table does to the fill flag and to the cells drawn. -/
def FillEffect (r r1 : PdfRenderer) (f : Bool) (fs : List Bool) : Prop :=
  r1.fill = f ∧ r1.IsInImage = r.IsInImage ∧
  bodyFills r1.Pdf.log = bodyFills r.Pdf.log ++ fs

theorem run_cons_inv {env : Env} {e : Event} {es : List Event} {r r2 : PdfRenderer}
    (h : run env (e :: es) r = Except.ok r2) :
    ∃ r1, step env e r = Except.ok r1 ∧ run env es r1 = Except.ok r2 := by
  simp only [run] at h
  cases hs : step env e r with
  | ok r1 => rw [hs] at h; exact ⟨r1, rfl, h⟩
  | error f => rw [hs] at h; cases h

theorem run_append_inv {env : Env} {es fs : List Event} {r r2 : PdfRenderer}
    (h : run env (es ++ fs) r = Except.ok r2) :
    ∃ r1, run env es r = Except.ok r1 ∧ run env fs r1 = Except.ok r2 := by
  rw [Mdtopdf.run_append] at h
  cases hs : run env es r with
  | ok r1 => rw [hs] at h; exact ⟨r1, rfl, h⟩
  | error f => rw [hs] at h; cases h

theorem fill_cell_enter (env : Env) (h : Bool) (r : PdfRenderer) (top : containerState)
    (rest : List containerState) (hcs : r.cs = top :: rest) :
    ∃ x r1, handle env (Container.TableCell h) true r = Except.ok r1 ∧
      r1.cs = x :: top :: rest ∧ x.containerType = NodeType.TableCell ∧ x.isHeader = h ∧
      x.listkind = ListKind.notlist ∧ FillEffect r r1 r.fill [] := by
  cases h <;>
    simp [handle, processTableCell, PdfRenderer.peek, PdfRenderer.push, PdfRenderer.setStyler,
      PdfRenderer.emit, hcs, bind, Except.bind, FillEffect, bodyFills,
      List.filterMap_append]

theorem fill_cell_leave (env : Env) (h : Bool) (r : PdfRenderer) (x top : containerState)
    (rest : List containerState) (hcs : r.cs = x :: top :: rest) :
    ∃ r1, handle env (Container.TableCell h) false r = Except.ok r1 ∧
      r1.cs = top :: rest ∧ FillEffect r r1 r.fill [] := by
  simp [handle, processTableCell, PdfRenderer.pop, hcs, bind, Except.bind, FillEffect]

theorem fill_row_enter (env : Env) (r : PdfRenderer) (top : containerState)
    (rest : List containerState) (hcs : r.cs = top :: rest) :
    ∃ x r1, handle env Container.TableRow true r = Except.ok r1 ∧
      r1.cs = x :: top :: rest ∧ FillEffect r r1 r.fill [] := by
  simp [handle, processTableRow, PdfRenderer.peek, PdfRenderer.push, PdfRenderer.emit, hcs,
    bind, Except.bind, FillEffect, bodyFills, List.filterMap_append]

theorem fill_row_leave (env : Env) (r : PdfRenderer) (x top : containerState)
    (rest : List containerState) (hcs : r.cs = x :: top :: rest) :
    ∃ r1, handle env Container.TableRow false r = Except.ok r1 ∧
      r1.cs = top :: rest ∧ FillEffect r r1 (!r.fill) [] := by
  simp [handle, processTableRow, PdfRenderer.pop, hcs, bind, Except.bind, FillEffect]

theorem fill_table_enter (env : Env) (r : PdfRenderer) (top : containerState)
    (rest : List containerState) (hcs : r.cs = top :: rest) :
    ∃ x r1, handle env Container.Table true r = Except.ok r1 ∧
      r1.cs = x :: top :: rest ∧ FillEffect r r1 false [] := by
  simp [handle, processTable, PdfRenderer.peek, PdfRenderer.push, PdfRenderer.cr,
    PdfRenderer.emit, hcs, bind, Except.bind, FillEffect, bodyFills,
    List.filterMap_append]

theorem fill_table_leave (env : Env) (r : PdfRenderer) (x top : containerState)
    (rest : List containerState) (hcs : r.cs = x :: top :: rest) :
    ∃ r1, handle env Container.Table false r = Except.ok r1 ∧
      r1.cs = top :: rest ∧ FillEffect r r1 r.fill [] := by
  simp [handle, processTable, PdfRenderer.pop, PdfRenderer.cr, PdfRenderer.emit, hcs,
    bind, Except.bind, FillEffect, bodyFills, List.filterMap_append]

theorem fill_head_enter (env : Env) (r : PdfRenderer) (top : containerState)
    (rest : List containerState) (hcs : r.cs = top :: rest) :
    ∃ x r1, handle env Container.TableHead true r = Except.ok r1 ∧
      r1.cs = x :: top :: rest ∧ FillEffect r r1 r.fill [] := by
  simp [handle, processTableHead, PdfRenderer.peek, PdfRenderer.push, hcs, bind, Except.bind,
    FillEffect]

theorem fill_head_leave (env : Env) (r : PdfRenderer) (x top : containerState)
    (rest : List containerState) (hcs : r.cs = x :: top :: rest) :
    ∃ r1, handle env Container.TableHead false r = Except.ok r1 ∧
      r1.cs = top :: rest ∧ FillEffect r r1 r.fill [] := by
  simp [handle, processTableHead, PdfRenderer.pop, hcs, bind, Except.bind, FillEffect]

theorem fill_body_enter (env : Env) (r : PdfRenderer) (top : containerState)
    (rest : List containerState) (hcs : r.cs = top :: rest) :
    ∃ x r1, handle env Container.TableBody true r = Except.ok r1 ∧
      r1.cs = x :: top :: rest ∧ FillEffect r r1 r.fill [] := by
  simp [handle, processTableBody, PdfRenderer.peek, PdfRenderer.push, hcs, bind, Except.bind,
    FillEffect]

theorem fill_body_leave (env : Env) (r : PdfRenderer) (x top : containerState)
    (rest : List containerState) (hcs : r.cs = x :: top :: rest) :
    ∃ r1, handle env Container.TableBody false r = Except.ok r1 ∧
      r1.cs = top :: rest ∧ FillEffect r r1 r.fill [] := by
  simp [handle, processTableBody, PdfRenderer.pop, PdfRenderer.emit, hcs, bind, Except.bind,
    FillEffect, bodyFills, List.filterMap_append]

theorem fill_text (env : Env) (t : String) (r r1 : PdfRenderer) (x : containerState)
    (rest : List containerState) (hcs : r.cs = x :: rest)
    (hx : x.containerType = NodeType.TableCell) (hl : x.listkind = ListKind.notlist)
    (himg : r.IsInImage = false)
    (hrun : processText env t "" r = Except.ok r1) :
    r1.cs = r.cs ∧ FillEffect r r1 r.fill (if x.isHeader = true then [] else [r.fill]) := by
  by_cases hh : x.isHeader = true
  · simp [processText, writeText, firstTextRule, beginText_eq, PdfRenderer.peek, hcs, hx, hh, hl,
      himg, bind, Except.bind, PdfRenderer.setStyler, PdfRenderer.emit] at hrun
    subst hrun
    simp [FillEffect, bodyFills, List.filterMap_append, hcs, himg, hh]
  · simp only [Bool.not_eq_true] at hh
    rcases hw : r.cellwidths[r.curdatacell]? with _ | w
    · simp [processText, writeText, firstTextRule, beginText_eq, PdfRenderer.peek, hcs, hx, hh,
        hl, himg, bind, Except.bind, PdfRenderer.setStyler, PdfRenderer.emit, hw] at hrun
    · simp [processText, writeText, firstTextRule, beginText_eq, PdfRenderer.peek, hcs, hx, hh,
        hl, himg, bind, Except.bind, PdfRenderer.setStyler, PdfRenderer.emit, hw] at hrun
      subst hrun
      simp [FillEffect, bodyFills, List.filterMap_append, hcs, himg, hh]

theorem fill_texts (env : Env) (ts : List String) :
    ∀ (r r1 : PdfRenderer) (x : containerState) (rest : List containerState),
      r.cs = x :: rest → x.containerType = NodeType.TableCell →
      x.listkind = ListKind.notlist → r.IsInImage = false →
      run env (textEvents ts) r = Except.ok r1 →
      r1.cs = r.cs ∧
      FillEffect r r1 r.fill
        (if x.isHeader = true then [] else List.replicate ts.length r.fill) := by
  induction ts with
  | nil =>
    intro r r1 x rest _ _ _ _ hrun
    simp only [textEvents, List.map_nil, run, Except.ok.injEq] at hrun
    subst hrun
    simp [FillEffect]
  | cons t ts ih =>
    intro r r2 x rest hcs hx hl himg hrun
    obtain ⟨r1, h1, h2⟩ := run_cons_inv hrun
    obtain ⟨hcs1, hf1, hi1, hb1⟩ :=
      fill_text env t r r1 x rest hcs hx hl himg (by simpa [step, handleLeaf] using h1)
    obtain ⟨hcs2, hf2, hi2, hb2⟩ :=
      ih r1 r2 x rest (by rw [hcs1, hcs]) hx hl (by rw [hi1, himg]) h2
    refine ⟨by rw [hcs2, hcs1], by rw [hf2, hf1], by rw [hi2, hi1], ?_⟩
    rw [hb2, hb1, hf1, List.append_assoc]
    by_cases hh : x.isHeader = true
    · simp [hh]
    · simp [hh, List.replicate_succ]

theorem fill_cell (env : Env) (h : Bool) (ts : List String) (r r1 : PdfRenderer)
    (top : containerState) (rest : List containerState) (hcs : r.cs = top :: rest)
    (himg : r.IsInImage = false)
    (hrun : run env (cellEvents h ts) r = Except.ok r1) :
    r1.cs = r.cs ∧
    FillEffect r r1 r.fill (if h = true then [] else List.replicate ts.length r.fill) := by
  obtain ⟨ra, ha, hrest⟩ := run_cons_inv hrun
  obtain ⟨rb, hb, hrest⟩ := run_append_inv hrest
  obtain ⟨rc, hc, hrest⟩ := run_cons_inv hrest
  simp only [run, Except.ok.injEq] at hrest
  subst hrest
  obtain ⟨x, ra1, hea, hcsa, hx, hh, hl, hfa, hia, hba⟩ := fill_cell_enter env h r top rest hcs
  have : ra1 = ra := by
    have := hea.symm.trans (by simpa [step] using ha)
    simpa using this
  subst this
  obtain ⟨hcsb, hfb, hib, hbb⟩ :=
    fill_texts env ts ra1 rb x (top :: rest) hcsa hx hl (by rw [hia, himg]) hb
  obtain ⟨rc1, hec, hcsc, hfc, hic, hbc⟩ :=
    fill_cell_leave env h rb x top rest (by rw [hcsb, hcsa])
  have : rc1 = rc := by
    have := hec.symm.trans (by simpa [step] using hc)
    simpa using this
  subst this
  refine ⟨by rw [hcsc, hcs], by rw [hfc, hfb, hfa], by rw [hic, hib, hia], ?_⟩
  rw [hbc, hbb, hba, hfa, hh]
  simp

theorem fill_cells (env : Env) (h : Bool) (cells : List (List String)) :
    ∀ (r r1 : PdfRenderer) (top : containerState) (rest : List containerState),
      r.cs = top :: rest → r.IsInImage = false →
      run env (cellsEvents h cells) r = Except.ok r1 →
      r1.cs = r.cs ∧
      FillEffect r r1 r.fill
        (if h = true then [] else List.replicate (textCount cells) r.fill) := by
  induction cells with
  | nil =>
    intro r r1 top rest _ _ hrun
    simp only [cellsEvents, run, Except.ok.injEq] at hrun
    subst hrun
    simp [FillEffect, textCount]
  | cons ts cells ih =>
    intro r r2 top rest hcs himg hrun
    obtain ⟨r1, h1, h2⟩ := run_append_inv hrun
    obtain ⟨hcs1, hf1, hi1, hb1⟩ := fill_cell env h ts r r1 top rest hcs himg h1
    obtain ⟨hcs2, hf2, hi2, hb2⟩ :=
      ih r1 r2 top rest (by rw [hcs1, hcs]) (by rw [hi1, himg]) h2
    refine ⟨by rw [hcs2, hcs1], by rw [hf2, hf1], by rw [hi2, hi1], ?_⟩
    rw [hb2, hb1, hf1, List.append_assoc]
    cases h
    · simp [textCount]
    · simp

theorem fill_row (env : Env) (h : Bool) (cells : List (List String)) (r r1 : PdfRenderer)
    (top : containerState) (rest : List containerState) (hcs : r.cs = top :: rest)
    (himg : r.IsInImage = false)
    (hrun : run env (rowEvents h cells) r = Except.ok r1) :
    r1.cs = r.cs ∧
    FillEffect r r1 (!r.fill)
      (if h = true then [] else List.replicate (textCount cells) r.fill) := by
  obtain ⟨ra, ha, hrest⟩ := run_cons_inv hrun
  obtain ⟨rb, hb, hrest⟩ := run_append_inv hrest
  obtain ⟨rc, hc, hrest⟩ := run_cons_inv hrest
  simp only [run, Except.ok.injEq] at hrest
  subst hrest
  obtain ⟨x, ra1, hea, hcsa, hfa, hia, hba⟩ := fill_row_enter env r top rest hcs
  have : ra1 = ra := by
    have := hea.symm.trans (by simpa [step] using ha)
    simpa using this
  subst this
  obtain ⟨hcsb, hfb, hib, hbb⟩ :=
    fill_cells env h cells ra1 rb x (top :: rest) hcsa (by rw [hia, himg]) hb
  obtain ⟨rc1, hec, hcsc, hfc, hic, hbc⟩ :=
    fill_row_leave env rb x top rest (by rw [hcsb, hcsa])
  have : rc1 = rc := by
    have := hec.symm.trans (by simpa [step] using hc)
    simpa using this
  subst this
  refine ⟨by rw [hcsc, hcs], by rw [hfc, hfb, hfa], by rw [hic, hib, hia], ?_⟩
  rw [hbc, hbb, hba, hfa]
  simp

theorem rowFill_succ (j : Nat) : rowFill (j + 1) = !rowFill j := by
  simp only [rowFill]
  rcases Nat.mod_two_eq_zero_or_one j with h | h
  · have : (j + 1) % 2 = 1 := by omega
    simp [h, this]
  · have : (j + 1) % 2 = 0 := by omega
    simp [h, this]

theorem fill_rows (env : Env) (body : List (List (List String))) :
    ∀ (j : Nat) (r r1 : PdfRenderer) (top : containerState) (rest : List containerState),
      r.cs = top :: rest → r.IsInImage = false → r.fill = rowFill j →
      run env (rowsEvents body) r = Except.ok r1 →
      r1.cs = r.cs ∧ FillEffect r r1 (rowFill (j + body.length)) (rowFillsFrom j body) := by
  induction body with
  | nil =>
    intro j r r1 top rest _ _ hf hrun
    simp only [rowsEvents, run, Except.ok.injEq] at hrun
    subst hrun
    simp [FillEffect, rowFillsFrom, hf]
  | cons row rows ih =>
    intro j r r2 top rest hcs himg hf hrun
    obtain ⟨r1, h1, h2⟩ := run_append_inv hrun
    obtain ⟨hcs1, hf1, hi1, hb1⟩ := fill_row env false row r r1 top rest hcs himg h1
    obtain ⟨hcs2, hf2, hi2, hb2⟩ :=
      ih (j + 1) r1 r2 top rest (by rw [hcs1, hcs]) (by rw [hi1, himg])
        (by rw [hf1, hf, rowFill_succ]) h2
    refine ⟨by rw [hcs2, hcs1], ?_, by rw [hi2, hi1], ?_⟩
    · rw [hf2]; congr 1; simp only [List.length_cons]; omega
    · rw [hb2, hb1, hf, List.append_assoc]
      simp [rowFillsFrom]

theorem fill_head (env : Env) (header : List (List String)) (r r1 : PdfRenderer)
    (top : containerState) (rest : List containerState) (hcs : r.cs = top :: rest)
    (himg : r.IsInImage = false)
    (hrun : run env (headEvents header) r = Except.ok r1) :
    (∃ x, r1.cs = x :: top :: rest) ∧ FillEffect r r1 true [] := by
  obtain ⟨ra, ha, hrest⟩ := run_cons_inv hrun
  obtain ⟨rb, hb, hrest⟩ := run_cons_inv hrest
  obtain ⟨rc, hc, hrest⟩ := run_append_inv hrest
  obtain ⟨rd, hd, hrest⟩ := run_cons_inv hrest
  simp only [run, Except.ok.injEq] at hrest
  subst hrest
  obtain ⟨x, ra1, hea, hcsa, hfa, hia, hba⟩ := fill_table_enter env r top rest hcs
  have : ra1 = ra := by
    have := hea.symm.trans (by simpa [step] using ha)
    simpa using this
  subst this
  obtain ⟨y, rb1, heb, hcsb, hfb, hib, hbb⟩ := fill_head_enter env ra1 x (top :: rest) hcsa
  have : rb1 = rb := by
    have := heb.symm.trans (by simpa [step] using hb)
    simpa using this
  subst this
  obtain ⟨hcsc, hfc, hic, hbc⟩ :=
    fill_row env true header rb1 rc y (x :: top :: rest) hcsb (by rw [hib, hia, himg]) hc
  obtain ⟨rd1, hed, hcsd, hfd, hid, hbd⟩ :=
    fill_head_leave env rc y x (top :: rest) (by rw [hcsc, hcsb])
  have : rd1 = rd := by
    have := hed.symm.trans (by simpa [step] using hd)
    simpa using this
  subst this
  refine ⟨⟨x, hcsd⟩, by rw [hfd, hfc, hfb, hfa]; rfl, by rw [hid, hic, hib, hia], ?_⟩
  rw [hbd, hbc, hbb, hba]
  simp

theorem fill_table (env : Env) (header : List (List String))
    (body : List (List (List String))) (r r1 : PdfRenderer)
    (top : containerState) (rest : List containerState) (hcs : r.cs = top :: rest)
    (himg : r.IsInImage = false)
    (hrun : run env (tableEvents header body) r = Except.ok r1) :
    FillEffect r r1 (rowFill body.length) (rowFillsFrom 0 body) := by
  obtain ⟨ra, ha, hrest⟩ := run_append_inv hrun
  obtain ⟨rb, hb, hrest⟩ := run_cons_inv hrest
  obtain ⟨rc, hc, hrest⟩ := run_append_inv hrest
  obtain ⟨rd, hd, hrest⟩ := run_cons_inv hrest
  obtain ⟨re, he, hrest⟩ := run_cons_inv hrest
  simp only [run, Except.ok.injEq] at hrest
  subst hrest
  obtain ⟨⟨x, hcsa⟩, hfa, hia, hba⟩ := fill_head env header r ra top rest hcs himg ha
  obtain ⟨y, rb1, heb, hcsb, hfb, hib, hbb⟩ := fill_body_enter env ra x (top :: rest) hcsa
  have : rb1 = rb := by
    have := heb.symm.trans (by simpa [step] using hb)
    simpa using this
  subst this
  obtain ⟨hcsc, hfc, hic, hbc⟩ :=
    fill_rows env body 0 rb1 rc y (x :: top :: rest) hcsb (by rw [hib, hia, himg])
      (by rw [hfb, hfa]; rfl) hc
  obtain ⟨rd1, hed, hcsd, hfd, hid, hbd⟩ :=
    fill_body_leave env rc y x (top :: rest) (by rw [hcsc, hcsb])
  have : rd1 = rd := by
    have := hed.symm.trans (by simpa [step] using hd)
    simpa using this
  subst this
  obtain ⟨re1, hee, hcse, hfe, hie, hbe⟩ := fill_table_leave env rd1 x top rest hcsd
  have : re1 = re := by
    have := hee.symm.trans (by simpa [step] using he)
    simpa using this
  subst this
  refine ⟨?_, by rw [hie, hid, hic, hib, hia], ?_⟩
  · rw [hfe, hfd, hfc]; simp
  · rw [hbe, hbd, hbc, hbb, hba]
    simp

/-- C18 (fill alternation). For every table (header cells and body cells
holding text nodes, no body row with more cells than the header recorded
widths), processed outside an image, the walk of the table runs to its end
and the fill flags of the body cells drawn are, row by row, one flag
`rowFill j` for every text node of body row `j`: all cells of a row share
the flag, and `rowFill (j + 1)` is the opposite of `rowFill j`. The fill flag
is set to false on table enter and negated on every row leave (the header
row included, so that body row 0 is drawn with fill true). -/
theorem fill_alternation (env : Env) (header : List (List String))
    (body : List (List (List String)))
    (hrows : ∀ row ∈ body, row.length ≤ textCount header)
    (r : PdfRenderer) (top : containerState) (rest : List containerState)
    (hcs : r.cs = top :: rest) (himg : r.IsInImage = false) :
    (∃ r1, run env (tableDoc header body).events r = Except.ok r1 ∧
      bodyFills r1.Pdf.log = bodyFills r.Pdf.log ++ rowFillsFrom 0 body) ∧
    (∀ j, rowFill (j + 1) = !rowFill j) ∧
    (∃ r1, step env (Event.enter Container.Table) r = Except.ok r1 ∧ r1.fill = false) ∧
    (∀ (q : PdfRenderer) (x below : containerState) (rest1 : List containerState),
      q.cs = x :: below :: rest1 →
      ∃ q1, step env (Event.leave Container.TableRow) q = Except.ok q1 ∧
        q1.fill = !q.fill) := by
  refine ⟨?_, rowFill_succ, ?_, ?_⟩
  · obtain ⟨r1, h1, _⟩ := table_run env header body r top rest hcs hrows
    rw [tableDoc_events]
    exact ⟨r1, h1, (fill_table env header body r r1 top rest hcs himg h1).2.2⟩
  · obtain ⟨x, r1, h1, _, hf, _⟩ := fill_table_enter env r top rest hcs
    exact ⟨r1, by simpa [step] using h1, hf⟩
  · intro q x below rest1 hq
    obtain ⟨q1, h1, _, hf, _⟩ := fill_row_leave env q x below rest1 hq
    exact ⟨q1, by simpa [step] using h1, hf⟩

/-- C18, at a table of two columns with a full body row, a short row and a row
with an empty cell: the cells of the first row are filled, the cell of the
second is not, the cell of the third is. -/
theorem fill_alternation_witness :
    (∀ row ∈ [[["1"], ["2"]], [["3"]], [[], ["4"]]],
      List.length row ≤ textCount (oneText ["a", "bcd"])) ∧
    exampleRenderer.IsInImage = false ∧
    ∃ r1, run exampleEnv
        (tableDoc (oneText ["a", "bcd"]) [[["1"], ["2"]], [["3"]], [[], ["4"]]]).events
        exampleRenderer = Except.ok r1 ∧
      bodyFills r1.Pdf.log = [true, true, false, true] := by
  obtain ⟨r1, h1, h2⟩ :=
    (fill_alternation exampleEnv (oneText ["a", "bcd"]) [[["1"], ["2"]], [["3"]], [[], ["4"]]]
      (by decide) exampleRenderer
      { containerType := NodeType.Paragraph, textStyle := exampleNormal, leftMargin := 10 } []
      rfl rfl).1
  exact ⟨by decide, rfl, r1, h1, h2.trans (by decide)⟩

/-! ## Paragraphs of a list item -/

/-- Number of line breaks forced so far. -/
def crCount (log : List Cmd) : Nat :=
  log.count Cmd.cr

/-- What the writing of a text leaves alone: the stack, the flags of the
list-paragraph rule, and the line breaks forced. -/
def sameRule (r r1 : PdfRenderer) : Prop :=
  r1.cs = r.cs ∧ r1.IsInImage = r.IsInImage ∧ r1.StrongOn = r.StrongOn ∧
  r1.ParagraphUnprocessed = r.ParagraphUnprocessed ∧ r1.TrimNext = r.TrimNext ∧
  r1.Normal = r.Normal ∧ crCount r1.Pdf.log = crCount r.Pdf.log

theorem resolveAnchor_rule (r : PdfRenderer) (key : String) :
    sameRule r (r.resolveAnchor key).2 := by
  unfold PdfRenderer.resolveAnchor
  cases r.anchor key <;> simp [sameRule, PdfRenderer.AddLink, crCount]

theorem writeText_rule (env : Env) (top : containerState) (headingID s : String)
    (r : PdfRenderer) (hcell : top.containerType ≠ NodeType.TableCell) :
    ∃ r1, writeText env top headingID s r = Except.ok r1 ∧ sameRule r r1 := by
  simp only [writeText]
  by_cases h1 : top.containerType = NodeType.Link
  · by_cases h2 : env.hasURLScheme top.destination = true
    · simp [h1, h2, sameRule, PdfRenderer.writeLink, PdfRenderer.emit, crCount]
    · simp only [Bool.not_eq_true] at h2
      have := resolveAnchor_rule r top.destination
      simp only [sameRule, crCount] at this
      simp [h1, h2, sameRule, PdfRenderer.writeAnchorLink, PdfRenderer.emit, crCount, this]
  · by_cases h3 : top.containerType = NodeType.Heading
    · have := resolveAnchor_rule { r with IsInText := true } ("#" ++ headingID)
      simp only [sameRule, crCount] at this
      simp [h1, h3, sameRule, PdfRenderer.write, PdfRenderer.emit, crCount, this]
    · simp [h1, h3, hcell, sameRule, PdfRenderer.write, PdfRenderer.emit, crCount]

/-- The list-paragraph rule of `processText`, for a text written outside an
image and outside a table cell. -/
theorem text_rule (env : Env) (literal headingID : String) (r : PdfRenderer)
    (top : containerState) (rest : List containerState) (hcs : r.cs = top :: rest)
    (himg : r.IsInImage = false) (hcell : top.containerType ≠ NodeType.TableCell) :
    ∃ r1, processText env literal headingID r = Except.ok r1 ∧ r1.cs = r.cs ∧
      r1.IsInImage = false ∧ r1.StrongOn = r.StrongOn ∧ r1.Normal = r.Normal ∧
      ((r.ParagraphUnprocessed = true ∧ top.listkind ≠ ListKind.notlist ∧
          textToWrite literal r.TrimNext ≠ "") →
        r1.ParagraphUnprocessed = false ∧ r1.TrimNext = r.StrongOn ∧
        crCount r1.Pdf.log = crCount r.Pdf.log + (if r.StrongOn = true then 1 else 0)) ∧
      (¬ (r.ParagraphUnprocessed = true ∧ top.listkind ≠ ListKind.notlist ∧
          textToWrite literal r.TrimNext ≠ "") →
        r1.ParagraphUnprocessed = r.ParagraphUnprocessed ∧ r1.TrimNext = false ∧
        crCount r1.Pdf.log = crCount r.Pdf.log) := by
  obtain ⟨r1, h1, hc1, hi1, hs1, hp1, ht1, hn1, hl1⟩ :=
    writeText_rule env top headingID (textToWrite literal r.TrimNext) (beginText top r) hcell
  simp only [beginText_eq] at hc1 hi1 hs1 hp1 ht1 hn1 hl1
  have hl1b : crCount r1.Pdf.log = crCount r.Pdf.log := by
    rw [hl1]; simp [crCount]
  refine ⟨firstTextRule top (textToWrite literal r.TrimNext) r1, ?_, ?_, ?_, ?_, ?_, ?_, ?_⟩
  · simp [processText, himg, PdfRenderer.peek, hcs, bind, Except.bind, h1]
  · unfold firstTextRule; split_ifs <;> simp [PdfRenderer.cr, PdfRenderer.emit, hc1]
  · unfold firstTextRule; split_ifs <;> simp [PdfRenderer.cr, PdfRenderer.emit, hi1, himg]
  · unfold firstTextRule; split_ifs <;> simp [PdfRenderer.cr, PdfRenderer.emit, hs1]
  · unfold firstTextRule; split_ifs <;> simp [PdfRenderer.cr, PdfRenderer.emit, hn1]
  · rintro ⟨hp, hk, hne⟩
    have hcond : (r1.ParagraphUnprocessed && decide (top.listkind ≠ ListKind.notlist) &&
        decide (textToWrite literal r.TrimNext ≠ "")) = true := by
      simp [hp1, hp, hk, hne]
    unfold firstTextRule
    rw [if_pos hcond]
    by_cases hs : r.StrongOn = true
    · simp only [crCount] at hl1b
      simp [PdfRenderer.cr, PdfRenderer.emit, hs1, hs, crCount, hl1b]
    · simp only [Bool.not_eq_true] at hs
      simp [hs1, hs, hl1b, ht1]
  · intro hno
    have hcond : ¬ ((r1.ParagraphUnprocessed && decide (top.listkind ≠ ListKind.notlist) &&
        decide (textToWrite literal r.TrimNext ≠ "")) = true) := by
      intro h
      apply hno
      simpa [hp1, and_assoc] using h
    unfold firstTextRule
    rw [if_neg hcond]
    exact ⟨hp1, ht1, hl1b⟩

/-- The rule of `text_rule` in a state where trim-next is not pending while
the paragraph is unprocessed: the text after trimming is empty exactly when
the literal is. -/
theorem text_step (env : Env) (literal : String) (r : PdfRenderer)
    (top : containerState) (rest : List containerState) (hcs : r.cs = top :: rest)
    (himg : r.IsInImage = false) (hcell : top.containerType ≠ NodeType.TableCell)
    (hJ : r.ParagraphUnprocessed = true → r.TrimNext = false) :
    ∃ r1, step env (Event.leaf (Leaf.Text literal "")) r = Except.ok r1 ∧ r1.cs = r.cs ∧
      r1.IsInImage = false ∧ r1.StrongOn = r.StrongOn ∧ r1.Normal = r.Normal ∧
      (r1.ParagraphUnprocessed = true → r1.TrimNext = false) ∧
      r1.ParagraphUnprocessed = (r.ParagraphUnprocessed &&
        !(decide (top.listkind ≠ ListKind.notlist) && decide (literal ≠ ""))) ∧
      r1.TrimNext = (r.ParagraphUnprocessed && decide (top.listkind ≠ ListKind.notlist) &&
        decide (literal ≠ "") && r.StrongOn) ∧
      crCount r1.Pdf.log = crCount r.Pdf.log +
        (if (r.ParagraphUnprocessed && decide (top.listkind ≠ ListKind.notlist) &&
              decide (literal ≠ "") && r.StrongOn) = true then 1 else 0) := by
  obtain ⟨r1, h1, hc1, hi1, hs1, hn1, hyes, hno⟩ :=
    text_rule env literal "" r top rest hcs himg hcell
  refine ⟨r1, by simpa [step, handleLeaf] using h1, hc1, hi1, hs1, hn1, ?_⟩
  by_cases hfire : r.ParagraphUnprocessed = true ∧ top.listkind ≠ ListKind.notlist ∧ literal ≠ ""
  · obtain ⟨hp, hk, hl⟩ := hfire
    have ht : r.TrimNext = false := hJ hp
    obtain ⟨ha, hb, hc⟩ := hyes ⟨hp, hk, by
      rw [ht]; simpa [textToWrite] using replaceNewlines_ne_empty literal hl⟩
    refine ⟨by simp [ha], by simp [ha, hp, hk, hl], by simp [hb, hp, hk, hl], ?_⟩
    rw [hc]
    simp [hp, hk, hl]
  · obtain ⟨ha, hb, hc⟩ := hno (by
      rintro ⟨hp, hk, hl⟩
      apply hfire
      refine ⟨hp, hk, ?_⟩
      rintro rfl
      rw [hJ hp] at hl
      exact hl (by decide))
    refine ⟨fun _ => hb, ?_, ?_, ?_⟩
    · rw [ha]
      by_cases hp : r.ParagraphUnprocessed = true
      · by_cases hk : top.listkind = ListKind.notlist
        · simp [hp, hk]
        · have hl : literal = "" := by
            by_contra hl
            exact hfire ⟨hp, hk, hl⟩
          simp [hp, hk, hl]
      · simp only [Bool.not_eq_true] at hp
        simp [hp]
    · rw [hb]
      by_cases hp : r.ParagraphUnprocessed = true
      · by_cases hk : top.listkind = ListKind.notlist
        · simp [hp, hk]
        · have hl : literal = "" := by
            by_contra hl
            exact hfire ⟨hp, hk, hl⟩
          simp [hp, hk, hl]
      · simp only [Bool.not_eq_true] at hp
        simp [hp]
    · rw [hc]
      by_cases hp : r.ParagraphUnprocessed = true
      · by_cases hk : top.listkind = ListKind.notlist
        · simp [hp, hk]
        · have hl : literal = "" := by
            by_contra hl
            exact hfire ⟨hp, hk, hl⟩
          simp [hp, hk, hl]
      · simp only [Bool.not_eq_true] at hp
        simp [hp]

/-- How a text node of a paragraph is wrapped: not at all, in emphasis, in
strong, or in a link with the given destination. -/
inductive Wrap
  | plain
  | emph
  | strong
  | link (destination : String)
deriving DecidableEq, Repr

/-- One text node of a paragraph with its wrapping. -/
structure Span where
  wrap : Wrap
  literal : String
deriving DecidableEq, Repr

/-- The events before the text node of a span. -/
def Span.opening (x : Span) : List Event :=
  match x.wrap with
  | Wrap.plain => []
  | Wrap.emph => [Event.enter Container.Emph]
  | Wrap.strong => [Event.enter Container.Strong]
  | Wrap.link destination => [Event.enter (Container.Link destination)]

/-- The text node of a span. -/
def Span.text (x : Span) : Event :=
  Event.leaf (Leaf.Text x.literal "")

/-- The events after the text node of a span. -/
def Span.closing (x : Span) : List Event :=
  match x.wrap with
  | Wrap.plain => []
  | Wrap.emph => [Event.leave Container.Emph]
  | Wrap.strong => [Event.leave Container.Strong]
  | Wrap.link destination => [Event.leave (Container.Link destination)]

/-- The events of a span. -/
def Span.events (x : Span) : List Event :=
  x.opening ++ x.text :: x.closing

/-- The events of the spans of a paragraph. -/
def spansEvents : List Span → List Event
  | [] => []
  | x :: xs => x.events ++ spansEvents xs

/-- The events of a paragraph holding the given spans. -/
def paragraphEvents (spans : List Span) : List Event :=
  Event.enter Container.Paragraph :: (spansEvents spans ++ [Event.leave Container.Paragraph])

/-- The events of the paragraphs of a list item, in order. -/
def paragraphsEvents : List (List Span) → List Event
  | [] => []
  | p :: ps => paragraphEvents p ++ paragraphsEvents ps

/-- The spans of a paragraph as a forest. -/
def spansDoc : List Span → Doc
  | [] => Doc.nil
  | x :: xs =>
    match x.wrap with
    | Wrap.plain => Doc.leaf (Leaf.Text x.literal "") (spansDoc xs)
    | Wrap.emph =>
      Doc.node Container.Emph (Doc.leaf (Leaf.Text x.literal "") Doc.nil) (spansDoc xs)
    | Wrap.strong =>
      Doc.node Container.Strong (Doc.leaf (Leaf.Text x.literal "") Doc.nil) (spansDoc xs)
    | Wrap.link destination =>
      Doc.node (Container.Link destination) (Doc.leaf (Leaf.Text x.literal "") Doc.nil)
        (spansDoc xs)

/-- The paragraphs of a list item as a forest. -/
def paragraphsDoc : List (List Span) → Doc
  | [] => Doc.nil
  | p :: ps => Doc.node Container.Paragraph (spansDoc p) (paragraphsDoc ps)

theorem spansDoc_events (xs : List Span) : (spansDoc xs).events = spansEvents xs := by
  induction xs with
  | nil => rfl
  | cons x xs ih =>
    obtain ⟨wrap, lit⟩ := x
    cases wrap <;>
      simp [spansDoc, Doc.events, spansEvents, Span.events, Span.opening, Span.text,
        Span.closing, ih]

theorem paragraphsDoc_events (ps : List (List Span)) :
    (paragraphsDoc ps).events = paragraphsEvents ps := by
  induction ps with
  | nil => rfl
  | cons p ps ih =>
    simp [paragraphsDoc, Doc.events, paragraphsEvents, paragraphEvents, spansDoc_events, ih]

theorem spansEvents_append (a b : List Span) :
    spansEvents (a ++ b) = spansEvents a ++ spansEvents b := by
  induction a with
  | nil => rfl
  | cons x xs ih => simp [spansEvents, ih]

theorem paragraphsEvents_append (a b : List (List Span)) :
    paragraphsEvents (a ++ b) = paragraphsEvents a ++ paragraphsEvents b := by
  induction a with
  | nil => rfl
  | cons x xs ih => simp [paragraphsEvents, ih]

theorem paragraph_split (spans : List Span) (i : Nat) (hi : i < spans.length) :
    (Doc.node Container.Paragraph (spansDoc spans) Doc.nil).events =
      (Event.enter Container.Paragraph :: (spansEvents (spans.take i) ++ spans[i].opening)) ++
        spans[i].text :: (spans[i].closing ++ spansEvents (spans.drop (i + 1)) ++
          [Event.leave Container.Paragraph]) := by
  have hsplit : spans = spans.take i ++ spans[i] :: spans.drop (i + 1) := by
    rw [← List.drop_eq_getElem_cons hi, List.take_append_drop]
  have hev : spansEvents spans =
      spansEvents (spans.take i) ++ (spans[i].events ++ spansEvents (spans.drop (i + 1))) := by
    conv_lhs => rw [hsplit]
    rw [spansEvents_append]
    rfl
  simp only [Doc.events, spansDoc_events, hev, Span.events]
  simp

theorem paragraphs_split (ps : List (List Span)) (j : Nat) (hj : j < ps.length) :
    (paragraphsDoc ps).events =
      paragraphsEvents (ps.take j) ++
        (Event.enter Container.Paragraph :: (spansEvents ps[j] ++
          Event.leave Container.Paragraph :: paragraphsEvents (ps.drop (j + 1)))) := by
  have hsplit : ps = ps.take j ++ ps[j] :: ps.drop (j + 1) := by
    rw [← List.drop_eq_getElem_cons hj, List.take_append_drop]
  have hev : paragraphsEvents ps =
      paragraphsEvents (ps.take j) ++
        (paragraphEvents ps[j] ++ paragraphsEvents (ps.drop (j + 1))) := by
    conv_lhs => rw [hsplit]
    rw [paragraphsEvents_append]
    rfl
  rw [paragraphsDoc_events, hev]
  simp [paragraphEvents]

/-- The span is a non-empty text written with the frame of the paragraph's
item on top of the stack: it is not inside a link. -/
def Span.direct (x : Span) : Bool :=
  (match x.wrap with
   | Wrap.link _ => false
   | _ => true) && decide (x.literal ≠ "")

/-- The span is wrapped in strong. -/
def Span.bold (x : Span) : Bool :=
  match x.wrap with
  | Wrap.strong => true
  | _ => false

/-- The renderer is inside a list item of kind `kind`, with the item frame on
top of `rest`, outside an image and outside strong. -/
def InItem (q : PdfRenderer) (kind : ListKind) (fp : Bool) (rest : List containerState) :
    Prop :=
  (∃ top, q.cs = top :: rest ∧ top.containerType = NodeType.Item ∧ top.listkind = kind ∧
    top.firstParagraph = fp) ∧
  q.IsInImage = false ∧ q.StrongOn = false

/-- What the handlers of emphasis, strong and links leave alone. -/
def keepsRule (q q1 : PdfRenderer) : Prop :=
  q1.IsInImage = q.IsInImage ∧ q1.ParagraphUnprocessed = q.ParagraphUnprocessed ∧
  q1.TrimNext = q.TrimNext ∧ q1.Normal = q.Normal ∧ q1.Pdf = q.Pdf

/-- What a change of the style flags leaves alone in a frame. -/
def keepsItem (top top1 : containerState) : Prop :=
  top1.containerType = top.containerType ∧ top1.listkind = top.listkind ∧
  top1.firstParagraph = top.firstParagraph

theorem emph_step (env : Env) (entering : Bool) (q : PdfRenderer) (top : containerState)
    (rest : List containerState) (hcs : q.cs = top :: rest) :
    ∃ top1 q1, handle env Container.Emph entering q = Except.ok q1 ∧ q1.cs = top1 :: rest ∧
      keepsItem top top1 ∧ keepsRule q q1 ∧ q1.StrongOn = q.StrongOn := by
  cases entering
  · simp [handle, processEmph, PdfRenderer.modifyTop, hcs, keepsItem, keepsRule]
  · by_cases h : containsChar top.textStyle.Style 'i' = true
    · simp [handle, processEmph, PdfRenderer.peek, PdfRenderer.modifyTop, hcs, bind,
        Except.bind, h, keepsItem, keepsRule]
    · simp only [Bool.not_eq_true] at h
      simp [handle, processEmph, PdfRenderer.peek, PdfRenderer.modifyTop, hcs, bind,
        Except.bind, h, keepsItem, keepsRule]

theorem strong_step (env : Env) (entering : Bool) (q : PdfRenderer) (top : containerState)
    (rest : List containerState) (hcs : q.cs = top :: rest) :
    ∃ top1 q1, handle env Container.Strong entering q = Except.ok q1 ∧ q1.cs = top1 :: rest ∧
      keepsItem top top1 ∧ keepsRule q q1 ∧ q1.StrongOn = entering := by
  cases entering <;>
    simp [handle, processStrong, PdfRenderer.modifyTop, hcs, bind, Except.bind, keepsItem,
      keepsRule]

theorem link_enter (env : Env) (d : String) (q : PdfRenderer) (top : containerState)
    (rest : List containerState) (hcs : q.cs = top :: rest) :
    ∃ x q1, handle env (Container.Link d) true q = Except.ok q1 ∧ q1.cs = x :: top :: rest ∧
      x.containerType = NodeType.Link ∧ x.listkind = ListKind.notlist ∧
      keepsRule q q1 ∧ q1.StrongOn = q.StrongOn := by
  simp [handle, processLink, PdfRenderer.peek, PdfRenderer.push, hcs, bind, Except.bind,
    keepsRule]

theorem link_leave (env : Env) (d : String) (q : PdfRenderer) (x top : containerState)
    (rest : List containerState) (hcs : q.cs = x :: top :: rest) :
    ∃ q1, handle env (Container.Link d) false q = Except.ok q1 ∧ q1.cs = top :: rest ∧
      keepsRule q q1 ∧ q1.StrongOn = q.StrongOn := by
  simp [handle, processLink, PdfRenderer.pop, hcs, bind, Except.bind, keepsRule]

theorem span_run (env : Env) (x : Span) (q : PdfRenderer) (kind : ListKind) (fp : Bool)
    (rest : List containerState) (hk : kind ≠ ListKind.notlist) (hq : InItem q kind fp rest)
    (hJ : q.ParagraphUnprocessed = true → q.TrimNext = false) :
    ∃ ra rb rc, run env x.opening q = Except.ok ra ∧ step env x.text ra = Except.ok rb ∧
      run env x.closing rb = Except.ok rc ∧
      InItem rc kind fp rest ∧ rc.Normal = q.Normal ∧
      (rc.ParagraphUnprocessed = true → rc.TrimNext = false) ∧
      rc.ParagraphUnprocessed = (q.ParagraphUnprocessed && !x.direct) ∧
      rb.TrimNext = (q.ParagraphUnprocessed && x.direct && x.bold) ∧
      crCount rb.Pdf.log = crCount ra.Pdf.log +
        (if (q.ParagraphUnprocessed && x.direct && x.bold) = true then 1 else 0) := by
  obtain ⟨⟨top, hcs, hty, hkd, hfp⟩, himg, hso⟩ := hq
  have hk1 : top.listkind ≠ ListKind.notlist := by rw [hkd]; exact hk
  obtain ⟨wrap, lit⟩ := x
  cases wrap with
  | plain =>
    obtain ⟨rb, h1, hc1, hi1, hs1, hn1, hJ1, hp1, ht1, hl1⟩ :=
      text_step env lit q top rest hcs himg (by rw [hty]; decide) hJ
    refine ⟨q, rb, rb, rfl, h1, rfl, ⟨⟨top, by rw [hc1, hcs], hty, hkd, hfp⟩, hi1,
      by rw [hs1, hso]⟩, hn1, hJ1, ?_, ?_, ?_⟩
    · rw [hp1]; simp [Span.direct, hk1]
    · rw [ht1]; simp [Span.direct, Span.bold, hk1, hso]
    · rw [hl1]; simp [Span.direct, Span.bold, hk1, hso]
  | emph =>
    obtain ⟨t1, ra, ha, hca, ⟨hta, hka, hfa⟩, ⟨hia, hpa, htra, hna, hpdfa⟩, hsa⟩ :=
      emph_step env true q top rest hcs
    obtain ⟨rb, h1, hc1, hi1, hs1, hn1, hJ1, hp1, ht1, hl1⟩ :=
      text_step env lit ra t1 rest hca (by rw [hia, himg]) (by rw [hta, hty]; decide)
        (by rw [hpa, htra]; exact hJ)
    obtain ⟨t2, rc, hc, hcc, ⟨htc, hkc, hfc⟩, ⟨hic, hpc, htrc, hnc, hpdfc⟩, hsc⟩ :=
      emph_step env false rb t1 rest (by rw [hc1, hca])
    refine ⟨ra, rb, rc, by simp [Span.opening, run, step, ha], h1,
      by simp [Span.closing, run, step, hc],
      ⟨⟨t2, hcc, by rw [htc, hta, hty], by rw [hkc, hka, hkd], by rw [hfc, hfa, hfp]⟩,
        by rw [hic, hi1], by rw [hsc, hs1, hsa, hso]⟩,
      by rw [hnc, hn1, hna], by rw [hpc, htrc]; exact hJ1, ?_, ?_, ?_⟩
    · rw [hpc, hp1, hpa, hka]; simp [Span.direct, hk1]
    · rw [ht1, hpa, hka, hsa]; simp [Span.direct, Span.bold, hk1, hso]
    · rw [hl1, hpa, hka, hsa]; simp [Span.direct, Span.bold, hk1, hso]
  | strong =>
    obtain ⟨t1, ra, ha, hca, ⟨hta, hka, hfa⟩, ⟨hia, hpa, htra, hna, hpdfa⟩, hsa⟩ :=
      strong_step env true q top rest hcs
    obtain ⟨rb, h1, hc1, hi1, hs1, hn1, hJ1, hp1, ht1, hl1⟩ :=
      text_step env lit ra t1 rest hca (by rw [hia, himg]) (by rw [hta, hty]; decide)
        (by rw [hpa, htra]; exact hJ)
    obtain ⟨t2, rc, hc, hcc, ⟨htc, hkc, hfc⟩, ⟨hic, hpc, htrc, hnc, hpdfc⟩, hsc⟩ :=
      strong_step env false rb t1 rest (by rw [hc1, hca])
    refine ⟨ra, rb, rc, by simp [Span.opening, run, step, ha], h1,
      by simp [Span.closing, run, step, hc],
      ⟨⟨t2, hcc, by rw [htc, hta, hty], by rw [hkc, hka, hkd], by rw [hfc, hfa, hfp]⟩,
        by rw [hic, hi1], hsc⟩,
      by rw [hnc, hn1, hna], by rw [hpc, htrc]; exact hJ1, ?_, ?_, ?_⟩
    · rw [hpc, hp1, hpa, hka]; simp [Span.direct, hk1]
    · rw [ht1, hpa, hka, hsa]; simp [Span.direct, Span.bold, hk1]
    · rw [hl1, hpa, hka, hsa]; simp [Span.direct, Span.bold, hk1]
  | link d =>
    obtain ⟨x, ra, ha, hca, hxa, hxk, ⟨hia, hpa, htra, hna, hpdfa⟩, hsa⟩ :=
      link_enter env d q top rest hcs
    obtain ⟨rb, h1, hc1, hi1, hs1, hn1, hJ1, hp1, ht1, hl1⟩ :=
      text_step env lit ra x (top :: rest) hca (by rw [hia, himg]) (by rw [hxa]; decide)
        (by rw [hpa, htra]; exact hJ)
    obtain ⟨rc, hc, hcc, ⟨hic, hpc, htrc, hnc, hpdfc⟩, hsc⟩ :=
      link_leave env d rb x top rest (by rw [hc1, hca])
    refine ⟨ra, rb, rc, by simp [Span.opening, run, step, ha], h1,
      by simp [Span.closing, run, step, hc],
      ⟨⟨top, hcc, hty, hkd, hfp⟩, by rw [hic, hi1], by rw [hsc, hs1, hsa, hso]⟩,
      by rw [hnc, hn1, hna], by rw [hpc, htrc]; exact hJ1, ?_, ?_, ?_⟩
    · rw [hpc, hp1, hpa, hxk]; simp [Span.direct]
    · rw [ht1, hxk]; simp [Span.direct, Span.bold]
    · rw [hl1, hxk]; simp [Span.direct, Span.bold]

theorem spans_run (env : Env) (kind : ListKind) (fp : Bool) (rest : List containerState)
    (hk : kind ≠ ListKind.notlist) (xs : List Span) :
    ∀ (q : PdfRenderer), InItem q kind fp rest →
      (q.ParagraphUnprocessed = true → q.TrimNext = false) →
      ∃ r1, run env (spansEvents xs) q = Except.ok r1 ∧ InItem r1 kind fp rest ∧
        r1.Normal = q.Normal ∧ (r1.ParagraphUnprocessed = true → r1.TrimNext = false) ∧
        r1.ParagraphUnprocessed = (q.ParagraphUnprocessed && xs.all (fun x => !x.direct)) := by
  induction xs with
  | nil =>
    intro q hq hJ
    exact ⟨q, rfl, hq, rfl, hJ, by simp⟩
  | cons x xs ih =>
    intro q hq hJ
    obtain ⟨ra, rb, rc, ha, hb, hc, hq1, hn1, hJ1, hp1, _, _⟩ :=
      span_run env x q kind fp rest hk hq hJ
    obtain ⟨r2, h2, hq2, hn2, hJ2, hp2⟩ := ih rc hq1 hJ1
    refine ⟨r2, ?_, hq2, by rw [hn2, hn1], hJ2, ?_⟩
    · simp only [spansEvents, Span.events]
      exact run_ok_append (run_ok_append ha (run_ok_cons hb hc)) h2
    · rw [hp2, hp1]; simp [Bool.and_assoc]

theorem listkind_cases (k : ListKind) (hk : k ≠ ListKind.notlist) :
    k = ListKind.unordered ∨ k = ListKind.ordered ∨ k = ListKind.definition := by
  cases k <;> simp_all

theorem paragraph_item (env : Env) (entering : Bool) (q : PdfRenderer)
    (top : containerState) (rest : List containerState) (hcs : q.cs = top :: rest)
    (hty : top.containerType = NodeType.Item) (hk : top.listkind ≠ ListKind.notlist) :
    ∃ q1 top1, handle env Container.Paragraph entering q = Except.ok q1 ∧
      q1.cs = top1 :: rest ∧ top1.containerType = NodeType.Item ∧
      top1.listkind = top.listkind ∧
      top1.firstParagraph = (top.firstParagraph && entering) ∧
      q1.IsInImage = q.IsInImage ∧ q1.StrongOn = q.StrongOn ∧ q1.Normal = q.Normal ∧
      q1.ParagraphUnprocessed = true ∧ q1.TrimNext = false ∧
      q1.Pdf.log = q.Pdf.log ++ [Cmd.setStyler q.Normal] ++
        (if top.firstParagraph = true then [] else [Cmd.cr]) := by
  have hor := listkind_cases top.listkind hk
  by_cases hfp : top.firstParagraph = true
  · cases entering <;>
      simp [handle, processParagraph, PdfRenderer.peek, PdfRenderer.modifyTop, hcs, hty, hor,
        hfp, bind, Except.bind, PdfRenderer.setStyler, PdfRenderer.cr, PdfRenderer.emit]
  · simp only [Bool.not_eq_true] at hfp
    cases entering <;>
      simp [handle, processParagraph, PdfRenderer.peek, PdfRenderer.modifyTop, hcs, hty, hor,
        hfp, bind, Except.bind, PdfRenderer.setStyler, PdfRenderer.cr, PdfRenderer.emit]

theorem paragraph_other (env : Env) (entering : Bool) (q : PdfRenderer)
    (top : containerState) (rest : List containerState) (hcs : q.cs = top :: rest)
    (hty : top.containerType ≠ NodeType.Item) :
    ∃ q1, handle env Container.Paragraph entering q = Except.ok q1 ∧ q1.cs = q.cs ∧
      q1.Pdf.log = q.Pdf.log ++ [Cmd.setStyler q.Normal, Cmd.cr] := by
  cases entering <;>
    simp [handle, processParagraph, PdfRenderer.peek, hcs, hty, bind, Except.bind,
      PdfRenderer.setStyler, PdfRenderer.cr, PdfRenderer.emit]

/-- C15 (list-paragraph bold rule), amended. In the paragraph of a list item
(texts plain or wrapped in emphasis, strong or a link), entered outside an
image and outside strong, `processText` forces a line break and sets the
trim-next flag at a text exactly when that text is wrapped in strong, is
non-empty and written with the item frame on top (not inside a link), and no
earlier text of the paragraph was non-empty and written with the item frame on
top; at every other text it forces no line break and leaves trim-next
cleared. A text inside a link neither triggers the rule nor uses it up. The
states `ra` and `rb` are those before and after text `i` of the paragraph. -/
theorem list_paragraph_bold_rule (env : Env) (spans : List Span) (r : PdfRenderer)
    (item : containerState) (rest : List containerState) (hcs : r.cs = item :: rest)
    (hitem : item.containerType = NodeType.Item) (hkind : item.listkind ≠ ListKind.notlist)
    (himg : r.IsInImage = false) (hstrong : r.StrongOn = false)
    (i : Nat) (hi : i < spans.length) :
    ∃ post ra rb,
      (Doc.node Container.Paragraph (spansDoc spans) Doc.nil).events =
        (Event.enter Container.Paragraph ::
          (spansEvents (spans.take i) ++ spans[i].opening)) ++ spans[i].text :: post ∧
      run env (Event.enter Container.Paragraph ::
        (spansEvents (spans.take i) ++ spans[i].opening)) r = Except.ok ra ∧
      step env spans[i].text ra = Except.ok rb ∧
      ((spans[i].bold = true ∧ spans[i].direct = true ∧
          ∀ x ∈ spans.take i, x.direct = false) →
        rb.TrimNext = true ∧ crCount rb.Pdf.log = crCount ra.Pdf.log + 1) ∧
      (¬ (spans[i].bold = true ∧ spans[i].direct = true ∧
          ∀ x ∈ spans.take i, x.direct = false) →
        rb.TrimNext = false ∧ crCount rb.Pdf.log = crCount ra.Pdf.log) := by
  obtain ⟨q0, top0, h0, hc0, ht0, hk0, hf0, hi0, hs0, hn0, hp0, htr0, _⟩ :=
    paragraph_item env true r item rest hcs hitem hkind
  have hq0 : InItem q0 item.listkind (item.firstParagraph && true) rest :=
    ⟨⟨top0, hc0, ht0, hk0, hf0⟩, by rw [hi0, himg], by rw [hs0, hstrong]⟩
  obtain ⟨q1, h1, hq1, hn1, hJ1, hp1⟩ :=
    spans_run env item.listkind _ rest hkind (spans.take i) q0 hq0 (fun _ => htr0)
  obtain ⟨ra, rb, rc, ha, hb, _, _, _, _, _, htb, hlb⟩ :=
    span_run env spans[i] q1 item.listkind _ rest hkind hq1 hJ1
  rw [hp1, hp0] at htb hlb
  refine ⟨_, ra, rb, paragraph_split spans i hi,
    run_ok_cons (by simpa [step] using h0) (run_ok_append h1 ha), hb, ?_, ?_⟩
  · rintro ⟨hbold, hdir, hall⟩
    have hall1 : (spans.take i).all (fun x => !x.direct) = true := by
      rw [List.all_eq_true]
      intro x hx
      simp [hall x hx]
    rw [htb, hlb]
    simp [hall1, hbold, hdir]
  · intro hno
    have hcond : (true && (spans.take i).all (fun x => !x.direct) && spans[i].direct &&
        spans[i].bold) = false := by
      rw [Bool.eq_false_iff]
      intro h
      simp only [Bool.true_and, Bool.and_eq_true, List.all_eq_true, Bool.not_eq_true'] at h
      exact hno ⟨h.2, h.1.2, h.1.1⟩
    rw [htb, hlb, hcond]
    simp

/-- C15, at the first item of the example list: the paragraph holds an empty
text, then "b" in strong; the text "b" forces a line break and sets the
trim-next flag. -/
theorem list_paragraph_bold_rule_witness :
    exampleInItem.cs = [exampleItemFrame, exampleListFrame, exampleRootFrame] ∧
    ∃ ra rb,
      run exampleEnv [Event.enter Container.Paragraph, Event.leaf (Leaf.Text "" ""),
        Event.enter Container.Strong] exampleInItem = Except.ok ra ∧
      step exampleEnv (Event.leaf (Leaf.Text "b" "")) ra = Except.ok rb ∧
      rb.TrimNext = true ∧ crCount rb.Pdf.log = crCount ra.Pdf.log + 1 := by
  obtain ⟨_, ra, rb, _, h1, h2, hyes, _⟩ :=
    list_paragraph_bold_rule exampleEnv
      [⟨Wrap.plain, ""⟩, ⟨Wrap.strong, "b"⟩, ⟨Wrap.plain, " c"⟩] exampleInItem
      exampleItemFrame [exampleListFrame, exampleRootFrame] rfl rfl (by decide) rfl rfl
      1 (by decide)
  exact ⟨rfl, ra, rb, h1, h2, hyes ⟨rfl, rfl, by decide⟩⟩

/-- C15 fails as stated: in the paragraph of a list item that holds the link
text "a" and then "b" in strong, the text "a" is the first non-empty text
emitted in the paragraph, and strong is not active when it is emitted; yet the
later text "b" forces a line break and sets the trim-next flag. -/
theorem list_paragraph_counterexample :
    ∃ ra rb,
      run exampleEnv
        [Event.enter Container.Paragraph, Event.enter (Container.Link "http://x"),
         Event.leaf (Leaf.Text "a" ""), Event.leave (Container.Link "http://x"),
         Event.enter Container.Strong] exampleInItem = Except.ok ra ∧
      step exampleEnv (Event.leaf (Leaf.Text "b" "")) ra = Except.ok rb ∧
      Cmd.writeLink exampleRenderer.Link "a" "http://x" ∈ ra.Pdf.log ∧
      rb.TrimNext = true ∧ crCount rb.Pdf.log = crCount ra.Pdf.log + 1 :=
  ⟨_, _, rfl, rfl, by decide, by decide, by decide⟩

/-- The line breaks of one paragraph of a list item whose frame has the
first-paragraph mark `fp`. -/
theorem paragraph_run (env : Env) (kind : ListKind) (fp : Bool) (rest : List containerState)
    (hk : kind ≠ ListKind.notlist) (spans : List Span) (q : PdfRenderer)
    (hq : InItem q kind fp rest) :
    ∃ qa qb qc, step env (Event.enter Container.Paragraph) q = Except.ok qa ∧
      run env (spansEvents spans) qa = Except.ok qb ∧
      step env (Event.leave Container.Paragraph) qb = Except.ok qc ∧
      qa.Pdf.log = q.Pdf.log ++ [Cmd.setStyler q.Normal] ++
        (if fp = true then [] else [Cmd.cr]) ∧
      qc.Pdf.log = qb.Pdf.log ++ [Cmd.setStyler q.Normal] ++
        (if fp = true then [] else [Cmd.cr]) ∧
      InItem qb kind fp rest ∧ InItem qc kind false rest ∧ qc.Normal = q.Normal := by
  obtain ⟨⟨top, hcs, hty, hkd, hfp⟩, himg, hso⟩ := hq
  have hk1 : top.listkind ≠ ListKind.notlist := by rw [hkd]; exact hk
  obtain ⟨qa, topa, ha, hca, hta, hka, hfa, hia, hsa, hna, hpa, htra, hla⟩ :=
    paragraph_item env true q top rest hcs hty hk1
  have hqa : InItem qa kind fp rest :=
    ⟨⟨topa, hca, hta, by rw [hka, hkd], by rw [hfa, hfp]; simp⟩, by rw [hia, himg],
      by rw [hsa, hso]⟩
  obtain ⟨qb, hb, hqb, hnb, _, _⟩ := spans_run env kind fp rest hk spans qa hqa (fun _ => htra)
  obtain ⟨⟨topb, hcb, htb, hkb, hfb⟩, hib, hsb⟩ := hqb
  obtain ⟨qc, topc, hc, hcc, htc, hkc, hfc, hic, hsc, hnc, _, _, hlc⟩ :=
    paragraph_item env false qb topb rest hcb htb (by rw [hkb]; exact hk)
  refine ⟨qa, qb, qc, by simpa [step] using ha, hb, by simpa [step] using hc, ?_, ?_,
    ⟨⟨topb, hcb, htb, hkb, hfb⟩, hib, hsb⟩,
    ⟨⟨topc, hcc, htc, by rw [hkc, hkb], by rw [hfc]; simp⟩, by rw [hic, hib],
      by rw [hsc, hsb]⟩,
    by rw [hnc, hnb, hna]⟩
  · rw [hla, hfp]
  · rw [hlc, hfb, hnb, hna]

theorem paragraphs_run (env : Env) (kind : ListKind) (rest : List containerState)
    (hk : kind ≠ ListKind.notlist) (ps : List (List Span)) :
    ∀ (fp : Bool) (q : PdfRenderer), InItem q kind fp rest →
      ∃ q1, run env (paragraphsEvents ps) q = Except.ok q1 ∧
        InItem q1 kind (fp && ps.isEmpty) rest ∧ q1.Normal = q.Normal := by
  induction ps with
  | nil =>
    intro fp q hq
    exact ⟨q, rfl, by simpa using hq, rfl⟩
  | cons p ps ih =>
    intro fp q hq
    obtain ⟨qa, qb, qc, ha, hb, hc, _, _, _, hqc, hnc⟩ :=
      paragraph_run env kind fp rest hk p q hq
    obtain ⟨q1, h1, hq1, hn1⟩ := ih false qc hqc
    refine ⟨q1, ?_, by simpa using hq1, by rw [hn1, hnc]⟩
    simp only [paragraphsEvents, paragraphEvents]
    exact run_ok_append (run_ok_cons ha (run_ok_append hb (run_ok_cons hc rfl))) h1

/-- C16 (paragraph line breaks). For a list item whose direct children are
the paragraphs `ps` (texts plain or wrapped in emphasis, strong or a link),
entered with the item frame on top, its first-paragraph mark set, outside an
image and outside strong: the handler emits no line break on entering or
leaving paragraph 0, whose leave clears the mark, and exactly one line break
on entering and one on leaving every later paragraph `j`, each after the
selection of the normal style. For a paragraph met with a top frame that is
not an item frame, the handler emits exactly one line break on enter and one
on leave. -/
theorem paragraph_line_breaks (env : Env) (ps : List (List Span)) (r : PdfRenderer)
    (item : containerState) (rest : List containerState) (hcs : r.cs = item :: rest)
    (hitem : item.containerType = NodeType.Item) (hkind : item.listkind ≠ ListKind.notlist)
    (hfirst : item.firstParagraph = true)
    (himg : r.IsInImage = false) (hstrong : r.StrongOn = false) :
    (∀ (j : Nat) (hj : j < ps.length), ∃ post ra rb rc rd itemc itemd,
      (paragraphsDoc ps).events =
        paragraphsEvents (ps.take j) ++
          (Event.enter Container.Paragraph :: (spansEvents ps[j] ++
            Event.leave Container.Paragraph :: post)) ∧
      run env (paragraphsEvents (ps.take j)) r = Except.ok ra ∧
      step env (Event.enter Container.Paragraph) ra = Except.ok rb ∧
      run env (spansEvents ps[j]) rb = Except.ok rc ∧
      step env (Event.leave Container.Paragraph) rc = Except.ok rd ∧
      rb.Pdf.log = ra.Pdf.log ++ [Cmd.setStyler r.Normal] ++
        (if j = 0 then [] else [Cmd.cr]) ∧
      rd.Pdf.log = rc.Pdf.log ++ [Cmd.setStyler r.Normal] ++
        (if j = 0 then [] else [Cmd.cr]) ∧
      rc.cs = itemc :: rest ∧ itemc.firstParagraph = decide (j = 0) ∧
      rd.cs = itemd :: rest ∧ itemd.firstParagraph = false) ∧
    (∀ (q : PdfRenderer) (top : containerState) (rest1 : List containerState)
      (entering : Bool), q.cs = top :: rest1 → top.containerType ≠ NodeType.Item →
      ∃ q1, handle env Container.Paragraph entering q = Except.ok q1 ∧
        q1.Pdf.log = q.Pdf.log ++ [Cmd.setStyler q.Normal, Cmd.cr]) := by
  constructor
  · intro j hj
    have hr : InItem r item.listkind true rest :=
      ⟨⟨item, hcs, hitem, rfl, hfirst⟩, himg, hstrong⟩
    obtain ⟨ra, h1, hqa, hna⟩ :=
      paragraphs_run env item.listkind rest hkind (ps.take j) true r hr
    obtain ⟨rb, rc, rd, hb, hc, hd, hlb, hld, hqc, hqd, _⟩ :=
      paragraph_run env item.listkind _ rest hkind ps[j] ra hqa
    obtain ⟨⟨itemc, hcc, _, _, hfc⟩, _, _⟩ := hqc
    obtain ⟨⟨itemd, hcd, _, _, hfd⟩, _, _⟩ := hqd
    have hfp : (true && (ps.take j).isEmpty) = decide (j = 0) := by
      cases j with
      | zero => simp
      | succ n =>
        cases ps with
        | nil => simp at hj
        | cons p ps => simp
    rw [hfp] at hlb hld hfc
    refine ⟨_, ra, rb, rc, rd, itemc, itemd, paragraphs_split ps j hj, h1, hb, hc, hd, ?_, ?_,
      hcc, hfc, hcd, hfd⟩
    · rw [hlb, hna]; simp
    · rw [hld, hna]; simp
  · intro q top rest1 entering hq hty
    obtain ⟨q1, h1, _, hl⟩ := paragraph_other env entering q top rest1 hq hty
    exact ⟨q1, h1, hl⟩

/-- C16, at the first item of the example list with two paragraphs: the
second paragraph is entered and left with one line break each, and the item
frame's first-paragraph mark is cleared. -/
theorem paragraph_line_breaks_witness :
    exampleInItem.cs = [exampleItemFrame, exampleListFrame, exampleRootFrame] ∧
    ∃ ra rb rc rd itemd,
      run exampleEnv (paragraphsEvents [[⟨Wrap.plain, "one"⟩]]) exampleInItem = Except.ok ra ∧
      step exampleEnv (Event.enter Container.Paragraph) ra = Except.ok rb ∧
      run exampleEnv (spansEvents [⟨Wrap.strong, "two"⟩]) rb = Except.ok rc ∧
      step exampleEnv (Event.leave Container.Paragraph) rc = Except.ok rd ∧
      rb.Pdf.log = ra.Pdf.log ++ [Cmd.setStyler exampleNormal] ++ [Cmd.cr] ∧
      rd.Pdf.log = rc.Pdf.log ++ [Cmd.setStyler exampleNormal] ++ [Cmd.cr] ∧
      rd.cs = itemd :: [exampleListFrame, exampleRootFrame] ∧
      itemd.firstParagraph = false := by
  obtain ⟨_, ra, rb, rc, rd, _, itemd, _, h1, h2, h3, h4, h5, h6, _, _, h7, h8⟩ :=
    (paragraph_line_breaks exampleEnv [[⟨Wrap.plain, "one"⟩], [⟨Wrap.strong, "two"⟩]]
      exampleInItem exampleItemFrame [exampleListFrame, exampleRootFrame] rfl rfl
      (by decide) rfl rfl rfl).1 1 (by decide)
  exact ⟨rfl, ra, rb, rc, rd, itemd, h1, h2, h3, h4, h5, h6, h7, h8⟩

end Mdtopdf
